import Mathlib

/-!
# tossp/tstype: a shallow embedding of the scalar adapters

The repository defines four database value adapters (`Numeric`, `JSON`, `UUID`,
`Timestamptz`) over a shared `Status` tag.  This file embeds the parts of the Go
source that the stated properties are about and proves those properties.

Conventions of the embedding:

* a Go `[]byte` is `Slice = Option (List Byte)`; `none` is the nil slice, which the
  code distinguishes from an empty non-nil slice (`src == nil`);
* a Go `string` is the list of its bytes;
* a method with a pointer receiver that returns `error` becomes a function from the
  receiver state before the call to the pair (receiver state after, returned error);
* `int64` values are integers, and every `int64` operation that can overflow in Go is
  followed by `wrap64`;
* functions of the Go standard library and of third-party packages are modelled after
  their documented behaviour and are marked as such; where only the outcome of such a
  function matters (`uuid.FromString`, `time.Parse`, `json.Marshal`, the binary codec of
  `pgtype.Numeric`), it is an argument of the embedded function or of the input shape;
* a call that may fail to return (a run-time panic, an unbounded recursion) has an
  `Option` result, `none` standing for "does not return"; an unbounded recursion is
  cut by a `fuel` argument;
* an argument of type `interface{}` is an inductive type of the dynamic shapes the
  function distinguishes, and a destination pointer is the value of the variable it
  points to, before the call as argument and after the call as result.
-/

namespace Tstype

/-! ## Bytes, slices, machine integers -/

/-- One byte. -/
abbrev Byte := Fin 256

/-- A Go byte slice; `none` is the nil slice. -/
abbrev Slice := Option (List Byte)

/-- The byte holding `n` modulo 256 (Go `byte(n)`). -/
def byteOf (n : Nat) : Byte := ⟨n % 256, Nat.mod_lt _ (by decide)⟩

/-- Go `append(buf, s...)`: appending nothing to the nil slice leaves it nil. -/
def goAppend (buf : Slice) (s : List Byte) : Slice :=
  match buf, s with
  | none, [] => none
  | none, x :: xs => some (x :: xs)
  | some b, s => some (b ++ s)

/-- Go `copy(dst, src)` on a destination array: the first `min (len dst) (len src)`
elements of `dst` are overwritten by those of `src`. -/
def goCopy (dst src : List Byte) : List Byte :=
  src.take dst.length ++ dst.drop src.length

/-- Reduction of an integer into the `int64` range (two's complement wrap-around). -/
def wrap64 (i : Int) : Int := (i + 2 ^ 63) % 2 ^ 64 - 2 ^ 63

/-- Go `int64(u)` for a `uint64` value `u`. -/
def toInt64 (u : Nat) : Int := wrap64 (u : Int)

/-- Go `uint64(i)` for an `int64` value `i`. -/
def toUint64 (i : Int) : Nat := (i % 2 ^ 64).toNat

/-- Go integer division, truncated toward zero. -/
def goDiv (a b : Int) : Int := Int.tdiv a b

/-- Go integer remainder; it has the sign of the dividend. -/
def goMod (a b : Int) : Int := Int.tmod a b

/-- Modelled after `encoding/binary`: `binary.BigEndian.Uint64(b)` reads the first
eight bytes of `b` as a big-endian unsigned integer. -/
def beUint64 (b : List Byte) : Nat :=
  (b.take 8).foldl (fun acc x => acc * 256 + x.val) 0

/-- Modelled after `encoding/binary`: the eight big-endian bytes of a `uint64`. -/
def bePutUint64 (u : Nat) : List Byte :=
  [byteOf (u / 2 ^ 56), byteOf (u / 2 ^ 48), byteOf (u / 2 ^ 40), byteOf (u / 2 ^ 32),
   byteOf (u / 2 ^ 24), byteOf (u / 2 ^ 16), byteOf (u / 2 ^ 8), byteOf u]

/-- Modelled after `github.com/jackc/pgio`: `pgio.AppendInt64(buf, n)` extends `buf`
by the eight big-endian bytes of `uint64(n)`; the result is never nil. -/
def AppendInt64 (buf : Slice) (n : Int) : Slice :=
  some (buf.getD [] ++ bePutUint64 (toUint64 n))

/-! ## tstype.go: the status tag and errors -/

/-- Source: `type Status byte`. -/
abbrev Status := Fin 256

/-- Source: `Null Status = iota`. -/
def Null : Status := 0

/-- Source: `Present`, the second constant of the `iota` block. -/
def Present : Status := 1

/-- The errors the modelled functions return. -/
inductive Err where
  /-- `errBadStatus = errors.New("invalid status")`. -/
  | badStatus
  /-- `invalid length for timestamptz: n` and `invalid length for UUID: n`. -/
  | invalidLength (n : Nat)
  /-- `[]byte must be 16 bytes to convert to UUID: n`. -/
  | mustBe16 (n : Nat)
  /-- `cannot convert v to T`. -/
  | cannotConvert
  /-- `unable to assign to T`. -/
  | unableToAssign
  /-- Source: `type nullAssignmentError struct`; of the destination `dst` it holds, only
  the name of its type is kept, which is all its `Error` method reads. -/
  | nullAssignment (dstType : String)
  /-- `cannot assign non-present status to T`. -/
  | nonPresent
  /-- `cannot assign v to T` and `cannot assign v into T`. -/
  | cannotAssign
  /-- `cannot decode v into T`. -/
  | cannotDecode
  /-- `cannot scan T`. -/
  | cannotScan
  /-- `use pointer to JSON instead of value`. -/
  | misuse
  /-- An error returned by `decimal.NewFromString`. -/
  | decimalParse
  /-- An error returned by a parser of another package. -/
  | parse
  deriving DecidableEq, Repr

deriving instance DecidableEq for Except

/-- The bytes of a string constant of the source. -/
def bytesOf (s : String) : List Byte := s.data.map fun c => byteOf c.toNat

/-- Source: `func (e *nullAssignmentError) Error() string`, with `%T` of the
destination given by name. -/
def nullAssignmentError.Error (dstType : String) : String :=
  "cannot assign NULL to " ++ dstType

/-- What the null assignment routine reads of a destination: the name of its type
(`%T`), and, when the destination points to a pointer, slice or map, the destination
with that variable set to its zero value (`none` for any other destination). -/
class Destination (D : Type) where
  typeName : D → String
  zeroIfNullable : D → Option D

/-- Modelled from the spec: `NullAssignTo` of this package is not among the source
files.  The spec has it set a nullable destination to its zero representation, and
fail with a `NullAssignmentError` naming the destination type for any other
destination, which is left as it was.  `Numeric.AssignTo` and `Timestamptz.AssignTo`
call it. -/
def NullAssignTo {D : Type} [Destination D] (dst : D) : D × Option Err :=
  match Destination.zeroIfNullable dst with
  | some zeroed => (zeroed, none)
  | none => (dst, some (Err.nullAssignment (Destination.typeName dst)))

/-- Modelled after `github.com/jackc/pgtype`: `pgtype.NullAssignTo(dst)`, which sets the
variable a destination points to to its zero value when that variable is a pointer, a
slice or a map, and returns the `nullAssignmentError` of that package, whose message is
`cannot assign NULL to %T` as well, for any other destination, which it leaves as it
was. -/
def pgtype.NullAssignTo {D : Type} [Destination D] (dst : D) : D × Option Err :=
  match Destination.zeroIfNullable dst with
  | some zeroed => (zeroed, none)
  | none => (dst, some (Err.nullAssignment (Destination.typeName dst)))

/-! ## Calendar instants (package `time`) -/

/-- Modelled after package `time`: a `time.Time` as the instant it denotes, given by
what `t.Unix()` (an `int64`) and `t.Nanosecond()` (in `[0, 999999999]`) return.  The
location of a `time.Time` only affects presentation and is not modelled. -/
structure Time where
  sec : Int
  nsec : Int
  deriving DecidableEq, Repr

/-- The values `Unix()` and `Nanosecond()` can return. -/
def Time.WellFormed (t : Time) : Prop :=
  -(2 ^ 63) ≤ t.sec ∧ t.sec < 2 ^ 63 ∧ 0 ≤ t.nsec ∧ t.nsec < 1000000000

instance (t : Time) : Decidable t.WellFormed := by
  unfold Time.WellFormed; infer_instance

/-- The zero `time.Time`, January 1 of year 1, 00:00:00 UTC. -/
def Time.zero : Time := { sec := -62135596800, nsec := 0 }

/-- Modelled after package `time`: `time.Unix(sec, nsec)`.  An `nsec` outside
`[0, 999999999]` is carried into the seconds. -/
def Time.Unix (sec nsec : Int) : Time :=
  if nsec < 0 ∨ nsec ≥ 1000000000 then
    let n := goDiv nsec 1000000000
    let sec1 := wrap64 (sec + n)
    let nsec1 := nsec - n * 1000000000
    if nsec1 < 0 then { sec := wrap64 (sec1 - 1), nsec := nsec1 + 1000000000 }
    else { sec := sec1, nsec := nsec1 }
  else { sec := sec, nsec := nsec }

/-! ## timestamptz.go -/

/-- Source: `microsecFromUnixEpochToY2K = 946684800 * 1000000`. -/
def microsecFromUnixEpochToY2K : Int := 946684800 * 1000000

/-- Source: `negativeInfinityMicrosecondOffset`. -/
def negativeInfinityMicrosecondOffset : Int := -9223372036854775808

/-- Source: `infinityMicrosecondOffset`. -/
def infinityMicrosecondOffset : Int := 9223372036854775807

/-- Modelled after `pgtype.InfinityModifier`, an `int8`. -/
abbrev InfinityModifier := Int

/-- The constant `pgtype.Infinity`. -/
def Infinity : InfinityModifier := 1

/-- The constant `pgtype.None`. -/
def None : InfinityModifier := 0

/-- The constant `pgtype.NegativeInfinity`, declared as `-Infinity`. -/
def NegativeInfinity : InfinityModifier := -1

/-- Source: `type Timestamptz struct`. -/
structure Timestamptz where
  Time : Time
  Status : Status
  InfinityModifier : InfinityModifier
  deriving DecidableEq, Repr

namespace Timestamptz

/-- The composite literal `Timestamptz{Status: Null}`; omitted fields are zero. -/
def nullValue : Timestamptz :=
  { Time := Time.zero, Status := Null, InfinityModifier := None }

/-- Source: `func (dst *Timestamptz) DecodeBinary(ci, src []byte) error`. -/
def DecodeBinary (dst : Timestamptz) (src : Slice) : Timestamptz × Option Err :=
  match src with
  | none => (nullValue, none)
  | some b =>
    if b.length ≠ 8 then (dst, some (Err.invalidLength b.length))
    else
      let microsecSinceY2K := toInt64 (beUint64 b)
      if microsecSinceY2K = infinityMicrosecondOffset then
        ({ Time := Time.zero, Status := Present, InfinityModifier := Infinity }, none)
      else if microsecSinceY2K = negativeInfinityMicrosecondOffset then
        ({ Time := Time.zero, Status := Present, InfinityModifier := NegativeInfinity }, none)
      else
        let microsecSinceUnixEpoch := wrap64 (microsecFromUnixEpochToY2K + microsecSinceY2K)
        let tim := Time.Unix (goDiv microsecSinceUnixEpoch 1000000)
          (goMod microsecSinceUnixEpoch 1000000 * 1000)
        ({ Time := tim, Status := Present, InfinityModifier := None }, none)

/-- The value of `microsecSinceY2K` that `EncodeBinary` computes; the variable starts
as zero and keeps it when the modifier is none of the three constants. -/
def encodeMicrosecSinceY2K (src : Timestamptz) : Int :=
  if src.InfinityModifier = None then
    let microsecSinceUnixEpoch :=
      wrap64 (wrap64 (src.Time.sec * 1000000) + goDiv src.Time.nsec 1000)
    wrap64 (microsecSinceUnixEpoch - microsecFromUnixEpochToY2K)
  else if src.InfinityModifier = Infinity then infinityMicrosecondOffset
  else if src.InfinityModifier = NegativeInfinity then negativeInfinityMicrosecondOffset
  else 0

/-- Source: `func (src Timestamptz) EncodeBinary(ci, buf []byte) ([]byte, error)`. -/
def EncodeBinary (src : Timestamptz) (buf : Slice) : Except Err Slice :=
  if src.Status = Null then .ok none
  else .ok (AppendInt64 buf (encodeMicrosecSinceY2K src))

end Timestamptz

/-! ## database_sql.go -/

/-- A `driver.Value` other than the nil interface, as far as the adapters produce
one. -/
inductive DriverValue where
  /-- A Go `string`. -/
  | str (s : List Byte)
  /-- A Go `[]byte`; the slice inside may itself be nil. -/
  | bytes (b : Slice)
  /-- A `time.Time`. -/
  | time (t : Time)
  deriving DecidableEq, Repr

/-- Source: `func EncodeValueText(src pgtype.TextEncoder) (interface{}, error)`, given
the `EncodeText` method of `src`.  `make([]byte, 0, 32)` is an empty non-nil slice; the
result `none` is the nil interface. -/
def EncodeValueText (encodeText : Slice → Except Err Slice) :
    Except Err (Option DriverValue) :=
  match encodeText (some []) with
  | .error err => .error err
  | .ok none => .ok none
  | .ok (some buf) => .ok (some (DriverValue.str buf))

/-! ## uuid.go -/

/-- Modelled after `github.com/gofrs/uuid`: `type UUID [16]byte`. -/
abbrev Array16 := { l : List Byte // l.length = 16 }

/-- The zero `[16]byte`. -/
def Array16.zero : Array16 := ⟨List.replicate 16 0, rfl⟩

/-- Go `copy(a[:], src)` for an array `a` of sixteen bytes. -/
def Array16.copyFrom (a : Array16) (src : List Byte) : Array16 :=
  ⟨goCopy a.val src, by
    have h := a.property
    simp only [goCopy, List.length_append, List.length_take, List.length_drop]
    omega⟩

/-- A lower-case hexadecimal digit. -/
def hexDigit (n : Nat) : Byte := if n < 10 then byteOf (48 + n) else byteOf (87 + n)

/-- Modelled after `encoding/hex`: `hex.Encode`, two digits per byte. -/
def hexEncode (l : List Byte) : List Byte :=
  l.flatMap fun b => [hexDigit (b.val / 16), hexDigit (b.val % 16)]

/-- Modelled after `github.com/gofrs/uuid`: `func (u UUID) String() string`, the
canonical form `xxxxxxxx-xxxx-xxxx-xxxx-xxxxxxxxxxxx`. -/
def Array16.String (u : Array16) : List Byte :=
  hexEncode (u.val.take 4) ++ [45] ++ hexEncode ((u.val.drop 4).take 2) ++ [45] ++
    hexEncode ((u.val.drop 6).take 2) ++ [45] ++ hexEncode ((u.val.drop 8).take 2) ++ [45] ++
    hexEncode (u.val.drop 10)

set_option linter.dupNamespace false in
/-- Source: `type UUID struct`. -/
structure UUID where
  UUID : Array16
  Status : Status
  deriving DecidableEq, Repr

/-- The dynamic shapes of the argument of `UUID.Set`. -/
inductive UUIDSrc where
  /-- The nil interface. -/
  | nil
  /-- A value with a `Get() interface{}` method whose result `inner` differs from it. -/
  | getter (inner : UUIDSrc)
  /-- A `uuid.UUID`. -/
  | uuid (v : Array16)
  /-- A `[16]byte`. -/
  | array16 (v : Array16)
  /-- A `[]byte`, possibly the nil slice. -/
  | bytes (v : Slice)
  /-- A `string`. -/
  | string (s : List Byte)
  /-- A value of any other type, such as an `int`. -/
  | other
  deriving DecidableEq, Repr

namespace UUID

/-- The composite literal `UUID{Status: Null}`, which is also `UUID{}`. -/
def nullValue : Tstype.UUID := { UUID := Array16.zero, Status := Null }

/-- Source: `func (dst *UUID) Set(src interface{}) error`.  `FromString` stands for
`uuid.FromString` of `github.com/gofrs/uuid`.  In the default case the source creates
a `UUID` of this same package and calls its `Set` with the same value, so the call
recurses; the recursion depth is bounded here by `fuel`, and `none` means that the
bound was reached. -/
def Set (FromString : List Byte → Except Err Array16) :
    Nat → Tstype.UUID → UUIDSrc → Option (Tstype.UUID × Option Err)
  | 0, _, _ => none
  | fuel + 1, dst, src =>
    match src with
    | .nil => some (nullValue, none)
    | .getter inner => Set FromString fuel dst inner
    | .uuid value => some ({ UUID := value, Status := Present }, none)
    | .array16 value => some ({ UUID := value, Status := Present }, none)
    | .bytes value =>
      if (value.getD []).length ≠ 16 then
        some (dst, some (Err.mustBe16 (value.getD []).length))
      else
        some ({ UUID := Array16.zero.copyFrom (value.getD []), Status := Present }, none)
    | .string value =>
      match FromString value with
      | .error err => some (dst, some err)
      | .ok u => some ({ UUID := u, Status := Present }, none)
    | .other =>
      match Set FromString fuel nullValue .other with
      | none => none
      | some (_, some _) => some (dst, some Err.cannotConvert)
      | some (pgUUID, none) =>
        some ({ UUID := pgUUID.UUID, Status := pgUUID.Status }, none)

/-- Source: `func (dst *UUID) DecodeBinary(ci, src []byte) error`. -/
def DecodeBinary (dst : Tstype.UUID) (src : Slice) : Tstype.UUID × Option Err :=
  match src with
  | none => (nullValue, none)
  | some b =>
    if b.length ≠ 16 then (dst, some (Err.invalidLength b.length))
    else ({ UUID := Array16.zero.copyFrom b, Status := Present }, none)

/-- Source: `func (src UUID) EncodeText(ci, buf []byte) ([]byte, error)`. -/
def EncodeText (src : Tstype.UUID) (buf : Slice) : Except Err Slice :=
  if src.Status = Null then .ok none
  else .ok (goAppend buf src.UUID.String)

/-- Source: `func (src UUID) EncodeBinary(ci, buf []byte) ([]byte, error)`. -/
def EncodeBinary (src : Tstype.UUID) (buf : Slice) : Except Err Slice :=
  if src.Status = Null then .ok none
  else .ok (goAppend buf src.UUID.val)

/-- Source: `func (src UUID) Value() (driver.Value, error)`; the function it calls,
`pgtype.EncodeValueText`, has the body of `EncodeValueText` in `database_sql.go`. -/
def Value (src : Tstype.UUID) : Except Err (Option DriverValue) :=
  EncodeValueText src.EncodeText

end UUID

/-! ## Numerals (packages `strconv` and `math/big`) -/

/-- The ASCII character of a decimal digit. -/
def digitByte (d : Nat) : Byte := byteOf (48 + d)

/-- The value of an ASCII decimal digit, `none` for any other byte. -/
def digitVal (c : Byte) : Option Nat :=
  if 48 ≤ c.val ∧ c.val ≤ 57 then some (c.val - 48) else none

/-- The decimal digits of `n`, least significant first; `fuel` bounds their number. -/
def digitsRev : Nat → Nat → List Nat
  | 0, _ => []
  | fuel + 1, n => if n < 10 then [n] else (n % 10) :: digitsRev fuel (n / 10)

/-- Modelled after `strconv`: `strconv.FormatUint(n, 10)`, the decimal digits of `n`
without leading zeros (`0` for zero). -/
def FormatUint (n : Nat) : List Byte := ((digitsRev (n + 1) n).reverse).map digitByte

/-- Reads decimal digits from the left onto the accumulator `acc`; `none` when a byte is
not a digit. -/
def parseDigitsAux : List Byte → Nat → Option Nat
  | [], acc => some acc
  | c :: cs, acc =>
    match digitVal c with
    | none => none
    | some d => parseDigitsAux cs (acc * 10 + d)

/-- The number written by a non-empty string of decimal digits. -/
def parseDigits (s : List Byte) : Option Nat :=
  if s = [] then none else parseDigitsAux s 0

/-- Modelled after `strconv`: `strconv.ParseUint(s, 10, bitSize)`.  The result is the
number `s` denotes when `s` is a non-empty string of decimal digits and the number is
below `2 ^ bitSize`; otherwise a `*NumError` is returned (`none`). -/
def ParseUint (s : List Byte) (bitSize : Nat) : Option Nat :=
  match parseDigits s with
  | none => none
  | some v => if v < 2 ^ bitSize then some v else none

/-- Modelled after `strconv`: `strconv.ParseInt(s, 10, bitSize)` for `bitSize ≥ 2`: an
optional sign, then `ParseUint` on the rest, then the check against the cutoff
`1 << (bitSize - 1)`.  `none` stands for a returned `*NumError`. -/
def ParseInt (s : List Byte) (bitSize : Nat) : Option Int :=
  match s with
  | [] => none
  | c :: rest =>
    let neg : Bool := c = 45
    let s1 := if c = 43 ∨ c = 45 then rest else c :: rest
    match ParseUint s1 bitSize with
    | none => none
    | some un =>
      let cutoff := 2 ^ (bitSize - 1)
      if neg = false ∧ un ≥ cutoff then none
      else if neg = true ∧ un > cutoff then none
      else some (if neg then -(un : Int) else (un : Int))

/-- Modelled after `math/big`: `(*big.Int).SetString(s, 10)`: an optional sign followed
by one or more decimal digits. -/
def bigSetString (s : List Byte) : Option Int :=
  match s with
  | [] => none
  | c :: rest =>
    let neg : Bool := c = 45
    let s1 := if c = 43 ∨ c = 45 then rest else c :: rest
    match parseDigits s1 with
    | none => none
    | some v => some (if neg then -(v : Int) else (v : Int))

/-- Modelled after `math/big`: `(*big.Int).String()`. -/
def bigString (v : Int) : List Byte :=
  if v < 0 then 45 :: FormatUint v.natAbs else FormatUint v.natAbs

/-- Go `T(n)` for a signed integer type `T` of `bits` bits. -/
def truncSigned (bits : Nat) (n : Int) : Int :=
  (n + 2 ^ (bits - 1)) % 2 ^ bits - 2 ^ (bits - 1)

/-- Go `T(n)` for an unsigned integer type `T` of `bits` bits. -/
def truncUnsigned (bits : Nat) (n : Int) : Int := n % 2 ^ bits

/-- The position of the first byte satisfying `p`. -/
def findIndex (p : Byte → Bool) : List Byte → Option Nat
  | [] => none
  | c :: cs => if p c then some 0 else (findIndex p cs).map (· + 1)

/-! ## Decimals (package `github.com/shopspring/decimal`) -/

/-- Modelled after `github.com/shopspring/decimal`: a `decimal.Decimal` is
`value * 10 ^ exp` with `value` a `*big.Int` (nil counts as zero) and `exp` an
`int32`. -/
structure Decimal where
  value : Int
  exp : Int
  deriving DecidableEq, Repr

namespace Decimal

/-- The zero `decimal.Decimal`. -/
def zero : Decimal := { value := 0, exp := 0 }

/-- Modelled after the package: `decimal.New(value, exp)`. -/
def New (value exp : Int) : Decimal := { value := value, exp := exp }

/-- Modelled after the package: `func (d Decimal) Exponent() int32`. -/
def Exponent (d : Decimal) : Int := d.exp

/-- Modelled after the package: `func (d Decimal) Sign() int`. -/
def Sign (d : Decimal) : Int := Int.sign d.value

/-- The rational number a decimal denotes. -/
def toRat (d : Decimal) : ℚ := (d.value : ℚ) * (10 : ℚ) ^ d.exp

/-- Removes the zeros at the end of a string of digits. -/
def trimTrailingZeros (s : List Byte) : List Byte :=
  (s.reverse.dropWhile (· = 48)).reverse

/-- Modelled after the package: `func (d Decimal) String() string`, which is
`d.string(true)`: for a non-negative exponent the integer `value * 10 ^ exp`, otherwise
the digits of `|value|` with the decimal point `-exp` places from the right, zeros at
the end of the fraction removed, and `-` in front of a negative value. -/
def String (d : Decimal) : List Byte :=
  if d.exp ≥ 0 then bigString (d.value * 10 ^ d.exp.toNat)
  else
    let str := FormatUint d.value.natAbs
    let k := (-d.exp).toNat
    let intPart := if str.length > k then str.take (str.length - k) else [48]
    let fractionalPart :=
      if str.length > k then str.drop (str.length - k)
      else List.replicate (k - str.length) 48 ++ str
    let fractionalPart := trimTrailingZeros fractionalPart
    let number := if fractionalPart.length > 0 then intPart ++ 46 :: fractionalPart else intPart
    if d.value < 0 then 45 :: number else number

/-- Modelled after the package: `decimal.NewFromString(value)`: an optional exponent
after `e` or `E`, at most one decimal point, the remaining characters parsed as one
integer (with `strconv.ParseInt` when they are at most 18, else with `big.Int`), and
the digits after the point counted into the exponent without dropping zeros. -/
def NewFromString (value : List Byte) : Except Err Decimal :=
  let scientific : Except Err (List Byte × Int) :=
    match findIndex (fun c => c = 69 || c = 101) value with
    | some eIndex =>
      match ParseInt (value.drop (eIndex + 1)) 32 with
      | none => .error Err.decimalParse
      | some expInt => .ok (value.take eIndex, expInt)
    | none => .ok (value, 0)
  match scientific with
  | .error err => .error err
  | .ok (value, exp) =>
    if value.count 46 > 1 then .error Err.decimalParse
    else
      let pIndex := findIndex (fun c => c = 46) value
      let intString :=
        match pIndex with
        | none => value
        | some p => if p + 1 < value.length then value.take p ++ value.drop (p + 1)
          else value.take p
      let exp :=
        match pIndex with
        | none => exp
        | some p => exp + -((value.drop (p + 1)).length : Int)
      let dValue := if intString.length ≤ 18 then ParseInt intString 64
        else bigSetString intString
      match dValue with
      | none => .error Err.decimalParse
      | some v =>
        if exp < -2147483648 ∨ exp > 2147483647 then .error Err.decimalParse
        else .ok { value := v, exp := exp }

end Decimal

/-! ## decimal.go -/

set_option linter.dupNamespace false in
/-- Source: `type Numeric struct`. -/
structure Numeric where
  Decimal : Decimal
  Status : Status
  deriving DecidableEq, Repr

/-- The dynamic shapes of the argument of `Numeric.Set`.  The two floating-point
shapes of the source are left out. -/
inductive NumericSrc where
  /-- The nil interface. -/
  | nil
  /-- A value with a `Get() interface{}` method whose result `inner` differs from it. -/
  | getter (inner : NumericSrc)
  /-- A `decimal.Decimal`. -/
  | decimal (v : Decimal)
  /-- An `int8`. -/
  | int8 (v : Int)
  /-- A `uint8`. -/
  | uint8 (v : Nat)
  /-- An `int16`. -/
  | int16 (v : Int)
  /-- A `uint16`. -/
  | uint16 (v : Nat)
  /-- An `int32`. -/
  | int32 (v : Int)
  /-- A `uint32`. -/
  | uint32 (v : Nat)
  /-- An `int64`. -/
  | int64 (v : Int)
  /-- A `uint64`. -/
  | uint64 (v : Nat)
  /-- An `int`. -/
  | int (v : Int)
  /-- A `uint`. -/
  | uint (v : Nat)
  /-- A `string`. -/
  | string (s : List Byte)
  /-- A value of any other type; `text` is what `pgtype.Numeric` makes of it through its
  `Set` and `EncodeText`, `none` when one of the two fails. -/
  | other (text : Option (List Byte))
  deriving DecidableEq, Repr

/-- The integer types an integer destination of `AssignTo` can point to. -/
inductive IntKind where
  | int | int8 | int16 | int32 | int64 | uint | uint8 | uint16 | uint32 | uint64
  deriving DecidableEq, Repr

/-- The width in bits of a Go integer type; `int` and `uint` have `intSize` bits. -/
def IntKind.bits (intSize : Nat) : IntKind → Nat
  | .int => intSize
  | .int8 => 8
  | .int16 => 16
  | .int32 => 32
  | .int64 => 64
  | .uint => intSize
  | .uint8 => 8
  | .uint16 => 16
  | .uint32 => 32
  | .uint64 => 64

/-- Whether a Go integer type is signed. -/
def IntKind.signed : IntKind → Bool
  | .int | .int8 | .int16 | .int32 | .int64 => true
  | .uint | .uint8 | .uint16 | .uint32 | .uint64 => false

/-- The integers a variable of a Go integer type can hold. -/
def IntKind.InRange (intSize : Nat) (k : IntKind) (n : Int) : Prop :=
  if k.signed then -(2 ^ (k.bits intSize - 1)) ≤ n ∧ n < 2 ^ (k.bits intSize - 1)
  else 0 ≤ n ∧ n < 2 ^ k.bits intSize

instance (intSize : Nat) (k : IntKind) (n : Int) : Decidable (k.InRange intSize n) := by
  unfold IntKind.InRange; infer_instance

/-- The destinations of `Numeric.AssignTo`, each with the value the pointed-to variable
holds.  The two floating-point destinations of the source and the destinations for
which `pgtype.GetAssignToDstType` proposes another destination are left out. -/
inductive NumericDst where
  /-- A `*decimal.Decimal`. -/
  | decimal (v : Decimal)
  /-- A pointer to a variable of the integer type `k`. -/
  | integer (k : IntKind) (v : Int)
  /-- A destination of any other type, by the name of its type; `nullable` tells
  whether it points to a pointer, slice or map.  Its content is not modelled. -/
  | other (typeName : String) (nullable : Bool)
  deriving DecidableEq, Repr

/-- The Go name of an integer type. -/
def IntKind.name : IntKind → String
  | .int => "int"
  | .int8 => "int8"
  | .int16 => "int16"
  | .int32 => "int32"
  | .int64 => "int64"
  | .uint => "uint"
  | .uint8 => "uint8"
  | .uint16 => "uint16"
  | .uint32 => "uint32"
  | .uint64 => "uint64"

instance : Destination NumericDst where
  typeName
    | .decimal _ => "*decimal.Decimal"
    | .integer k _ => "*" ++ k.name
    | .other typeName _ => typeName
  zeroIfNullable
    | .other typeName true => some (.other typeName true)
    | _ => none

namespace Numeric

/-- The composite literal `Numeric{Status: Null}`. -/
def nullValue : Numeric := { Decimal := Decimal.zero, Status := Null }

/-- The cases of `Set` that go through `decimal.NewFromString`. -/
def setFromString (dst : Numeric) (s : List Byte) (wrap : Bool) : Numeric × Option Err :=
  match Tstype.Decimal.NewFromString s with
  | .error err => (dst, some (if wrap then Err.cannotConvert else err))
  | .ok dec => ({ Decimal := dec, Status := Present }, none)

/-- Source: `func (dst *Numeric) Set(src interface{}) error`. -/
def Set (dst : Numeric) : NumericSrc → Numeric × Option Err
  | .nil => (nullValue, none)
  | .getter inner => Set dst inner
  | .decimal value => ({ Decimal := value, Status := Present }, none)
  | .int8 value => ({ Decimal := Tstype.Decimal.New value 0, Status := Present }, none)
  | .uint8 value => ({ Decimal := Tstype.Decimal.New value 0, Status := Present }, none)
  | .int16 value => ({ Decimal := Tstype.Decimal.New value 0, Status := Present }, none)
  | .uint16 value => ({ Decimal := Tstype.Decimal.New value 0, Status := Present }, none)
  | .int32 value => ({ Decimal := Tstype.Decimal.New value 0, Status := Present }, none)
  | .uint32 value => ({ Decimal := Tstype.Decimal.New value 0, Status := Present }, none)
  | .int64 value => ({ Decimal := Tstype.Decimal.New value 0, Status := Present }, none)
  | .uint64 value => setFromString dst (FormatUint value) false
  | .int value => ({ Decimal := Tstype.Decimal.New value 0, Status := Present }, none)
  | .uint value => setFromString dst (FormatUint value) false
  | .string value => setFromString dst value false
  | .other none => (dst, some Err.cannotConvert)
  | .other (some buf) => setFromString dst buf true

/-- The body shared by the signed integer cases of `AssignTo`: the exponent check,
`strconv.ParseInt(src.Decimal.String(), 10, bitSize)` and the store `*v = T(n)`. -/
def assignSigned (src : Numeric) (bitSize : Nat) (k : IntKind) (old : Int) :
    NumericDst × Option Err :=
  if src.Decimal.Exponent < 0 then (.integer k old, some Err.cannotConvert)
  else
    match ParseInt src.Decimal.String bitSize with
    | none => (.integer k old, some Err.cannotConvert)
    | some n => (.integer k (truncSigned bitSize n), none)

/-- The body shared by the unsigned integer cases of `AssignTo`: the exponent and sign
check, `strconv.ParseUint(src.Decimal.String(), 10, bitSize)` and the store
`*v = T(n)`. -/
def assignUnsigned (src : Numeric) (bitSize : Nat) (k : IntKind) (old : Int) :
    NumericDst × Option Err :=
  if src.Decimal.Exponent < 0 ∨ src.Decimal.Sign < 0 then
    (.integer k old, some Err.cannotConvert)
  else
    match ParseUint src.Decimal.String bitSize with
    | none => (.integer k old, some Err.cannotConvert)
    | some n => (.integer k (truncUnsigned bitSize n), none)

/-- Source: `func (src *Numeric) AssignTo(dst interface{}) error`, with the destination
before the call as argument and the destination after the call as first result.
`intSize` is `strconv.IntSize`, 32 or 64. -/
def AssignTo (intSize : Nat) (src : Numeric) (dst : NumericDst) : NumericDst × Option Err :=
  if src.Status = Present then
    match dst with
    | .decimal _ => (.decimal src.Decimal, none)
    | .integer .int old => assignSigned src intSize .int old
    | .integer .int8 old => assignSigned src 8 .int8 old
    | .integer .int16 old => assignSigned src 16 .int16 old
    | .integer .int32 old => assignSigned src 32 .int32 old
    | .integer .int64 old => assignSigned src 64 .int64 old
    | .integer .uint old => assignUnsigned src intSize .uint old
    | .integer .uint8 old => assignUnsigned src 8 .uint8 old
    | .integer .uint16 old => assignUnsigned src 16 .uint16 old
    | .integer .uint32 old => assignUnsigned src 32 .uint32 old
    | .integer .uint64 old => assignUnsigned src 64 .uint64 old
    | .other typeName nullable => (.other typeName nullable, some Err.unableToAssign)
  else if src.Status = Null then NullAssignTo dst
  else (dst, none)

/-- Source: `func (dst *Numeric) DecodeText(ci, src []byte) error`. -/
def DecodeText (dst : Numeric) (src : Slice) : Numeric × Option Err :=
  match src with
  | none => (nullValue, none)
  | some b =>
    match Tstype.Decimal.NewFromString b with
    | .error err => (dst, some err)
    | .ok dec => ({ Decimal := dec, Status := Present }, none)

/-- Source: `func (src Numeric) EncodeText(ci, buf []byte) ([]byte, error)`. -/
def EncodeText (src : Numeric) (buf : Slice) : Except Err Slice :=
  if src.Status = Present then .ok (goAppend buf src.Decimal.String)
  else if src.Status = Null then .ok none
  else .error Err.badStatus

/-- Source: `func (src Numeric) Value() (driver.Value, error)`; `Decimal.Value()` of the
decimal package returns `d.String()`. -/
def Value (src : Numeric) : Except Err (Option DriverValue) :=
  if src.Status = Present then .ok (some (DriverValue.str src.Decimal.String))
  else if src.Status = Null then .ok none
  else .error Err.badStatus

end Numeric

/-! ## json.go -/

/-- Source: `type JSON struct`. -/
structure JSON where
  Bytes : Slice
  Status : Status
  deriving DecidableEq, Repr

/-- The dynamic shapes of the argument of `JSON.Set`.  `JSONB` is not among the source
files, and a `JSONB` passed by value is left out. -/
inductive JSONSrc where
  /-- The nil interface. -/
  | nil
  /-- A value with a `Get() interface{}` method whose result `inner` differs from it. -/
  | getter (inner : JSONSrc)
  /-- A `string`. -/
  | string (s : List Byte)
  /-- A `*string`, possibly nil. -/
  | stringPtr (p : Option (List Byte))
  /-- A `[]byte`, possibly the nil slice. -/
  | bytes (b : Slice)
  /-- A `JSON` passed by value whose payload `json.Unmarshal` decodes; `decoded` is the
  decoded value, as an argument of `Set`. -/
  | json (v : JSON) (decoded : JSONSrc)
  /-- A `JSON` passed by value whose payload `json.Unmarshal` rejects. -/
  | jsonUndecodable (v : JSON)
  /-- A value of any other type, with what `json.Marshal` returns for it. -/
  | other (marshal : Except Err (List Byte))
  deriving DecidableEq, Repr

namespace JSON

/-- The composite literal `JSON{Status: Null}`. -/
def nullValue : JSON := { Bytes := none, Status := Null }

/-- Source: `func (dst *JSON) Set(src interface{}) error`; `none` means that the call
does not return.  `JSON` has the method `Get` with a value receiver, so a `JSON`
passed by value is caught by the test for a `Get` method, which comes before the type
switch: `Get` returns nil unless the status is Present, the decoded payload when
`json.Unmarshal` accepts it, and otherwise the `JSON` itself; in the last case
`value2 != value` compares two interface values of the same dynamic type `JSON`, a
struct with a slice field, which Go answers with a run-time panic. -/
def Set (dst : JSON) : JSONSrc → Option (JSON × Option Err)
  | .nil => some (nullValue, none)
  | .getter inner => Set dst inner
  | .string value => some ({ Bytes := some value, Status := Present }, none)
  | .stringPtr none => some (nullValue, none)
  | .stringPtr (some value) => some ({ Bytes := some value, Status := Present }, none)
  | .bytes none => some (nullValue, none)
  | .bytes (some value) => some ({ Bytes := some value, Status := Present }, none)
  | .json v decoded => if v.Status = Present then Set dst decoded else some (nullValue, none)
  | .jsonUndecodable v => if v.Status = Present then none else some (nullValue, none)
  | .other (.error err) => some (dst, some err)
  | .other (.ok buf) => some ({ Bytes := some buf, Status := Present }, none)

/-- Source: `func (src JSON) Value() (driver.Value, error)`. -/
def Value (src : JSON) : Except Err (Option DriverValue) :=
  if src.Status = Present then .ok (some (DriverValue.bytes src.Bytes))
  else .ok none

end JSON

/-- Modelled after `pgtype`: `func (im InfinityModifier) String() string`. -/
def InfinityModifier.String (im : InfinityModifier) : List Byte :=
  if im = None then [110, 111, 110, 101]
  else if im = Infinity then [105, 110, 102, 105, 110, 105, 116, 121]
  else if im = NegativeInfinity then [45, 105, 110, 102, 105, 110, 105, 116, 121]
  else [105, 110, 118, 97, 108, 105, 100]

/-- The dynamic shapes of the argument of `Timestamptz.Set`. -/
inductive TimestamptzSrc where
  /-- The nil interface. -/
  | nil
  /-- A value with a `Get() interface{}` method whose result `inner` differs from it. -/
  | getter (inner : TimestamptzSrc)
  /-- A `time.Time`. -/
  | time (t : Time)
  /-- A `*time.Time`, possibly nil. -/
  | timePtr (p : Option Time)
  /-- A `pgtype.InfinityModifier`. -/
  | infinityModifier (m : InfinityModifier)
  /-- A value of another type for which `underlyingTimeType` returns `original`. -/
  | convertible (original : TimestamptzSrc)
  /-- A value of another type for which `underlyingTimeType` reports failure. -/
  | other
  deriving DecidableEq, Repr

namespace Timestamptz

/-- Source: `func (dst *Timestamptz) Set(src interface{}) error`. -/
def Set (dst : Timestamptz) : TimestamptzSrc → Timestamptz × Option Err
  | .nil => (nullValue, none)
  | .getter inner => Set dst inner
  | .time value => ({ Time := value, Status := Present, InfinityModifier := None }, none)
  | .timePtr none => (nullValue, none)
  | .timePtr (some value) =>
    ({ Time := value, Status := Present, InfinityModifier := None }, none)
  | .infinityModifier value =>
    ({ Time := Time.zero, Status := Present, InfinityModifier := value }, none)
  | .convertible originalSrc => Set dst originalSrc
  | .other => (dst, some Err.cannotConvert)

/-- Source: `func (src Timestamptz) Value() (driver.Value, error)`. -/
def Value (src : Timestamptz) : Except Err (Option DriverValue) :=
  if src.Status = Present then
    if src.InfinityModifier ≠ None then
      .ok (some (DriverValue.str (InfinityModifier.String src.InfinityModifier)))
    else .ok (some (DriverValue.time src.Time))
  else .ok none

end Timestamptz

/-! ## uuid.go: `UnmarshalJSON` -/

/-- Modelled after `bytes`: `bytes.Trim(s, cutset)` for a cutset of ASCII characters,
`s` without its leading and its trailing bytes that are in the cutset. -/
def Trim (s cutset : List Byte) : List Byte :=
  ((s.dropWhile fun c => cutset.contains c).reverse.dropWhile fun c =>
    cutset.contains c).reverse

/-- Modelled after `github.com/gofrs/uuid`: `(*UUID).UnmarshalBinary(data)`, which
rejects data that is not 16 bytes long and copies it otherwise. -/
def Array16.UnmarshalBinary (u : Array16) (data : List Byte) : Array16 × Option Err :=
  if data.length ≠ 16 then (u, some Err.parse) else (u.copyFrom data, none)

/-- Source: `func (dst *UUID) UnmarshalJSON(b []byte) (err error)`; `UnmarshalText`
stands for `(*UUID).UnmarshalText` of `github.com/gofrs/uuid`, applied to the zero
identifier of `uuid.NullUUID{}`. -/
def UUID.UnmarshalJSON (UnmarshalText : List Byte → Except Err Array16) (dst : Tstype.UUID)
    (b : Slice) : Tstype.UUID × Option Err :=
  if b = none ∨ b.getD [] = bytesOf "null" then (UUID.nullValue, none)
  else
    let r : Array16 × Option Err :=
      if (b.getD []).length = 16 then Array16.zero.UnmarshalBinary (b.getD [])
      else
        match UnmarshalText (Trim (b.getD []) (bytesOf "\"")) with
        | .error err => (Array16.zero, some err)
        | .ok u => (u, none)
    match r.2 with
    | some err => (dst, some err)
    | none => ({ UUID := r.1, Status := Present }, none)

/-! ## json.go, continued -/

/-- The dynamic shapes of the argument of the `Scan` methods. -/
inductive ScanSrc where
  /-- The nil interface. -/
  | nil
  /-- A `string`. -/
  | string (s : List Byte)
  /-- A `[]byte`, possibly the nil slice. -/
  | bytes (b : Slice)
  /-- A `time.Time`. -/
  | time (t : Time)
  /-- A `float64`; `dec` is the decimal `decimal.NewFromFloat` makes of it. -/
  | float64 (dec : Decimal)
  /-- A value of any other type. -/
  | other
  deriving DecidableEq, Repr

/-- The destinations of `JSON.AssignTo`, each with the value the pointed-to variable
holds. -/
inductive JSONDst where
  /-- A `*string`. -/
  | string (v : List Byte)
  /-- A `**string`; `none` is the nil `*string`. -/
  | stringPtr (v : Option (List Byte))
  /-- A `*[]byte`. -/
  | bytes (v : Slice)
  /-- A `*UUID` of this package that is not nil; `*UUID` implements `json.Unmarshaler`
  by the method `UnmarshalJSON` of uuid.go. -/
  | uuid (v : UUID)
  /-- A pointer that is not nil, of any other type that implements `json.Unmarshaler`,
  by the name of its type; `content` stands for the value the pointed-to variable
  holds. -/
  | unmarshaler (typeName : String) (content : Int)
  /-- A pointer that is not nil, of any other type, one that does not implement
  `json.Unmarshaler`, by the name of its type; `nullable` tells whether it points to a
  pointer, slice, map or interface, and `content` stands for the value the pointed-to
  variable holds (0 for nil). -/
  | other (typeName : String) (nullable : Bool) (content : Int)
  /-- A destination that is not a pointer, or a nil pointer, by the name of its type. -/
  | invalid (typeName : String)
  deriving DecidableEq, Repr

instance : Destination JSONDst where
  typeName
    | .string _ => "*string"
    | .stringPtr _ => "**string"
    | .bytes _ => "*[]uint8"
    | .uuid _ => "*tstype.UUID"
    | .unmarshaler typeName _ => typeName
    | .other typeName _ _ => typeName
    | .invalid typeName => typeName
  zeroIfNullable
    | .stringPtr _ => some (.stringPtr none)
    | .bytes _ => some (.bytes none)
    | .other typeName true _ => some (.other typeName true 0)
    | _ => none

namespace JSON

/-- Source: `func (dst JSON) Get() interface{}`, the result given as an argument of
`Set`.  `unmarshal` is what `json.Unmarshal` makes of the payload, `none` when it
returns an error. -/
def Get (dst : JSON) (unmarshal : Option JSONSrc) : JSONSrc :=
  if dst.Status = Present then
    match unmarshal with
    | none => .jsonUndecodable dst
    | some i => i
  else .nil

/-- Modelled after `encoding/json`: `json.Unmarshal(data, dst)`, of which only the work
on the literal `null` is spelled out.  The package documents that a destination that is
not a pointer or is a nil pointer is rejected with an `InvalidUnmarshalError`; that for
a destination implementing `json.Unmarshaler` its `UnmarshalJSON` is called, also when
the input is `null`; and that otherwise `null` sets a pointer, slice, map or interface
to nil and leaves any other destination as it was, without an error.  `UnmarshalText`
is the parameter of `UUID.UnmarshalJSON`, `methodOf` stands for the `UnmarshalJSON`
method of the type of that name, and `Decode` for the work of `json.Unmarshal` on any
other data. -/
def unmarshalInto (UnmarshalText : List Byte → Except Err Array16)
    (methodOf : String → List Byte → Int → Int × Option Err)
    (Decode : List Byte → JSONDst → JSONDst × Option Err) (data : List Byte)
    (dst : JSONDst) : JSONDst × Option Err :=
  if data = bytesOf "null" then
    match dst with
    | .invalid typeName => (.invalid typeName, some Err.parse)
    | .uuid v =>
      ((JSONDst.uuid (UUID.UnmarshalJSON UnmarshalText v (some data)).1),
        (UUID.UnmarshalJSON UnmarshalText v (some data)).2)
    | .unmarshaler typeName content =>
      (.unmarshaler typeName (methodOf typeName data content).1,
        (methodOf typeName data content).2)
    | .string v => (.string v, none)
    | .stringPtr _ => (.stringPtr none, none)
    | .bytes _ => (.bytes none, none)
    | .other typeName true _ => (.other typeName true 0, none)
    | .other typeName false content => (.other typeName false content, none)
  else Decode data dst

/-- Source: `func (src *JSON) AssignTo(dst interface{}) error`; the three parameters
are those of `unmarshalInto`. -/
def AssignTo (UnmarshalText : List Byte → Except Err Array16)
    (methodOf : String → List Byte → Int → Int × Option Err)
    (Decode : List Byte → JSONDst → JSONDst × Option Err) (src : JSON)
    (dst : JSONDst) : JSONDst × Option Err :=
  match dst with
  | .string v =>
    if src.Status = Present then (.string (src.Bytes.getD []), none)
    else (.string v, some Err.nonPresent)
  | .stringPtr _ =>
    if src.Status = Present then (.stringPtr (some (src.Bytes.getD [])), none)
    else (.stringPtr none, none)
  | .bytes _ =>
    if src.Status ≠ Present then (.bytes none, none)
    else (.bytes (some (src.Bytes.getD [])), none)
  | dst =>
    let data := if src.Bytes = none ∨ src.Status ≠ Present then bytesOf "null"
      else src.Bytes.getD []
    unmarshalInto UnmarshalText methodOf Decode data dst

/-- Source: `func (dst *JSON) DecodeText(ci, src []byte) error`. -/
def DecodeText (_dst : JSON) (src : Slice) : JSON × Option Err :=
  match src with
  | none => (nullValue, none)
  | some b => ({ Bytes := some b, Status := Present }, none)

/-- Source: `func (dst *JSON) DecodeBinary(ci, src []byte) error`. -/
def DecodeBinary (dst : JSON) (src : Slice) : JSON × Option Err :=
  DecodeText dst src

/-- Source: `func (src JSON) EncodeText(ci, buf []byte) ([]byte, error)`. -/
def EncodeText (src : JSON) (buf : Slice) : Except Err Slice :=
  if src.Status = Null then .ok none
  else .ok (goAppend buf (src.Bytes.getD []))

/-- Source: `func (src JSON) EncodeBinary(ci, buf []byte) ([]byte, error)`. -/
def EncodeBinary (src : JSON) (buf : Slice) : Except Err Slice :=
  EncodeText src buf

/-- Source: `func (dst *JSON) Scan(src interface{}) error`.  Both `[]byte(src)` for a
string and the copy made with `make` for a byte slice are non-nil slices. -/
def Scan (dst : JSON) : ScanSrc → JSON × Option Err
  | .nil => (nullValue, none)
  | .string src => DecodeText dst (some src)
  | .bytes src => DecodeText dst (some (src.getD []))
  | .time _ => (dst, some Err.cannotScan)
  | .float64 _ => (dst, some Err.cannotScan)
  | .other => (dst, some Err.cannotScan)

/-- Source: `func (dst *JSON) UnmarshalJSON(b []byte) error`. -/
def UnmarshalJSON (_dst : JSON) (b : Slice) : JSON × Option Err :=
  if b = none ∨ b.getD [] = bytesOf "null" then (nullValue, none)
  else ({ Bytes := b, Status := Present }, none)

end JSON

/-! ## uuid.go, continued -/

/-- The destinations of `UUID.AssignTo`, each with the value the pointed-to variable
holds.  The destinations for which `pgtype.GetAssignToDstType` proposes another
destination are left out. -/
inductive UUIDDst where
  /-- A `*uuid.UUID`. -/
  | uuid (v : Array16)
  /-- A `*[16]byte`. -/
  | array16 (v : Array16)
  /-- A `*[]byte`. -/
  | bytes (v : Slice)
  /-- A `*string`. -/
  | string (v : List Byte)
  /-- A destination of any other type, by the name of its type; `nullable` tells
  whether it points to a pointer, slice or map.  Its content is not modelled. -/
  | other (typeName : String) (nullable : Bool)
  deriving DecidableEq, Repr

instance : Destination UUIDDst where
  typeName
    | .uuid _ => "*uuid.UUID"
    | .array16 _ => "*[16]uint8"
    | .bytes _ => "*[]uint8"
    | .string _ => "*string"
    | .other typeName _ => typeName
  zeroIfNullable
    | .bytes _ => some (.bytes none)
    | .other typeName true => some (.other typeName true)
    | _ => none

namespace UUID

/-- Source: `func (src *UUID) AssignTo(dst interface{}) error`. -/
def AssignTo (src : Tstype.UUID) (dst : UUIDDst) : UUIDDst × Option Err :=
  if src.Status = Present then
    match dst with
    | .uuid _ => (.uuid src.UUID, none)
    | .array16 _ => (.array16 src.UUID, none)
    | .bytes _ => (.bytes (some (goCopy (List.replicate 16 0) src.UUID.val)), none)
    | .string _ => (.string src.UUID.String, none)
    | .other typeName nullable => (.other typeName nullable, some Err.unableToAssign)
  else if src.Status = Null then pgtype.NullAssignTo dst
  else (dst, some Err.cannotAssign)

/-- Source: `func (dst *UUID) DecodeText(ci, src []byte) error`; `FromString` stands for
`uuid.FromString`. -/
def DecodeText (FromString : List Byte → Except Err Array16) (dst : Tstype.UUID)
    (src : Slice) : Tstype.UUID × Option Err :=
  match src with
  | none => (nullValue, none)
  | some b =>
    match FromString b with
    | .error err => (dst, some err)
    | .ok u => ({ UUID := u, Status := Present }, none)

end UUID

/-! ## timestamptz.go, continued -/

/-- Source: `pgTimestamptzHourFormat`. -/
def pgTimestamptzHourFormat : List Byte := bytesOf "2006-01-02 15:04:05.999999999Z07"

/-- Source: `pgTimestamptzMinuteFormat`. -/
def pgTimestamptzMinuteFormat : List Byte := bytesOf "2006-01-02 15:04:05.999999999Z07:00"

/-- Source: `pgTimestamptzSecondFormat`. -/
def pgTimestamptzSecondFormat : List Byte :=
  bytesOf "2006-01-02 15:04:05.999999999Z07:00:00"

/-- The destinations of `Timestamptz.AssignTo`, each with the value the pointed-to
variable holds.  The destinations for which `GetAssignToDstType`, which is not among
the source files, proposes another destination are left out. -/
inductive TimestamptzDst where
  /-- A `*time.Time`. -/
  | time (v : Time)
  /-- A destination of any other type, by the name of its type; `nullable` tells
  whether it points to a pointer, slice or map.  Its content is not modelled. -/
  | other (typeName : String) (nullable : Bool)
  deriving DecidableEq, Repr

instance : Destination TimestamptzDst where
  typeName
    | .time _ => "*time.Time"
    | .other typeName _ => typeName
  zeroIfNullable
    | .other typeName true => some (.other typeName true)
    | _ => none

namespace Timestamptz

/-- Source: `func (src *Timestamptz) AssignTo(dst interface{}) error`. -/
def AssignTo (src : Timestamptz) (dst : TimestamptzDst) : TimestamptzDst × Option Err :=
  if src.Status = Present then
    match dst with
    | .time v =>
      if src.InfinityModifier ≠ None then (.time v, some Err.cannotAssign)
      else (.time src.Time, none)
    | .other typeName nullable => (.other typeName nullable, some Err.unableToAssign)
  else if src.Status = Null then NullAssignTo dst
  else (dst, some Err.cannotDecode)

/-- The layout `DecodeText` selects for a text that is neither `infinity` nor
`-infinity`, by the character 9 from the end and the character 6 from the end. -/
def selectFormat (sbuf : List Byte) : List Byte :=
  if sbuf.length ≥ 9 ∧
      (sbuf.get? (sbuf.length - 9) = some 45 ∨ sbuf.get? (sbuf.length - 9) = some 43) then
    pgTimestamptzSecondFormat
  else if sbuf.length ≥ 6 ∧
      (sbuf.get? (sbuf.length - 6) = some 45 ∨ sbuf.get? (sbuf.length - 6) = some 43) then
    pgTimestamptzMinuteFormat
  else pgTimestamptzHourFormat

/-- Source: `func (dst *Timestamptz) DecodeText(ci, src []byte) error`; `Parse` stands
for `time.Parse(layout, value)`. -/
def DecodeText (Parse : List Byte → List Byte → Except Err Tstype.Time) (dst : Timestamptz)
    (src : Slice) : Timestamptz × Option Err :=
  match src with
  | none => (nullValue, none)
  | some sbuf =>
    if sbuf = bytesOf "infinity" then
      ({ Time := Time.zero, Status := Present, InfinityModifier := Infinity }, none)
    else if sbuf = bytesOf "-infinity" then
      ({ Time := Time.zero, Status := Present, InfinityModifier := NegativeInfinity }, none)
    else
      match Parse (selectFormat sbuf) sbuf with
      | .error err => (dst, some err)
      | .ok tim => ({ Time := tim, Status := Present, InfinityModifier := None }, none)

/-- Source: `func (src Timestamptz) EncodeText(ci, buf []byte) ([]byte, error)`;
`Format` stands for `t.UTC().Truncate(time.Microsecond).Format(layout)`.  The variable
`s` starts as the empty string and keeps it when the modifier is none of the three
constants. -/
def EncodeText (Format : Tstype.Time → List Byte → List Byte) (src : Timestamptz)
    (buf : Slice) : Except Err Slice :=
  if src.Status = Null then .ok none
  else
    let s :=
      if src.InfinityModifier = None then Format src.Time pgTimestamptzSecondFormat
      else if src.InfinityModifier = Infinity then bytesOf "infinity"
      else if src.InfinityModifier = NegativeInfinity then bytesOf "-infinity"
      else []
    .ok (goAppend buf s)

end Timestamptz

/-! ## decimal.go, continued -/

namespace Numeric

/-- Source: `func (dst *Numeric) DecodeBinary(ci, src []byte) error`; `pgDecodeBinary`
stands for `(*pgtype.Numeric).DecodeBinary`, giving the fields `Int` and `Exp` it
leaves, from which `decimal.NewFromBigInt` builds the decimal. -/
def DecodeBinary (pgDecodeBinary : List Byte → Except Err (Int × Int)) (dst : Numeric)
    (src : Slice) : Numeric × Option Err :=
  match src with
  | none => (nullValue, none)
  | some b =>
    match pgDecodeBinary b with
    | .error err => (dst, some err)
    | .ok (int, exp) => ({ Decimal := { value := int, exp := exp }, Status := Present }, none)

/-- Source: `func (src Numeric) EncodeBinary(ci, buf []byte) ([]byte, error)`;
`pgEncodeBinary` stands for `(*pgtype.Numeric).DecodeText` of the decimal text followed
by `(*pgtype.Numeric).EncodeBinary` onto `buf`. -/
def EncodeBinary (pgEncodeBinary : List Byte → Slice → Except Err Slice) (src : Numeric)
    (buf : Slice) : Except Err Slice :=
  if src.Status = Present then pgEncodeBinary src.Decimal.String buf
  else if src.Status = Null then .ok none
  else .error Err.badStatus

end Numeric

/-! ## array.go -/

/-- Modelled after `pgtype.ArrayDimension`, whose two fields are `int32`. -/
structure ArrayDimension where
  Length : Int
  LowerBound : Int
  deriving DecidableEq, Repr

/-- A `reflect.Value` as far as `findDimensionsFromValue` reads it: whether its kind is
array or slice, and for those `Len()` and `Index(i)`. -/
inductive Value where
  /-- A value of any kind other than array and slice. -/
  | other
  /-- An array or slice with `length` elements, the `i`-th being `index i`. -/
  | seq (length : Nat) (index : Nat → Value)

/-- The `for` loop of `findDimensionsFromValue`: `call i` is the recursive call on
element `i`; the loop returns the result of the first call whose third component is
true, and falls through (`none`) when there is none among the `n` elements from `i`
on. -/
def firstOk (call : Nat → List ArrayDimension × Int × Bool) :
    Nat → Nat → Option (List ArrayDimension × Int × Bool)
  | 0, _ => none
  | n + 1, i => if (call i).2.2 then some (call i) else firstOk call n (i + 1)

/-- Source: `func findDimensionsFromValue(value reflect.Value, dimensions
[]pgtype.ArrayDimension, elementsLength int) ([]pgtype.ArrayDimension, int, bool)`.
`intSize` is the width of `int`, 32 or 64; the product is an `int` and the length of a
descriptor an `int32`. -/
def findDimensionsFromValue (intSize : Nat) :
    Value → List ArrayDimension → Int → List ArrayDimension × Int × Bool
  | .other, dimensions, elementsLength => (dimensions, elementsLength, true)
  | .seq length index, dimensions, elementsLength =>
    let elementsLength1 :=
      if 0 = elementsLength then (length : Int)
      else truncSigned intSize (elementsLength * length)
    let dimensions1 :=
      dimensions ++ [{ Length := truncSigned 32 length, LowerBound := 1 }]
    match firstOk
        (fun i => findDimensionsFromValue intSize (index i) dimensions1 elementsLength1)
        length 0 with
    | some (d, l, _) => (d, l, true)
    | none => (dimensions1, elementsLength1, true)

/-- A regular nested sequence with the lengths `ds`, outermost first: a sequence of
`d` elements each of which is regular with the remaining lengths, down to elements
that are not sequences. -/
def Value.Regular : List Nat → Value → Prop
  | [], .other => True
  | [], .seq _ _ => False
  | _ :: _, .other => False
  | d :: ds, .seq length index => length = d ∧ ∀ i, i < d → Value.Regular ds (index i)

/-! ## The `Scan` methods -/

/-- Source: `func (dst *Numeric) Scan(src interface{}) error`.  `[]byte(src)` for a
string is a non-nil slice; a byte slice is handed to `DecodeText` as it is. -/
def Numeric.Scan (dst : Numeric) : ScanSrc → Numeric × Option Err
  | .nil => (Numeric.nullValue, none)
  | .float64 dec => ({ Decimal := dec, Status := Present }, none)
  | .string src => Numeric.DecodeText dst (some src)
  | .bytes src => Numeric.DecodeText dst src
  | .time _ => (dst, some Err.cannotScan)
  | .other => (dst, some Err.cannotScan)

/-- Source: `func (dst *UUID) Scan(src interface{}) error`.  `[]byte(src)` for a string
is a non-nil slice; a byte slice is handed to `DecodeText` as it is. -/
def UUID.Scan (FromString : List Byte → Except Err Array16) (dst : Tstype.UUID) :
    ScanSrc → Tstype.UUID × Option Err
  | .nil => (UUID.nullValue, none)
  | .string src => UUID.DecodeText FromString dst (some src)
  | .bytes src => UUID.DecodeText FromString dst src
  | .time _ => (dst, some Err.cannotScan)
  | .float64 _ => (dst, some Err.cannotScan)
  | .other => (dst, some Err.cannotScan)

/-- Source: `func (dst *Timestamptz) Scan(src interface{}) error`.  Both `[]byte(src)`
for a string and the copy made with `make` for a byte slice are non-nil slices.  The
composite literal of the `time.Time` case leaves the modifier at its zero value. -/
def Timestamptz.Scan (Parse : List Byte → List Byte → Except Err Tstype.Time) (dst : Timestamptz) :
    ScanSrc → Timestamptz × Option Err
  | .nil => (Timestamptz.nullValue, none)
  | .string src => Timestamptz.DecodeText Parse dst (some src)
  | .bytes src => Timestamptz.DecodeText Parse dst (some (src.getD []))
  | .time src => ({ Time := src, Status := Present, InfinityModifier := None }, none)
  | .float64 _ => (dst, some Err.cannotScan)
  | .other => (dst, some Err.cannotScan)

/-! ## The timestamp texts of the layout selection -/

/-- An ASCII decimal digit. -/
def isDigit (c : Byte) : Bool := decide (48 ≤ c.val ∧ c.val ≤ 57)

/-- One of the two characters `DecodeText` looks for, `-` and `+`. -/
def isSign (c : Byte) : Bool := decide (c = 45 ∨ c = 43)

/-- The text `s` has the form of the template: a digit where the template has a capital
letter, and the character of the template anywhere else. -/
def matchesTemplate : List Byte → List Byte → Bool
  | [], [] => true
  | p :: ps, c :: cs =>
    (if 65 ≤ p.val ∧ p.val ≤ 90 then isDigit c else decide (c = p)) && matchesTemplate ps cs
  | _, _ => false

/-- A text of the form `YYYY-MM-DD HH:MM:SS`. -/
def isDateTime (s : List Byte) : Bool := matchesTemplate (bytesOf "YYYY-MM-DD HH:MM:SS") s

/-- An optional fractional-seconds part: nothing, or a point and one digit or more. -/
def isFraction : List Byte → Bool
  | [] => true
  | c :: ds => decide (c = 46) && !ds.isEmpty && ds.all isDigit

/-- A timezone offset: a sign and digits in the form of the template, which is `HH`,
`HH:MM` or `HH:MM:SS`. -/
def isOffset (template : String) : List Byte → Bool
  | [] => false
  | c :: rest => isSign c && matchesTemplate (bytesOf template) rest

/-! ## End of the embedding -/

/-! # Theorems -/

/-! ## Machine integers and big-endian bytes -/

theorem wrap64_range (i : Int) : -(2 ^ 63) ≤ wrap64 i ∧ wrap64 i < 2 ^ 63 := by
  unfold wrap64; omega

theorem wrap64_of_range (i : Int) (h1 : -(2 ^ 63) ≤ i) (h2 : i < 2 ^ 63) : wrap64 i = i := by
  unfold wrap64; omega

theorem goDiv_goMod_spec (a b : Int) (hb : 0 < b) :
    b * goDiv a b + goMod a b = a ∧
      (0 ≤ a → 0 ≤ goMod a b ∧ goMod a b < b) ∧
      (a < 0 → -b < goMod a b ∧ goMod a b ≤ 0) := by
  refine ⟨Int.tdiv_add_tmod a b, fun h => ⟨Int.tmod_nonneg b h, Int.tmod_lt_of_pos a hb⟩, fun h => ?_⟩
  have h1 : goMod a b = -goMod (-a) b := by
    unfold goMod
    have e1 := Int.tmod_def a b
    have e2 := Int.tmod_def (-a) b
    rw [Int.neg_tdiv] at e2
    rw [e1, e2, mul_neg]; ring
  have h2 : 0 ≤ goMod (-a) b := Int.tmod_nonneg b (by omega)
  have h3 : goMod (-a) b < b := Int.tmod_lt_of_pos (-a) hb
  omega

theorem goDiv_eq_zero (a b : Int) (h1 : -b < a) (h2 : a < b) : goDiv a b = 0 := by
  unfold goDiv
  rcases le_or_lt 0 a with h | h
  · exact Int.tdiv_eq_zero_of_lt h h2
  · have : (-a).tdiv b = 0 := Int.tdiv_eq_zero_of_lt (by omega) (by omega)
    rw [Int.neg_tdiv] at this
    omega

theorem Time.Unix_of_micro (u : Int) (h1 : -(2 ^ 63) ≤ u) (h2 : u < 2 ^ 63) :
    (Time.Unix (goDiv u 1000000) (goMod u 1000000 * 1000)).WellFormed ∧
      (Time.Unix (goDiv u 1000000) (goMod u 1000000 * 1000)).sec * 1000000 +
        (Time.Unix (goDiv u 1000000) (goMod u 1000000 * 1000)).nsec / 1000 = u ∧
      (Time.Unix (goDiv u 1000000) (goMod u 1000000 * 1000)).nsec % 1000 = 0 := by
  obtain ⟨hs, hpos, hneg⟩ := goDiv_goMod_spec u 1000000 (by norm_num)
  generalize goDiv u 1000000 = q at *
  generalize goMod u 1000000 = r at *
  by_cases hr : r * 1000 < 0 ∨ r * 1000 ≥ 1000000000
  · have hu : u < 0 := by
      by_contra hc
      have := hpos (by omega)
      omega
    have hr2 := hneg hu
    have hz : goDiv (r * 1000) 1000000000 = 0 := goDiv_eq_zero _ _ (by omega) (by omega)
    have hq : wrap64 (q + 0) = q := by rw [wrap64_of_range _ (by omega) (by omega)]; omega
    have hq1 : wrap64 (q - 1) = q - 1 := wrap64_of_range _ (by omega) (by omega)
    have hlt : r * 1000 - 0 * 1000000000 < 0 := by omega
    simp only [Time.Unix, hr, if_true, hz, hq, hq1, hlt, Time.WellFormed]
    refine ⟨⟨by omega, by omega, by omega, by omega⟩, by omega, by omega⟩
  · simp only [Time.Unix, hr, if_false, Time.WellFormed]
    have : 0 ≤ r ∧ r < 1000000 := by
      rcases le_or_lt 0 u with h | h
      · exact hpos h
      · have := hneg h; omega
    refine ⟨⟨by omega, by omega, by omega, by omega⟩, by omega, by omega⟩

theorem list_length_eight {α : Type} (b : List α) (h : b.length = 8) :
    ∃ b0 b1 b2 b3 b4 b5 b6 b7, b = [b0, b1, b2, b3, b4, b5, b6, b7] := by
  match b, h with
  | [b0, b1, b2, b3, b4, b5, b6, b7], _ => exact ⟨b0, b1, b2, b3, b4, b5, b6, b7, rfl⟩

theorem beUint64_eight (b0 b1 b2 b3 b4 b5 b6 b7 : Byte) :
    beUint64 [b0, b1, b2, b3, b4, b5, b6, b7] =
      b0.val * 2 ^ 56 + b1.val * 2 ^ 48 + b2.val * 2 ^ 40 + b3.val * 2 ^ 32 +
        b4.val * 2 ^ 24 + b5.val * 2 ^ 16 + b6.val * 2 ^ 8 + b7.val := by
  simp only [beUint64, List.take, List.foldl]
  omega

theorem bePutUint64_beUint64 (b : List Byte) (h : b.length = 8) :
    bePutUint64 (beUint64 b) = b := by
  obtain ⟨b0, b1, b2, b3, b4, b5, b6, b7, rfl⟩ := list_length_eight b h
  rw [beUint64_eight]
  have h0 := b0.isLt
  have h1 := b1.isLt
  have h2 := b2.isLt
  have h3 := b3.isLt
  have h4 := b4.isLt
  have h5 := b5.isLt
  have h6 := b6.isLt
  have h7 := b7.isLt
  simp only [bePutUint64, byteOf, List.cons.injEq, and_true, Fin.ext_iff]
  refine ⟨?_, ?_, ?_, ?_, ?_, ?_, ?_, ?_⟩ <;> omega

theorem beUint64_bePutUint64 (u : Nat) (h : u < 2 ^ 64) :
    beUint64 (bePutUint64 u) = u := by
  rw [bePutUint64, beUint64_eight]
  simp only [byteOf]
  omega

theorem beUint64_eight_lt (b : List Byte) (h : b.length = 8) : beUint64 b < 2 ^ 64 := by
  obtain ⟨b0, b1, b2, b3, b4, b5, b6, b7, rfl⟩ := list_length_eight b h
  rw [beUint64_eight]
  have h0 := b0.isLt
  have h1 := b1.isLt
  have h2 := b2.isLt
  have h3 := b3.isLt
  have h4 := b4.isLt
  have h5 := b5.isLt
  have h6 := b6.isLt
  have h7 := b7.isLt
  omega

theorem goDiv_nonneg_eq (a b : Int) (ha : 0 ≤ a) (hb : 0 ≤ b) : goDiv a b = a / b :=
  Int.tdiv_eq_ediv ha hb

/-! ## Timestamptz: the binary codec -/

/-- The microsecond count that `EncodeBinary` appends for a finite instant is congruent
modulo `2 ^ 64` to the count computed without overflow. -/
theorem toUint64_encodeMicrosecSinceY2K (t : Time) (st : Status) (h : t.WellFormed) :
    toUint64 (Timestamptz.encodeMicrosecSinceY2K { Time := t, Status := st, InfinityModifier := None }) =
      toUint64 (t.sec * 1000000 + t.nsec / 1000 - 946684800000000) := by
  obtain ⟨_, _, h3, _⟩ := h
  simp only [Timestamptz.encodeMicrosecSinceY2K, if_true, goDiv_nonneg_eq _ 1000 h3 (by norm_num),
    microsecFromUnixEpochToY2K, toUint64, wrap64]
  congr 1
  omega

theorem timestamptz_decodeBinary_finite (dst : Timestamptz) (b : List Byte) (h : b.length = 8)
    (h1 : toInt64 (beUint64 b) ≠ infinityMicrosecondOffset)
    (h2 : toInt64 (beUint64 b) ≠ negativeInfinityMicrosecondOffset) :
    Timestamptz.DecodeBinary dst (some b) =
      ({ Time := Time.Unix
            (goDiv (wrap64 (microsecFromUnixEpochToY2K + toInt64 (beUint64 b))) 1000000)
            (goMod (wrap64 (microsecFromUnixEpochToY2K + toInt64 (beUint64 b))) 1000000 * 1000),
         Status := Present, InfinityModifier := None }, none) := by
  simp [Timestamptz.DecodeBinary, h, h1, h2]

theorem toUint64_toInt64 (u : Nat) (h : u < 2 ^ 64) : toUint64 (toInt64 u) = u := by
  simp only [toUint64, toInt64, wrap64]
  omega

theorem toInt64_toUint64 (i : Int) (h1 : -(2 ^ 63) ≤ i) (h2 : i < 2 ^ 63) :
    toInt64 (toUint64 i) = i := by
  simp only [toUint64, toInt64, wrap64]
  omega

theorem present_ne_null : Present ≠ Null := by decide

theorem negInf_ne_inf : negativeInfinityMicrosecondOffset ≠ infinityMicrosecondOffset := by
  decide

/-- Re-encoding what `DecodeBinary` produced from eight bytes computes the integer the
bytes denote, modulo `2 ^ 64`. -/
theorem timestamptz_decode_encode_value (dst : Timestamptz) (b : List Byte)
    (h : b.length = 8) :
    toUint64 (Timestamptz.encodeMicrosecSinceY2K (Timestamptz.DecodeBinary dst (some b)).1) =
      beUint64 b := by
  have hlt := beUint64_eight_lt b h
  by_cases h1 : toInt64 (beUint64 b) = infinityMicrosecondOffset
  · have hd : Timestamptz.DecodeBinary dst (some b) =
        ({ Time := Time.zero, Status := Present, InfinityModifier := Infinity }, none) := by
      simp [Timestamptz.DecodeBinary, h, h1]
    rw [hd]
    have : Timestamptz.encodeMicrosecSinceY2K
        { Time := Time.zero, Status := Present, InfinityModifier := Infinity } =
        infinityMicrosecondOffset := by decide
    rw [this, ← h1, toUint64_toInt64 _ hlt]
  · by_cases h2 : toInt64 (beUint64 b) = negativeInfinityMicrosecondOffset
    · have hd : Timestamptz.DecodeBinary dst (some b) =
          ({ Time := Time.zero, Status := Present, InfinityModifier := NegativeInfinity },
            none) := by
        simp [Timestamptz.DecodeBinary, h, h2, negInf_ne_inf]
      rw [hd]
      have : Timestamptz.encodeMicrosecSinceY2K
          { Time := Time.zero, Status := Present, InfinityModifier := NegativeInfinity } =
          negativeInfinityMicrosecondOffset := by decide
      rw [this, ← h2, toUint64_toInt64 _ hlt]
    · rw [timestamptz_decodeBinary_finite dst b h h1 h2]
      have hr := wrap64_range (microsecFromUnixEpochToY2K + toInt64 (beUint64 b))
      obtain ⟨hwf, hval, _⟩ := Time.Unix_of_micro _ hr.1 hr.2
      rw [toUint64_encodeMicrosecSinceY2K _ _ hwf, hval]
      simp only [toUint64, toInt64, wrap64, microsecFromUnixEpochToY2K]
      omega

/-- C4. Every eight-byte input decodes without error to a Present value: to the positive
(negative) infinity modifier for the signed 64-bit maximum (minimum), and otherwise to
modifier none with an instant of whole-microsecond resolution.  Encoding the decoded
value onto an empty buffer (nil or empty) returns the input bytes exactly; no bound on
the input is assumed, so inputs whose value plus the epoch offset leaves the signed
64-bit range are included. -/
theorem timestamptz_encodeBinary_decodeBinary (dst : Timestamptz) (b : List Byte)
    (h : b.length = 8) :
    (Timestamptz.DecodeBinary dst (some b)).2 = none ∧
      (Timestamptz.DecodeBinary dst (some b)).1.Status = Present ∧
      (toInt64 (beUint64 b) = infinityMicrosecondOffset →
        (Timestamptz.DecodeBinary dst (some b)).1.InfinityModifier = Infinity) ∧
      (toInt64 (beUint64 b) = negativeInfinityMicrosecondOffset →
        (Timestamptz.DecodeBinary dst (some b)).1.InfinityModifier = NegativeInfinity) ∧
      (toInt64 (beUint64 b) ≠ infinityMicrosecondOffset →
        toInt64 (beUint64 b) ≠ negativeInfinityMicrosecondOffset →
        (Timestamptz.DecodeBinary dst (some b)).1.InfinityModifier = None ∧
          (Timestamptz.DecodeBinary dst (some b)).1.Time.WellFormed ∧
          (Timestamptz.DecodeBinary dst (some b)).1.Time.nsec % 1000 = 0) ∧
      Timestamptz.EncodeBinary (Timestamptz.DecodeBinary dst (some b)).1 none =
        .ok (some b) ∧
      Timestamptz.EncodeBinary (Timestamptz.DecodeBinary dst (some b)).1 (some []) =
        .ok (some b) := by
  have hval := timestamptz_decode_encode_value dst b h
  have hst : (Timestamptz.DecodeBinary dst (some b)).2 = none ∧
      (Timestamptz.DecodeBinary dst (some b)).1.Status = Present := by
    simp only [Timestamptz.DecodeBinary, h, ne_eq, not_true_eq_false, if_false]
    split_ifs <;> exact ⟨rfl, rfl⟩
  have henc : ∀ buf : Slice, buf.getD [] = [] →
      Timestamptz.EncodeBinary (Timestamptz.DecodeBinary dst (some b)).1 buf =
        .ok (some b) := by
    intro buf hbuf
    simp only [Timestamptz.EncodeBinary, hst.2, present_ne_null, if_false, AppendInt64, hval,
      hbuf, List.nil_append, bePutUint64_beUint64 b h]
  refine ⟨hst.1, hst.2, ?_, ?_, ?_, henc none rfl, henc (some []) rfl⟩
  · intro h1
    simp [Timestamptz.DecodeBinary, h, h1]
  · intro h2
    simp [Timestamptz.DecodeBinary, h, h2, negInf_ne_inf]
  · intro h1 h2
    rw [timestamptz_decodeBinary_finite dst b h h1 h2]
    have hr := wrap64_range (microsecFromUnixEpochToY2K + toInt64 (beUint64 b))
    obtain ⟨hwf, _, hmod⟩ := Time.Unix_of_micro _ hr.1 hr.2
    dsimp only
    exact ⟨rfl, hwf, hmod⟩

/-- C4, at an input whose value plus the epoch offset exceeds the signed 64-bit range. -/
theorem timestamptz_encodeBinary_decodeBinary_witness :
    ([0x7f, 0xff, 0xff, 0xff, 0xff, 0xff, 0xff, 0xfe] : List Byte).length = 8 ∧
      Timestamptz.EncodeBinary (Timestamptz.DecodeBinary Timestamptz.nullValue
        (some [0x7f, 0xff, 0xff, 0xff, 0xff, 0xff, 0xff, 0xfe])).1 none =
        .ok (some [0x7f, 0xff, 0xff, 0xff, 0xff, 0xff, 0xff, 0xfe]) :=
  ⟨by decide, (timestamptz_encodeBinary_decodeBinary Timestamptz.nullValue
    [0x7f, 0xff, 0xff, 0xff, 0xff, 0xff, 0xff, 0xfe] (by decide)).2.2.2.2.2.1⟩

/-! ## Timestamptz: the two sentinels -/

theorem timestamptz_encode_infinity (t : Time) (buf : Slice) :
    Timestamptz.EncodeBinary { Time := t, Status := Present, InfinityModifier := Infinity } buf =
      .ok (some (buf.getD [] ++ [0x7f, 0xff, 0xff, 0xff, 0xff, 0xff, 0xff, 0xff])) := by
  have h : Timestamptz.encodeMicrosecSinceY2K
      { Time := t, Status := Present, InfinityModifier := Infinity } =
      infinityMicrosecondOffset := by
    simp [Timestamptz.encodeMicrosecSinceY2K, Infinity, None]
  have hb : bePutUint64 (toUint64 infinityMicrosecondOffset) =
      [0x7f, 0xff, 0xff, 0xff, 0xff, 0xff, 0xff, 0xff] := by decide
  simp only [Timestamptz.EncodeBinary, present_ne_null, if_false, AppendInt64, h, hb]

theorem timestamptz_encode_negativeInfinity (t : Time) (buf : Slice) :
    Timestamptz.EncodeBinary
        { Time := t, Status := Present, InfinityModifier := NegativeInfinity } buf =
      .ok (some (buf.getD [] ++ [0x80, 0x00, 0x00, 0x00, 0x00, 0x00, 0x00, 0x00])) := by
  have h : Timestamptz.encodeMicrosecSinceY2K
      { Time := t, Status := Present, InfinityModifier := NegativeInfinity } =
      negativeInfinityMicrosecondOffset := by
    simp [Timestamptz.encodeMicrosecSinceY2K, Infinity, None, NegativeInfinity]
  have hb : bePutUint64 (toUint64 negativeInfinityMicrosecondOffset) =
      [0x80, 0x00, 0x00, 0x00, 0x00, 0x00, 0x00, 0x00] := by decide
  simp only [Timestamptz.EncodeBinary, present_ne_null, if_false, AppendInt64, h, hb]

theorem timestamptz_decode_infinity (dst : Timestamptz) :
    Timestamptz.DecodeBinary dst (some [0x7f, 0xff, 0xff, 0xff, 0xff, 0xff, 0xff, 0xff]) =
      ({ Time := Time.zero, Status := Present, InfinityModifier := Infinity }, none) := by
  have h1 : toInt64 (beUint64 [0x7f, 0xff, 0xff, 0xff, 0xff, 0xff, 0xff, 0xff]) =
      infinityMicrosecondOffset := by decide
  simp only [Timestamptz.DecodeBinary, List.length_cons, List.length_nil, h1]
  simp

theorem timestamptz_decode_negativeInfinity (dst : Timestamptz) :
    Timestamptz.DecodeBinary dst (some [0x80, 0x00, 0x00, 0x00, 0x00, 0x00, 0x00, 0x00]) =
      ({ Time := Time.zero, Status := Present, InfinityModifier := NegativeInfinity },
        none) := by
  have h1 : toInt64 (beUint64 [0x80, 0x00, 0x00, 0x00, 0x00, 0x00, 0x00, 0x00]) =
      negativeInfinityMicrosecondOffset := by decide
  simp only [Timestamptz.DecodeBinary, List.length_cons, List.length_nil, h1]
  simp [negInf_ne_inf]

/-- C2. Encoding a Present timestamp with the positive (negative) infinity modifier
appends exactly the big-endian bytes of the signed 64-bit maximum `0x7FFFFFFFFFFFFFFF`
(minimum, whose two's-complement pattern is `0x8000000000000000`), whatever the instant
field and the buffer hold; decoding exactly those eight bytes yields a Present value
with the positive (negative) infinity modifier, which is not the modifier none of a
calendar instant. -/
theorem timestamptz_sentinel_exact (t : Time) (buf : Slice) (dst : Timestamptz) :
    Timestamptz.EncodeBinary { Time := t, Status := Present, InfinityModifier := Infinity } buf =
        .ok (some (buf.getD [] ++ [0x7f, 0xff, 0xff, 0xff, 0xff, 0xff, 0xff, 0xff])) ∧
      Timestamptz.EncodeBinary
          { Time := t, Status := Present, InfinityModifier := NegativeInfinity } buf =
        .ok (some (buf.getD [] ++ [0x80, 0x00, 0x00, 0x00, 0x00, 0x00, 0x00, 0x00])) ∧
      beUint64 [0x7f, 0xff, 0xff, 0xff, 0xff, 0xff, 0xff, 0xff] = 0x7FFFFFFFFFFFFFFF ∧
      beUint64 [0x80, 0x00, 0x00, 0x00, 0x00, 0x00, 0x00, 0x00] = 0x8000000000000000 ∧
      toInt64 0x7FFFFFFFFFFFFFFF = 2 ^ 63 - 1 ∧
      toInt64 0x8000000000000000 = -(2 ^ 63) ∧
      Timestamptz.DecodeBinary dst (some [0x7f, 0xff, 0xff, 0xff, 0xff, 0xff, 0xff, 0xff]) =
        ({ Time := Time.zero, Status := Present, InfinityModifier := Infinity }, none) ∧
      Timestamptz.DecodeBinary dst (some [0x80, 0x00, 0x00, 0x00, 0x00, 0x00, 0x00, 0x00]) =
        ({ Time := Time.zero, Status := Present, InfinityModifier := NegativeInfinity }, none) ∧
      Infinity ≠ None ∧ NegativeInfinity ≠ None := by
  refine ⟨timestamptz_encode_infinity t buf, timestamptz_encode_negativeInfinity t buf,
    ?_, ?_, ?_, ?_, timestamptz_decode_infinity dst, timestamptz_decode_negativeInfinity dst,
    ?_, ?_⟩
  all_goals decide

/-- Encoding a finite instant appends the eight big-endian bytes of the microsecond
count taken modulo `2 ^ 64`. -/
theorem timestamptz_encodeBinary_finite (t : Time) (st : Status) (buf : Slice)
    (hst : st ≠ Null) (h : t.WellFormed) :
    Timestamptz.EncodeBinary { Time := t, Status := st, InfinityModifier := None } buf =
      .ok (some (buf.getD [] ++
        bePutUint64 (toUint64 (t.sec * 1000000 + t.nsec / 1000 - 946684800000000)))) := by
  simp only [Timestamptz.EncodeBinary, hst, if_false, AppendInt64,
    toUint64_encodeMicrosecSinceY2K t st h]

/-- C3, as stated, fails: the instant with Unix seconds `9224318721655` (and zero
nanoseconds) is a value `time.Time` can hold, the formula gives
`9223372036855000000` for it, which is above the signed 64-bit maximum, and
`EncodeBinary` appends the bytes of the negative number `-9223372036854551616`. -/
theorem timestamptz_epoch_formula_fails :
    Time.WellFormed { sec := 9224318721655, nsec := 0 } ∧
      Timestamptz.EncodeBinary
          { Time := { sec := 9224318721655, nsec := 0 }, Status := Present,
            InfinityModifier := None } none =
        .ok (some [0x80, 0x00, 0x00, 0x00, 0x00, 0x03, 0x6b, 0xc0]) ∧
      toInt64 (beUint64 [0x80, 0x00, 0x00, 0x00, 0x00, 0x03, 0x6b, 0xc0]) =
        -9223372036854551616 ∧
      (9224318721655 * 1000000 + 0 / 1000 - 946684800000000 : Int) = 9223372036855000000 ∧
      (-9223372036854551616 : Int) ≠ 9223372036855000000 := by
  decide

/-- C3, amended. For a Present timestamp with modifier none whose instant has Unix
seconds `s` and nanosecond part `n`, `EncodeBinary` appends the eight big-endian bytes of
`s * 1000000 + n / 1000 - 946684800000000` reduced modulo `2 ^ 64`; read back as a signed
64-bit integer they give exactly that number whenever it lies in the signed 64-bit
range. Two instants that differ only below the microsecond encode to the same bytes
(the nanoseconds are divided by 1000 rounding down), the instant
2000-01-01T00:00:00Z encodes to 0, one microsecond later to 1, and one microsecond
earlier to -1. -/
theorem timestamptz_epoch_arithmetic (t : Time) (buf : Slice) (h : t.WellFormed) :
    Timestamptz.EncodeBinary { Time := t, Status := Present, InfinityModifier := None } buf =
        .ok (some (buf.getD [] ++
          bePutUint64 (toUint64 (t.sec * 1000000 + t.nsec / 1000 - 946684800000000)))) ∧
      (-(2 ^ 63) ≤ t.sec * 1000000 + t.nsec / 1000 - 946684800000000 →
        t.sec * 1000000 + t.nsec / 1000 - 946684800000000 < 2 ^ 63 →
        toInt64 (beUint64
            (bePutUint64 (toUint64 (t.sec * 1000000 + t.nsec / 1000 - 946684800000000)))) =
          t.sec * 1000000 + t.nsec / 1000 - 946684800000000) ∧
      (∀ t2 : Time, t2.WellFormed → t2.sec = t.sec → t2.nsec / 1000 = t.nsec / 1000 →
        Timestamptz.EncodeBinary { Time := t2, Status := Present, InfinityModifier := None }
            buf =
          Timestamptz.EncodeBinary { Time := t, Status := Present, InfinityModifier := None }
            buf) ∧
      Timestamptz.EncodeBinary
          { Time := { sec := 946684800, nsec := 0 }, Status := Present,
            InfinityModifier := None } none =
        .ok (some (bePutUint64 (toUint64 0))) ∧
      Timestamptz.EncodeBinary
          { Time := { sec := 946684800, nsec := 1000 }, Status := Present,
            InfinityModifier := None } none =
        .ok (some (bePutUint64 (toUint64 1))) ∧
      Timestamptz.EncodeBinary
          { Time := { sec := 946684799, nsec := 999999000 }, Status := Present,
            InfinityModifier := None } none =
        .ok (some (bePutUint64 (toUint64 (-1)))) := by
  refine ⟨timestamptz_encodeBinary_finite t Present buf present_ne_null h, ?_, ?_,
    by decide, by decide, by decide⟩
  · intro h1 h2
    have hlt : toUint64 (t.sec * 1000000 + t.nsec / 1000 - 946684800000000) < 2 ^ 64 := by
      simp only [toUint64]; omega
    rw [beUint64_bePutUint64 _ hlt, toInt64_toUint64 _ h1 h2]
  · intro t2 h2 hs hn
    rw [timestamptz_encodeBinary_finite t Present buf present_ne_null h,
      timestamptz_encodeBinary_finite t2 Present buf present_ne_null h2, hs, hn]

/-- C3, amended, at the instant 2000-01-01T00:00:00.000001999Z: the bytes are those
of 1, the last three nanosecond digits being dropped. -/
theorem timestamptz_epoch_arithmetic_witness :
    Time.WellFormed { sec := 946684800, nsec := 1999 } ∧
      Timestamptz.EncodeBinary
          { Time := { sec := 946684800, nsec := 1999 }, Status := Present,
            InfinityModifier := None } none =
        .ok (some (bePutUint64 (toUint64 (946684800 * 1000000 + 1999 / 1000 - 946684800000000)))) ∧
      bePutUint64 (toUint64 (946684800 * 1000000 + 1999 / 1000 - 946684800000000)) =
        [0, 0, 0, 0, 0, 0, 0, 1] :=
  ⟨by decide,
    (timestamptz_epoch_arithmetic { sec := 946684800, nsec := 1999 } none (by decide)).1,
    by decide⟩

/-- C1, as stated, fails. (1) The finite instant with Unix seconds `-9222425352055`
and `224192000` nanoseconds has whole-microsecond precision; its microsecond offset
from 2000-01-01 is exactly the signed 64-bit minimum, so it encodes to the
negative-infinity sentinel and decodes as negative infinity. (2) A Null value whose
modifier field holds positive infinity decodes with modifier none. (3) A positive
infinity whose instant field holds the Unix epoch decodes with the zero instant. -/
theorem timestamptz_binary_round_trip_fails :
    (Time.WellFormed { sec := -9222425352055, nsec := 224192000 } ∧
      (224192000 : Int) % 1000 = 0 ∧
      Timestamptz.EncodeBinary
          { Time := { sec := -9222425352055, nsec := 224192000 }, Status := Present,
            InfinityModifier := None } none =
        .ok (some [0x80, 0x00, 0x00, 0x00, 0x00, 0x00, 0x00, 0x00]) ∧
      Timestamptz.DecodeBinary Timestamptz.nullValue
          (some [0x80, 0x00, 0x00, 0x00, 0x00, 0x00, 0x00, 0x00]) =
        ({ Time := Time.zero, Status := Present, InfinityModifier := NegativeInfinity },
          none) ∧
      NegativeInfinity ≠ None) ∧
    (Timestamptz.EncodeBinary
          { Time := Time.zero, Status := Null, InfinityModifier := Infinity } none =
        .ok none ∧
      Timestamptz.DecodeBinary Timestamptz.nullValue none =
        ({ Time := Time.zero, Status := Null, InfinityModifier := None }, none) ∧
      None ≠ Infinity) ∧
    (Timestamptz.EncodeBinary
          { Time := { sec := 0, nsec := 0 }, Status := Present, InfinityModifier := Infinity }
          none =
        .ok (some [0x7f, 0xff, 0xff, 0xff, 0xff, 0xff, 0xff, 0xff]) ∧
      Timestamptz.DecodeBinary Timestamptz.nullValue
          (some [0x7f, 0xff, 0xff, 0xff, 0xff, 0xff, 0xff, 0xff]) =
        ({ Time := Time.zero, Status := Present, InfinityModifier := Infinity }, none) ∧
      Time.zero ≠ { sec := 0, nsec := 0 }) := by
  decide

/-- A finite instant whose microsecond count since the Unix epoch fits the signed 64-bit
range and whose offset from 2000-01-01 is above the negative-infinity sentinel is
recovered by decoding what was encoded. -/
theorem timestamptz_round_trip_finite (t : Time) (dst : Timestamptz) (buf : Slice)
    (hbuf : buf.getD [] = []) (hwf : t.WellFormed) (hmicro : t.nsec % 1000 = 0)
    (hlo : -(2 ^ 63) + 946684800000000 < t.sec * 1000000 + t.nsec / 1000)
    (hhi : t.sec * 1000000 + t.nsec / 1000 < 2 ^ 63) :
    ∃ enc, Timestamptz.EncodeBinary
          { Time := t, Status := Present, InfinityModifier := None } buf = .ok enc ∧
      Timestamptz.DecodeBinary dst enc =
        ({ Time := t, Status := Present, InfinityModifier := None }, none) := by
  refine ⟨_, timestamptz_encodeBinary_finite t Present buf present_ne_null hwf, ?_⟩
  rw [hbuf, List.nil_append]
  have hlen : (bePutUint64 (toUint64 (t.sec * 1000000 + t.nsec / 1000 - 946684800000000))).length
      = 8 := rfl
  have hlt : toUint64 (t.sec * 1000000 + t.nsec / 1000 - 946684800000000) < 2 ^ 64 := by
    simp only [toUint64]; omega
  have hv : toInt64 (beUint64
      (bePutUint64 (toUint64 (t.sec * 1000000 + t.nsec / 1000 - 946684800000000)))) =
      t.sec * 1000000 + t.nsec / 1000 - 946684800000000 := by
    rw [beUint64_bePutUint64 _ hlt, toInt64_toUint64 _ (by omega) (by omega)]
  rw [timestamptz_decodeBinary_finite dst _ hlen
    (by rw [hv]; simp only [infinityMicrosecondOffset]; omega)
    (by rw [hv]; simp only [negativeInfinityMicrosecondOffset]; omega), hv]
  have hw : wrap64 (microsecFromUnixEpochToY2K +
      (t.sec * 1000000 + t.nsec / 1000 - 946684800000000)) =
      t.sec * 1000000 + t.nsec / 1000 := by
    rw [wrap64_of_range _ (by simp only [microsecFromUnixEpochToY2K]; omega)
      (by simp only [microsecFromUnixEpochToY2K]; omega)]
    simp only [microsecFromUnixEpochToY2K]; omega
  rw [hw]
  obtain ⟨⟨_, _, h3, h4⟩, hval, hmod⟩ :=
    Time.Unix_of_micro (t.sec * 1000000 + t.nsec / 1000) (by omega) hhi
  obtain ⟨_, _, g3, g4⟩ := hwf
  generalize Time.Unix (goDiv (t.sec * 1000000 + t.nsec / 1000) 1000000)
    (goMod (t.sec * 1000000 + t.nsec / 1000) 1000000 * 1000) = t2 at *
  have e1 : t2.sec = t.sec := by omega
  have e2 : t2.nsec = t.nsec := by omega
  cases t2; cases t
  simp only at e1 e2
  rw [e1, e2]

/-- C1, amended. Let `x` be Null, or Present with the positive or negative infinity
modifier, or Present with modifier none and an instant of whole-microsecond precision
whose microsecond count `m = s * 1000000 + n / 1000` since the Unix epoch satisfies
`-2^63 + 946684800000000 < m < 2^63`. Then `DecodeBinary` applied to what
`EncodeBinary` returns for `x` on an empty buffer succeeds and yields the status of
`x`; for a Present `x` it yields the infinity modifier of `x`, and for a Present `x`
with modifier none it yields the instant of `x`. -/
theorem timestamptz_binary_round_trip (x dst : Timestamptz) (buf : Slice)
    (hbuf : buf.getD [] = [])
    (hx : x.Status = Null ∨
      (x.Status = Present ∧
        (x.InfinityModifier = Infinity ∨ x.InfinityModifier = NegativeInfinity)) ∨
      (x.Status = Present ∧ x.InfinityModifier = None ∧ x.Time.WellFormed ∧
        x.Time.nsec % 1000 = 0 ∧
        -(2 ^ 63) + 946684800000000 < x.Time.sec * 1000000 + x.Time.nsec / 1000 ∧
        x.Time.sec * 1000000 + x.Time.nsec / 1000 < 2 ^ 63)) :
    ∃ enc, Timestamptz.EncodeBinary x buf = .ok enc ∧
      (Timestamptz.DecodeBinary dst enc).2 = none ∧
      (Timestamptz.DecodeBinary dst enc).1.Status = x.Status ∧
      (x.Status = Present →
        (Timestamptz.DecodeBinary dst enc).1.InfinityModifier = x.InfinityModifier) ∧
      (x.Status = Present → x.InfinityModifier = None →
        (Timestamptz.DecodeBinary dst enc).1.Time = x.Time) := by
  obtain ⟨t, st, m⟩ := x
  simp only at hx ⊢
  rcases hx with h | ⟨h, h2 | h2⟩ | ⟨h, h2, hwf, hmicro, hlo, hhi⟩
  · subst h
    refine ⟨none, by simp [Timestamptz.EncodeBinary], rfl, rfl, ?_, ?_⟩
    · intro hc; exact absurd hc.symm present_ne_null
    · intro hc; exact absurd hc.symm present_ne_null
  · subst h; subst h2
    have he := timestamptz_encode_infinity t buf
    rw [hbuf, List.nil_append] at he
    refine ⟨_, he, ?_⟩
    rw [timestamptz_decode_infinity dst]
    exact ⟨rfl, rfl, fun _ => rfl, fun _ hc => absurd hc (by decide)⟩
  · subst h; subst h2
    have he := timestamptz_encode_negativeInfinity t buf
    rw [hbuf, List.nil_append] at he
    refine ⟨_, he, ?_⟩
    rw [timestamptz_decode_negativeInfinity dst]
    exact ⟨rfl, rfl, fun _ => rfl, fun _ hc => absurd hc (by decide)⟩
  · subst h; subst h2
    obtain ⟨enc, he, hd⟩ := timestamptz_round_trip_finite t dst buf hbuf hwf hmicro hlo hhi
    refine ⟨enc, he, ?_⟩
    rw [hd]
    exact ⟨rfl, rfl, fun _ => rfl, fun _ _ => rfl⟩

/-- C1, amended, at the instant 1999-12-31T23:59:59.999999Z, one microsecond before
the reference epoch: it is encoded as the bytes of -1 and decoded back unchanged. -/
theorem timestamptz_binary_round_trip_witness :
    Timestamptz.EncodeBinary
        { Time := { sec := 946684799, nsec := 999999000 }, Status := Present,
          InfinityModifier := None } none =
      .ok (some [0xff, 0xff, 0xff, 0xff, 0xff, 0xff, 0xff, 0xff]) ∧
    ∃ enc, Timestamptz.EncodeBinary
        { Time := { sec := 946684799, nsec := 999999000 }, Status := Present,
          InfinityModifier := None } none = .ok enc ∧
      (Timestamptz.DecodeBinary Timestamptz.nullValue enc).2 = none ∧
      (Timestamptz.DecodeBinary Timestamptz.nullValue enc).1.Status = Present ∧
      (Present = Present →
        (Timestamptz.DecodeBinary Timestamptz.nullValue enc).1.InfinityModifier = None) ∧
      (Present = Present → None = None →
        (Timestamptz.DecodeBinary Timestamptz.nullValue enc).1.Time =
          { sec := 946684799, nsec := 999999000 }) :=
  ⟨by decide,
    timestamptz_binary_round_trip
      { Time := { sec := 946684799, nsec := 999999000 }, Status := Present,
        InfinityModifier := None } Timestamptz.nullValue none rfl
      (Or.inr (Or.inr (by decide)))⟩

/-! ## UUID binary codec -/

theorem goAppend_nil_of_ne_nil (s : List Byte) (h : s ≠ []) : goAppend none s = some s := by
  cases s with
  | nil => exact absurd rfl h
  | cons x xs => rfl

theorem goAppend_empty (s : List Byte) : goAppend (some []) s = some s := rfl

theorem goCopy_same_length (dst src : List Byte) (h : src.length = dst.length) :
    goCopy dst src = src := by
  simp [goCopy, ← h]

/-- C5. On a non-nil buffer `UUID.DecodeBinary` returns an error exactly when the
buffer length is not 16, and then leaves the receiver as it was; a 15-byte buffer is
such a case. On every 16-byte buffer it succeeds, the receiver becomes Present and
holds the sixteen bytes, and `EncodeBinary` of the result onto an empty buffer (nil or
empty) returns the buffer byte for byte. -/
theorem uuid_decodeBinary_length (dst : UUID) (b : List Byte) :
    ((UUID.DecodeBinary dst (some b)).2 ≠ none ↔ b.length ≠ 16) ∧
      (b.length ≠ 16 →
        UUID.DecodeBinary dst (some b) = (dst, some (Err.invalidLength b.length))) ∧
      (b.length = 16 →
        (UUID.DecodeBinary dst (some b)).2 = none ∧
          (UUID.DecodeBinary dst (some b)).1.Status = Present ∧
          (UUID.DecodeBinary dst (some b)).1.UUID.val = b ∧
          UUID.EncodeBinary (UUID.DecodeBinary dst (some b)).1 none = .ok (some b) ∧
          UUID.EncodeBinary (UUID.DecodeBinary dst (some b)).1 (some []) = .ok (some b)) ∧
      (UUID.DecodeBinary dst (some (List.replicate 15 0))).2 =
        some (Err.invalidLength 15) := by
  have hbad : b.length ≠ 16 →
      UUID.DecodeBinary dst (some b) = (dst, some (Err.invalidLength b.length)) := by
    intro h
    simp [UUID.DecodeBinary, h]
  have hgood : b.length = 16 →
      UUID.DecodeBinary dst (some b) =
        ({ UUID := Array16.zero.copyFrom b, Status := Present }, none) := by
    intro h
    simp [UUID.DecodeBinary, h]
  have hcopy : b.length = 16 → (Array16.zero.copyFrom b).val = b := by
    intro h
    exact goCopy_same_length _ _ (by rw [h]; exact Array16.zero.property.symm)
  refine ⟨?_, hbad, ?_, ?_⟩
  · by_cases h : b.length = 16
    · rw [hgood h]; simp [h]
    · rw [hbad h]; simp [h]
  · intro h
    have hne : b ≠ [] := by
      intro hc; rw [hc] at h; simp at h
    rw [hgood h]
    refine ⟨rfl, rfl, hcopy h, ?_, ?_⟩
    · simp only [UUID.EncodeBinary, present_ne_null, if_false, hcopy h,
        goAppend_nil_of_ne_nil b hne]
    · simp only [UUID.EncodeBinary, present_ne_null, if_false, hcopy h, goAppend_empty]
  · simp [UUID.DecodeBinary]

/-- C5, at the sixteen bytes `0, 17, 34, ..., 255` and at a buffer of fifteen bytes. -/
theorem uuid_decodeBinary_length_witness :
    UUID.EncodeBinary (UUID.DecodeBinary UUID.nullValue
        (some [0, 17, 34, 51, 68, 85, 102, 119, 136, 153, 170, 187, 204, 221, 238, 255])).1
        none =
      .ok (some [0, 17, 34, 51, 68, 85, 102, 119, 136, 153, 170, 187, 204, 221, 238, 255]) ∧
    UUID.DecodeBinary UUID.nullValue (some [1, 2, 3, 4, 5, 6, 7, 8, 9, 10, 11, 12, 13, 14, 15]) =
      (UUID.nullValue, some (Err.invalidLength 15)) :=
  ⟨((uuid_decodeBinary_length UUID.nullValue
      [0, 17, 34, 51, 68, 85, 102, 119, 136, 153, 170, 187, 204, 221, 238, 255]).2.2.1
      (by decide)).2.2.2.1,
    (uuid_decodeBinary_length UUID.nullValue
      [1, 2, 3, 4, 5, 6, 7, 8, 9, 10, 11, 12, 13, 14, 15]).2.1 (by decide)⟩

/-! ## Decimal numerals -/

theorem digitsRev_spec (fuel n : Nat) (h : n < fuel) :
    (digitsRev fuel n).foldr (fun d a => a * 10 + d) 0 = n ∧
      (∀ d ∈ digitsRev fuel n, d < 10) ∧ digitsRev fuel n ≠ [] ∧
      n < 10 ^ (digitsRev fuel n).length := by
  induction fuel generalizing n with
  | zero => omega
  | succ fuel ih =>
    by_cases h10 : n < 10
    · simp [digitsRev, h10]
    · obtain ⟨h1, h2, _, h4⟩ := ih (n / 10) (by omega)
      simp only [digitsRev, h10, if_false, List.foldr_cons, h1, List.mem_cons,
        List.length_cons, ne_eq, not_false_eq_true, true_and, reduceCtorEq]
      refine ⟨by omega, ?_, ?_⟩
      · intro d hd
        rcases hd with rfl | hd
        · omega
        · exact h2 d hd
      · rw [pow_succ]; omega

theorem digitsRev_eq_digits (fuel n : Nat) (h : n < fuel) (hpos : 0 < n) :
    digitsRev fuel n = Nat.digits 10 n := by
  induction fuel generalizing n with
  | zero => omega
  | succ fuel ih =>
    rw [Nat.digits_def' (by norm_num) hpos]
    by_cases h10 : n < 10
    · simp [digitsRev, h10, Nat.mod_eq_of_lt h10, Nat.div_eq_of_lt h10]
    · simp only [digitsRev, h10, if_false]
      rw [ih (n / 10) (by omega) (by omega)]

theorem digitVal_digitByte (d : Nat) (h : d < 10) : digitVal (digitByte d) = some d := by
  interval_cases d <;> rfl

theorem digitByte_ne_sign (d : Nat) (h : d < 10) :
    digitByte d ≠ 43 ∧ digitByte d ≠ 45 ∧ digitByte d ≠ 46 ∧ digitByte d ≠ 69 ∧
      digitByte d ≠ 101 := by
  interval_cases d <;> decide

theorem parseDigitsAux_map (ds : List Nat) (acc : Nat) (h : ∀ d ∈ ds, d < 10) :
    parseDigitsAux (ds.map digitByte) acc = some (ds.foldl (fun a d => a * 10 + d) acc) := by
  induction ds generalizing acc with
  | nil => rfl
  | cons d ds ih =>
    simp only [List.map_cons, parseDigitsAux, digitVal_digitByte d (h d (by simp)),
      List.foldl_cons]
    exact ih _ (fun x hx => h x (by simp [hx]))

theorem FormatUint_ne_nil (n : Nat) : FormatUint n ≠ [] := by
  have h := (digitsRev_spec (n + 1) n (by omega)).2.2.1
  simp [FormatUint, h]

theorem parseDigits_FormatUint (n : Nat) : parseDigits (FormatUint n) = some n := by
  obtain ⟨h1, h2, _, _⟩ := digitsRev_spec (n + 1) n (by omega)
  simp only [parseDigits, FormatUint_ne_nil, if_false]
  rw [FormatUint, parseDigitsAux_map _ _ (by simpa using h2), List.foldl_reverse, h1]

theorem FormatUint_length (n : Nat) : n < 10 ^ (FormatUint n).length := by
  have h := (digitsRev_spec (n + 1) n (by omega)).2.2.2
  simpa [FormatUint] using h

theorem FormatUint_eq_digits (n : Nat) (hpos : 0 < n) :
    FormatUint n = ((Nat.digits 10 n).reverse).map digitByte := by
  rw [FormatUint, digitsRev_eq_digits (n + 1) n (by omega) hpos]

theorem FormatUint_mem (n : Nat) (c : Byte) (h : c ∈ FormatUint n) :
    c ≠ 43 ∧ c ≠ 45 ∧ c ≠ 46 ∧ c ≠ 69 ∧ c ≠ 101 := by
  obtain ⟨_, h2, _, _⟩ := digitsRev_spec (n + 1) n (by omega)
  simp only [FormatUint, List.mem_map, List.mem_reverse] at h
  obtain ⟨d, hd, rfl⟩ := h
  exact digitByte_ne_sign d (h2 d hd)

theorem FormatUint_cons (n : Nat) :
    ∃ c rest, FormatUint n = c :: rest ∧ c ≠ 43 ∧ c ≠ 45 := by
  cases h : FormatUint n with
  | nil => exact absurd h (FormatUint_ne_nil n)
  | cons c rest =>
    have := FormatUint_mem n c (by rw [h]; simp)
    exact ⟨c, rest, rfl, this.1, this.2.1⟩

theorem ParseUint_FormatUint (n bits : Nat) :
    ParseUint (FormatUint n) bits = if n < 2 ^ bits then some n else none := by
  simp only [ParseUint, parseDigits_FormatUint]

theorem ParseInt_bigString (n : Int) (bits : Nat) (hb : 1 ≤ bits) :
    ParseInt (bigString n) bits =
      if -(2 ^ (bits - 1)) ≤ n ∧ n < 2 ^ (bits - 1) then some n else none := by
  have hpow : (2 : Nat) ^ bits = 2 * 2 ^ (bits - 1) := by
    obtain ⟨k, rfl⟩ : ∃ k, bits = k + 1 := ⟨bits - 1, by omega⟩
    rw [pow_succ]; simp; ring
  have hpos : 0 < (2 : Nat) ^ (bits - 1) := Nat.pow_pos (by norm_num)
  have hcast : ((2 : Int) ^ (bits - 1)) = ((2 ^ (bits - 1) : Nat) : Int) := by push_cast; rfl
  rw [hcast]
  by_cases hn : n < 0
  · simp only [bigString, hn, if_true, ParseInt, decide_True, or_true, ParseUint_FormatUint,
      hpow]
    generalize (2 : Nat) ^ (bits - 1) = X at *
    by_cases h1 : n.natAbs < 2 * X
    · rw [if_pos h1]
      simp only [Bool.true_eq_false, false_and, if_false, true_and]
      by_cases h2 : n.natAbs > X
      · rw [if_pos h2, if_neg (by omega)]
      · rw [if_neg h2, if_pos (by omega)]
        congr 1; omega
    · rw [if_neg h1, if_neg (by omega)]
  · obtain ⟨c, rest, hc, hc1, hc2⟩ := FormatUint_cons n.natAbs
    have hpu := ParseUint_FormatUint n.natAbs bits
    rw [hc] at hpu
    simp only [bigString, hn, if_false, hc, ParseInt, hc1, hc2, decide_False, or_self, hpu,
      hpow]
    generalize (2 : Nat) ^ (bits - 1) = X at *
    by_cases h1 : n.natAbs < 2 * X
    · rw [if_pos h1]
      simp only [Bool.false_eq_true, false_and, if_false, true_and]
      by_cases h2 : n.natAbs ≥ X
      · rw [if_pos h2, if_neg (by omega)]
      · rw [if_neg h2, if_pos (by omega)]
        congr 1; omega
    · rw [if_neg h1, if_neg (by omega)]

/-! ## Parsing and printing decimals -/

theorem findIndex_eq_none (p : Byte → Bool) (l : List Byte) (h : ∀ c ∈ l, p c = false) :
    findIndex p l = none := by
  induction l with
  | nil => rfl
  | cons c cs ih =>
    simp only [findIndex, h c (by simp), Bool.false_eq_true, if_false,
      ih (fun x hx => h x (by simp [hx])), Option.map_none']

theorem bigSetString_FormatUint (n : Nat) : bigSetString (FormatUint n) = some (n : Int) := by
  obtain ⟨c, rest, hc, hc1, hc2⟩ := FormatUint_cons n
  have hp := parseDigits_FormatUint n
  rw [hc] at hp
  simp [hc, bigSetString, hc1, hc2, hp]

theorem bigString_natCast (n : Nat) : bigString (n : Int) = FormatUint n := by
  simp [bigString]

theorem NewFromString_FormatUint (n : Nat) :
    Decimal.NewFromString (FormatUint n) = .ok { value := n, exp := 0 } := by
  have hmem := FormatUint_mem n
  have he : findIndex (fun c => c = 69 || c = 101) (FormatUint n) = none :=
    findIndex_eq_none _ _ (fun c hc => by
      have := hmem c hc
      simp [this.2.2.2.1, this.2.2.2.2])
  have hp : findIndex (fun c => c = 46) (FormatUint n) = none :=
    findIndex_eq_none _ _ (fun c hc => by
      have := hmem c hc
      simp [this.2.2.1])
  have hcount : (FormatUint n).count 46 = 0 :=
    List.count_eq_zero.mpr (fun hc => (hmem 46 hc).2.2.1 rfl)
  have hval : (if (FormatUint n).length ≤ 18 then ParseInt (FormatUint n) 64
      else bigSetString (FormatUint n)) = some (n : Int) := by
    by_cases hlen : (FormatUint n).length ≤ 18
    · have h1 : n < 10 ^ 18 :=
        lt_of_lt_of_le (FormatUint_length n) (Nat.pow_le_pow_right (by norm_num) hlen)
      rw [if_pos hlen, ← bigString_natCast, ParseInt_bigString _ 64 (by norm_num),
        if_pos (by constructor <;> omega)]
    · rw [if_neg hlen, bigSetString_FormatUint]
  simp only [Decimal.NewFromString, he, hp, hcount, hval]
  simp

/-! ## Numeric: setting from unsigned integers -/

/-- C6. For every unsigned value `n` (no bound is needed, so the largest 64-bit value
18446744073709551615 is included), `Numeric.Set` succeeds from any receiver state with
status Present and the decimal `n * 10 ^ 0`, whose numeric value is `n`; `EncodeText`
of it onto an empty buffer yields exactly the base-10 digits of `n`; and `DecodeText`
of those digits yields the Present decimal that was set. -/
theorem numeric_set_uint64 (n : Nat) (dst dst2 : Numeric) :
    Numeric.Set dst (.uint64 n) =
        ({ Decimal := { value := n, exp := 0 }, Status := Present }, none) ∧
      Decimal.toRat { value := n, exp := 0 } = (n : ℚ) ∧
      Numeric.EncodeText (Numeric.Set dst (.uint64 n)).1 none = .ok (some (FormatUint n)) ∧
      Numeric.EncodeText (Numeric.Set dst (.uint64 n)).1 (some []) =
        .ok (some (FormatUint n)) ∧
      (0 < n → FormatUint n = ((Nat.digits 10 n).reverse).map digitByte) ∧
      Numeric.DecodeText dst2 (some (FormatUint n)) = ((Numeric.Set dst (.uint64 n)).1, none) ∧
      Numeric.Set dst (.uint64 18446744073709551615) =
        ({ Decimal := { value := 18446744073709551615, exp := 0 }, Status := Present },
          none) ∧
      FormatUint 18446744073709551615 =
        [49, 56, 52, 52, 54, 55, 52, 52, 48, 55, 51, 55, 48, 57, 53, 53, 49, 54, 49, 53] := by
  have hset : ∀ m : Nat, Numeric.Set dst (.uint64 m) =
      ({ Decimal := { value := m, exp := 0 }, Status := Present }, none) := by
    intro m
    simp only [Numeric.Set, Numeric.setFromString, NewFromString_FormatUint]
  have hstr : Decimal.String { value := n, exp := 0 } = FormatUint n := by
    simp [Decimal.String, bigString]
  refine ⟨hset n, ?_, ?_, ?_, FormatUint_eq_digits n, ?_, hset _, by decide⟩
  · simp [Decimal.toRat]
  · rw [hset]
    simp only [Numeric.EncodeText, if_true, hstr,
      goAppend_nil_of_ne_nil _ (FormatUint_ne_nil n)]
  · rw [hset]
    simp only [Numeric.EncodeText, if_true, hstr, goAppend_empty]
  · rw [hset]
    simp only [Numeric.DecodeText, NewFromString_FormatUint]

/-- C6, at the largest unsigned 64-bit value: the digits that `EncodeText` yields and
that `DecodeText` reads back are those of 18446744073709551615. -/
theorem numeric_set_uint64_witness :
    (0 : Nat) < 18446744073709551615 ∧
      (((Nat.digits 10 18446744073709551615).reverse).map digitByte =
        [49, 56, 52, 52, 54, 55, 52, 52, 48, 55, 51, 55, 48, 57, 53, 53, 49, 54, 49, 53]) ∧
      Numeric.DecodeText Numeric.nullValue (some (FormatUint 18446744073709551615)) =
        ((Numeric.Set Numeric.nullValue (.uint64 18446744073709551615)).1, none) := by
  have h := numeric_set_uint64 18446744073709551615 Numeric.nullValue Numeric.nullValue
  exact ⟨by decide, by rw [← h.2.2.2.2.1 (by decide)]; exact h.2.2.2.2.2.2.2, h.2.2.2.2.2.1⟩

/-! ## Numeric: assignment to integers -/

theorem decimal_toRat_of_exp_nonneg (d : Decimal) (h : 0 ≤ d.exp) :
    d.toRat = ((d.value * 10 ^ d.exp.toNat : Int) : ℚ) := by
  have he : d.exp = (d.exp.toNat : Int) := (Int.toNat_of_nonneg h).symm
  simp only [Decimal.toRat]
  conv_lhs => rw [he, zpow_natCast]
  push_cast
  rfl

theorem decimal_exp_neg_of_not_whole (d : Decimal) (h : ¬ ∃ z : Int, d.toRat = (z : ℚ)) :
    d.exp < 0 := by
  by_contra hc
  exact h ⟨_, decimal_toRat_of_exp_nonneg d (by omega)⟩

theorem decimal_String_of_exp_nonneg (d : Decimal) (h : 0 ≤ d.exp) :
    d.String = bigString (d.value * 10 ^ d.exp.toNat) := by
  simp [Decimal.String, h]

theorem truncSigned_of_range (bits : Nat) (n : Int) (hb : 1 ≤ bits)
    (h1 : -(2 ^ (bits - 1)) ≤ n) (h2 : n < 2 ^ (bits - 1)) : truncSigned bits n = n := by
  have hpow : (2 : Int) ^ bits = 2 * 2 ^ (bits - 1) := by
    obtain ⟨k, rfl⟩ : ∃ k, bits = k + 1 := ⟨bits - 1, by omega⟩
    rw [pow_succ]; simp; ring
  unfold truncSigned
  rw [Int.emod_eq_of_lt (by omega) (by omega)]
  omega

theorem truncUnsigned_of_range (bits : Nat) (n : Int) (h1 : 0 ≤ n) (h2 : n < 2 ^ bits) :
    truncUnsigned bits n = n :=
  Int.emod_eq_of_lt h1 h2

theorem assignSigned_of_exp_neg (d : Decimal) (st : Status) (bits : Nat) (k : IntKind)
    (old : Int) (h : d.exp < 0) :
    Numeric.assignSigned { Decimal := d, Status := st } bits k old =
      (.integer k old, some Err.cannotConvert) := by
  simp [Numeric.assignSigned, Decimal.Exponent, h]

theorem assignUnsigned_of_exp_neg (d : Decimal) (st : Status) (bits : Nat) (k : IntKind)
    (old : Int) (h : d.exp < 0) :
    Numeric.assignUnsigned { Decimal := d, Status := st } bits k old =
      (.integer k old, some Err.cannotConvert) := by
  simp [Numeric.assignUnsigned, Decimal.Exponent, h]

theorem assignSigned_of_exp_nonneg (d : Decimal) (st : Status) (bits : Nat) (k : IntKind)
    (old : Int) (h : 0 ≤ d.exp) (hb : 1 ≤ bits) :
    Numeric.assignSigned { Decimal := d, Status := st } bits k old =
      if -(2 ^ (bits - 1)) ≤ d.value * 10 ^ d.exp.toNat ∧
          d.value * 10 ^ d.exp.toNat < 2 ^ (bits - 1) then
        (.integer k (d.value * 10 ^ d.exp.toNat), none)
      else (.integer k old, some Err.cannotConvert) := by
  have hexp : ¬ d.exp < 0 := by omega
  simp only [Numeric.assignSigned, Decimal.Exponent, hexp, if_false,
    decimal_String_of_exp_nonneg d h, ParseInt_bigString _ bits hb]
  split_ifs with hr
  · simp only [truncSigned_of_range bits _ hb hr.1 hr.2]
  · rfl

theorem assignUnsigned_of_exp_nonneg (d : Decimal) (st : Status) (bits : Nat) (k : IntKind)
    (old : Int) (h : 0 ≤ d.exp) :
    Numeric.assignUnsigned { Decimal := d, Status := st } bits k old =
      if 0 ≤ d.value * 10 ^ d.exp.toNat ∧ d.value * 10 ^ d.exp.toNat < 2 ^ bits then
        (.integer k (d.value * 10 ^ d.exp.toNat), none)
      else (.integer k old, some Err.cannotConvert) := by
  have hexp : ¬ d.exp < 0 := by omega
  have hten : (0 : Int) < 10 ^ d.exp.toNat := pow_pos (by norm_num) _
  by_cases hv : d.value < 0
  · have hs : d.Sign < 0 := by
      simp only [Decimal.Sign, Int.sign_eq_neg_one_of_neg hv]; decide
    have hn : d.value * 10 ^ d.exp.toNat < 0 := Int.mul_neg_of_neg_of_pos hv hten
    simp only [Numeric.assignUnsigned, hs, or_true, if_true]
    rw [if_neg (by omega)]
  · have hs : ¬ d.Sign < 0 := by
      have : 0 ≤ Int.sign d.value := Int.sign_nonneg.mpr (by omega)
      simpa [Decimal.Sign] using this
    have hn : 0 ≤ d.value * 10 ^ d.exp.toNat := Int.mul_nonneg (by omega) (le_of_lt hten)
    obtain ⟨m, hm⟩ := Int.eq_ofNat_of_zero_le hn
    simp only [Numeric.assignUnsigned, Decimal.Exponent, hexp, hs, or_self, if_false,
      decimal_String_of_exp_nonneg d h, hm, bigString_natCast, ParseUint_FormatUint]
    by_cases hlt : m < 2 ^ bits
    · have hlt2 : (m : Int) < 2 ^ bits := by exact_mod_cast hlt
      simp only [hlt, if_true, truncUnsigned_of_range bits m (by omega) hlt2]
      rw [if_pos ⟨by omega, hlt2⟩]
    · have hlt2 : ¬ (m : Int) < 2 ^ bits := by
        intro hc; exact hlt (by exact_mod_cast hc)
      simp only [hlt, if_false]
      rw [if_neg (fun hc => hlt2 hc.2)]

theorem numeric_assignTo_of_exp_neg (intSize : Nat) (d : Decimal) (k : IntKind) (old : Int)
    (h : d.exp < 0) :
    Numeric.AssignTo intSize { Decimal := d, Status := Present } (.integer k old) =
      (.integer k old, some Err.cannotConvert) := by
  cases k <;>
    simp only [Numeric.AssignTo, if_true, assignSigned_of_exp_neg _ _ _ _ _ h,
      assignUnsigned_of_exp_neg _ _ _ _ _ h]

theorem numeric_assignTo_of_exp_nonneg (intSize : Nat) (d : Decimal) (k : IntKind)
    (old : Int) (h : 0 ≤ d.exp) (hsz : 1 ≤ k.bits intSize) :
    Numeric.AssignTo intSize { Decimal := d, Status := Present } (.integer k old) =
      if k.InRange intSize (d.value * 10 ^ d.exp.toNat) then
        (.integer k (d.value * 10 ^ d.exp.toNat), none)
      else (.integer k old, some Err.cannotConvert) := by
  cases k <;>
    simp only [Numeric.AssignTo, if_true, IntKind.InRange, IntKind.signed, IntKind.bits,
      Bool.false_eq_true, if_false, assignUnsigned_of_exp_nonneg _ _ _ _ _ h] <;>
    first
      | rfl
      | exact assignSigned_of_exp_nonneg _ _ _ _ _ h hsz

/-- C7. When the value of a Present Numeric is not a whole number, `AssignTo` into an
integer destination of any of the ten integer types returns an error, and the
destination holds afterwards what it held before. -/
theorem numeric_assignTo_rejects_fraction (intSize : Nat) (d : Decimal) (k : IntKind)
    (old : Int) (h : ¬ ∃ z : Int, d.toRat = (z : ℚ)) :
    Numeric.AssignTo intSize { Decimal := d, Status := Present } (.integer k old) =
      (.integer k old, some Err.cannotConvert) :=
  numeric_assignTo_of_exp_neg intSize d k old (decimal_exp_neg_of_not_whole d h)

/-- C7, at the decimal 10.5, which `DecodeText` produces from the text `10.5` as
`105 * 10 ^ -1`. -/
theorem numeric_assignTo_rejects_fraction_witness :
    Numeric.DecodeText Numeric.nullValue (some [49, 48, 46, 53]) =
        ({ Decimal := { value := 105, exp := -1 }, Status := Present }, none) ∧
      (¬ ∃ z : Int, Decimal.toRat { value := 105, exp := -1 } = (z : ℚ)) ∧
      Numeric.AssignTo 64 { Decimal := { value := 105, exp := -1 }, Status := Present }
          (.integer .int32 7) =
        (.integer .int32 7, some Err.cannotConvert) := by
  have hfrac : ¬ ∃ z : Int, Decimal.toRat { value := 105, exp := -1 } = (z : ℚ) := by
    rintro ⟨z, hz⟩
    have h1 : (105 : ℚ) = 10 * (z : ℚ) := by
      simp only [Decimal.toRat] at hz
      rw [← hz]; norm_num
    have h2 : (105 : Int) = 10 * z := by exact_mod_cast h1
    omega
  exact ⟨by decide, hfrac,
    numeric_assignTo_rejects_fraction 64 { value := 105, exp := -1 } .int32 7 hfrac⟩

/-- C9. Let a Present Numeric have a non-negative exponent, so that its value is the
integer `n = value * 10 ^ exp`, and let the destination have one of the eight
fixed-width integer types. `AssignTo` succeeds exactly when `n` lies in the range of
that type; then the destination holds `n`, and otherwise an error is returned and the
destination is unchanged. In particular a negative `n` is rejected for an unsigned
type. -/
theorem numeric_assignTo_range (intSize : Nat) (d : Decimal) (k : IntKind) (old : Int)
    (hexp : 0 ≤ d.exp) (hk : k ≠ .int ∧ k ≠ .uint) :
    d.toRat = ((d.value * 10 ^ d.exp.toNat : Int) : ℚ) ∧
      ((Numeric.AssignTo intSize { Decimal := d, Status := Present } (.integer k old)).2 = none ↔
        k.InRange intSize (d.value * 10 ^ d.exp.toNat)) ∧
      (k.InRange intSize (d.value * 10 ^ d.exp.toNat) →
        Numeric.AssignTo intSize { Decimal := d, Status := Present } (.integer k old) =
          (.integer k (d.value * 10 ^ d.exp.toNat), none)) ∧
      (¬ k.InRange intSize (d.value * 10 ^ d.exp.toNat) →
        Numeric.AssignTo intSize { Decimal := d, Status := Present } (.integer k old) =
          (.integer k old, some Err.cannotConvert)) ∧
      (k.signed = false → d.value * 10 ^ d.exp.toNat < 0 →
        Numeric.AssignTo intSize { Decimal := d, Status := Present } (.integer k old) =
          (.integer k old, some Err.cannotConvert)) := by
  have hsz : 1 ≤ k.bits intSize := by
    cases k <;> simp [IntKind.bits] at hk ⊢
  have hmain := numeric_assignTo_of_exp_nonneg intSize d k old hexp hsz
  have hneg : k.signed = false → d.value * 10 ^ d.exp.toNat < 0 →
      ¬ k.InRange intSize (d.value * 10 ^ d.exp.toNat) := by
    intro hs hn hr
    simp only [IntKind.InRange, hs, Bool.false_eq_true, if_false] at hr
    omega
  refine ⟨decimal_toRat_of_exp_nonneg d hexp, ?_, ?_, ?_, ?_⟩
  · rw [hmain]
    split_ifs with hr <;> simp [hr]
  · intro hr; rw [hmain, if_pos hr]
  · intro hr; rw [hmain, if_neg hr]
  · intro hs hn; rw [hmain, if_neg (hneg hs hn)]

/-- C9, at the decimals -128 and 128 with an `int8` destination, and -1 with a `uint8`
destination. -/
theorem numeric_assignTo_range_witness :
    Numeric.AssignTo 64 { Decimal := { value := -128, exp := 0 }, Status := Present }
        (.integer .int8 0) = (.integer .int8 (-128), none) ∧
      Numeric.AssignTo 64 { Decimal := { value := 128, exp := 0 }, Status := Present }
        (.integer .int8 0) = (.integer .int8 0, some Err.cannotConvert) ∧
      Numeric.AssignTo 64 { Decimal := { value := -1, exp := 0 }, Status := Present }
        (.integer .uint8 0) = (.integer .uint8 0, some Err.cannotConvert) :=
  ⟨(numeric_assignTo_range 64 { value := -128, exp := 0 } .int8 0 (by decide)
      (by decide)).2.2.1 (by decide),
    (numeric_assignTo_range 64 { value := 128, exp := 0 } .int8 0 (by decide)
      (by decide)).2.2.2.1 (by decide),
    (numeric_assignTo_range 64 { value := -1, exp := 0 } .uint8 0 (by decide)
      (by decide)).2.2.2.2 rfl (by decide)⟩

/-- C8, as stated, fails. `DecodeText` and `Set` turn the text `10.0` into the decimal
`100 * 10 ^ -1` (the digit after the point is counted into the exponent), the same
decimal as `decimal.New(100, -1)`; its value is the whole number 10, inside the range
of every integer type, and `AssignTo` into an `int`, an `int64` or a `uint8`
destination returns an error and leaves the destination as it was. -/
theorem numeric_assignTo_ten_point_zero_fails :
    Numeric.DecodeText Numeric.nullValue (some [49, 48, 46, 48]) =
        ({ Decimal := { value := 100, exp := -1 }, Status := Present }, none) ∧
      Numeric.Set Numeric.nullValue (.string [49, 48, 46, 48]) =
        ({ Decimal := { value := 100, exp := -1 }, Status := Present }, none) ∧
      Decimal.New 100 (-1) = { value := 100, exp := -1 } ∧
      Decimal.toRat { value := 100, exp := -1 } = 10 ∧
      IntKind.InRange 64 .int 10 ∧ IntKind.InRange 64 .int64 10 ∧
      IntKind.InRange 64 .uint8 10 ∧
      Numeric.AssignTo 64 { Decimal := { value := 100, exp := -1 }, Status := Present }
          (.integer .int 0) = (.integer .int 0, some Err.cannotConvert) ∧
      Numeric.AssignTo 64 { Decimal := { value := 100, exp := -1 }, Status := Present }
          (.integer .int64 0) = (.integer .int64 0, some Err.cannotConvert) ∧
      Numeric.AssignTo 64 { Decimal := { value := 100, exp := -1 }, Status := Present }
          (.integer .uint8 0) = (.integer .uint8 0, some Err.cannotConvert) := by
  refine ⟨by decide, by decide, rfl, ?_, by decide, by decide, by decide, by decide,
    by decide, by decide⟩
  norm_num [Decimal.toRat]

/-- C8, amended. For every Present Numeric with a non-negative exponent whose value
`n = value * 10 ^ exp` lies inside the range of the integer destination (any of the
ten integer types, `int` and `uint` having 32 or 64 bits), `AssignTo` succeeds and
writes `n`. For every Present Numeric with a negative exponent, whole-valued or not,
`AssignTo` into an integer destination returns an error and leaves the destination as
it was. -/
theorem numeric_assignTo_whole (intSize : Nat) (d : Decimal) (k : IntKind) (old : Int)
    (hsz : intSize = 32 ∨ intSize = 64) :
    (0 ≤ d.exp → k.InRange intSize (d.value * 10 ^ d.exp.toNat) →
        d.toRat = ((d.value * 10 ^ d.exp.toNat : Int) : ℚ) ∧
        Numeric.AssignTo intSize { Decimal := d, Status := Present } (.integer k old) =
          (.integer k (d.value * 10 ^ d.exp.toNat), none)) ∧
      (d.exp < 0 →
        Numeric.AssignTo intSize { Decimal := d, Status := Present } (.integer k old) =
          (.integer k old, some Err.cannotConvert)) := by
  have hbits : 1 ≤ k.bits intSize := by
    cases k <;> simp only [IntKind.bits] <;> omega
  refine ⟨fun hexp hr => ⟨decimal_toRat_of_exp_nonneg d hexp, ?_⟩,
    numeric_assignTo_of_exp_neg intSize d k old⟩
  rw [numeric_assignTo_of_exp_nonneg intSize d k old hexp hbits, if_pos hr]

/-- C8, amended, at the decimal `1 * 10 ^ 1` (the text `1e1`), which is written to an
`int` destination as 10, and at `100 * 10 ^ -1` (the text `10.0`), which is rejected. -/
theorem numeric_assignTo_whole_witness :
    Numeric.DecodeText Numeric.nullValue (some [49, 101, 49]) =
        ({ Decimal := { value := 1, exp := 1 }, Status := Present }, none) ∧
      Numeric.AssignTo 64 { Decimal := { value := 1, exp := 1 }, Status := Present }
          (.integer .int 0) = (.integer .int 10, none) ∧
      Numeric.AssignTo 64 { Decimal := { value := 100, exp := -1 }, Status := Present }
          (.integer .int 0) = (.integer .int 0, some Err.cannotConvert) :=
  ⟨by decide,
    ((numeric_assignTo_whole 64 { value := 1, exp := 1 } .int 0 (Or.inr rfl)).1
      (by decide) (by decide)).2,
    (numeric_assignTo_whole 64 { value := 100, exp := -1 } .int 0 (Or.inr rfl)).2
      (by decide)⟩

/-! ## Null through `Set` and `Value` -/

/-- C10. For each of the four adapters and every prior receiver state, `Set(nil)`
returns no error and leaves the receiver with status Null, and `Value()` on the
result returns the nil value and no error. -/
theorem set_nil_value (dN : Numeric) (dJ : JSON) (dU : UUID) (dT : Timestamptz)
    (FromString : List Byte → Except Err Array16) (fuel : Nat) :
    ((Numeric.Set dN .nil).2 = none ∧ (Numeric.Set dN .nil).1.Status = Null ∧
        Numeric.Value (Numeric.Set dN .nil).1 = .ok none) ∧
      (∃ r, JSON.Set dJ .nil = some r ∧ r.2 = none ∧ r.1.Status = Null ∧
        JSON.Value r.1 = .ok none) ∧
      (∃ r, UUID.Set FromString (fuel + 1) dU .nil = some r ∧ r.2 = none ∧
        r.1.Status = Null ∧ UUID.Value r.1 = .ok none) ∧
      ((Timestamptz.Set dT .nil).2 = none ∧ (Timestamptz.Set dT .nil).1.Status = Null ∧
        Timestamptz.Value (Timestamptz.Set dT .nil).1 = .ok none) := by
  refine ⟨⟨rfl, rfl, ?_⟩, ⟨(JSON.nullValue, none), rfl, rfl, rfl, ?_⟩,
    ⟨(UUID.nullValue, none), rfl, rfl, rfl, ?_⟩, ⟨rfl, rfl, ?_⟩⟩
  · simp only [Numeric.Set]; decide
  · decide
  · decide
  · simp only [Timestamptz.Set]; decide

/-! ## Assigning a Null adapter -/

theorem nullAssignTo_of_not_nullable {D : Type} [Destination D] (dst : D)
    (h : Destination.zeroIfNullable dst = none) :
    NullAssignTo dst = (dst, some (Err.nullAssignment (Destination.typeName dst))) := by
  simp only [NullAssignTo, h]

theorem null_ne_present : Null ≠ Present := by decide

theorem pgtype_nullAssignTo_of_not_nullable {D : Type} [Destination D] (dst : D)
    (h : Destination.zeroIfNullable dst = none) :
    pgtype.NullAssignTo dst = (dst, some (Err.nullAssignment (Destination.typeName dst))) := by
  simp only [pgtype.NullAssignTo, h]

/-- C11, as stated, fails for the JSON adapter.  With status Null, `JSON.AssignTo` into
a `*string` returns the error `cannot assign non-present status`, which is not a
`NullAssignmentError`; into a pointer to an `int` holding 7 it hands the literal
`null` to `json.Unmarshal` and returns no error at all; and into a pointer to a
Present `UUID` of this package, whose `UnmarshalJSON` `json.Unmarshal` calls with
`null`, it returns no error and the destination is not left untouched: it is made
Null. -/
theorem json_null_assignTo_not_rejected :
    JSON.AssignTo (fun _ => .error Err.parse) (fun _ _ c => (c, some Err.parse))
        (fun _ dst => (dst, some Err.parse)) { Bytes := none, Status := Null }
        (.string [120]) = (.string [120], some Err.nonPresent) ∧
      Err.nonPresent ≠ Err.nullAssignment "*string" ∧
      Destination.zeroIfNullable (JSONDst.other "*int" false 7) = none ∧
      JSON.AssignTo (fun _ => .error Err.parse) (fun _ _ c => (c, some Err.parse))
        (fun _ dst => (dst, some Err.parse)) { Bytes := none, Status := Null }
        (.other "*int" false 7) = (.other "*int" false 7, none) ∧
      Destination.zeroIfNullable (JSONDst.uuid
        { UUID := ⟨[1, 2, 3, 4, 5, 6, 7, 8, 9, 10, 11, 12, 13, 14, 15, 16], rfl⟩,
          Status := Present }) = none ∧
      JSON.AssignTo (fun _ => .error Err.parse) (fun _ _ c => (c, some Err.parse))
        (fun _ dst => (dst, some Err.parse)) { Bytes := none, Status := Null }
        (JSONDst.uuid
          { UUID := ⟨[1, 2, 3, 4, 5, 6, 7, 8, 9, 10, 11, 12, 13, 14, 15, 16], rfl⟩,
            Status := Present }) =
        (.uuid { UUID := Array16.zero, Status := Null }, none) := by
  decide

/-- C11, amended.  With status Null, `Numeric.AssignTo` and `Timestamptz.AssignTo` hand
every destination to the null assignment routine of this package and `UUID.AssignTo`
to the one of `pgtype`; for every non-nullable destination (one that does not point to
a pointer, slice or map) they fail with the `NullAssignmentError` holding the
destination, whose message names the destination type, and the destination is left
untouched.  `JSON.AssignTo` does not go through the null assignment routine.  With
status Null a `*string` destination is left untouched and the error is `cannot assign
non-present status`; every other destination is handed to `json.Unmarshal` with the
literal `null`: a pointer to a non-nullable value whose type is no `json.Unmarshaler`
is left untouched without an error, a `*UUID` of this package is made Null without an
error, any other `json.Unmarshaler` gets what its `UnmarshalJSON` makes of `null`, and
a destination that is not a pointer or is a nil pointer is rejected by
`json.Unmarshal`. -/
theorem null_assignTo_rejected (intSize : Nat) (n : Numeric) (u : UUID) (t : Timestamptz)
    (j : JSON) (dn : NumericDst) (du : UUIDDst) (dt : TimestamptzDst)
    (UnmarshalText : List Byte → Except Err Array16)
    (methodOf : String → List Byte → Int → Int × Option Err)
    (Decode : List Byte → JSONDst → JSONDst × Option Err)
    (hn : n.Status = Null) (hu : u.Status = Null) (ht : t.Status = Null)
    (hj : j.Status = Null) :
    (Numeric.AssignTo intSize n dn = NullAssignTo dn ∧
        UUID.AssignTo u du = pgtype.NullAssignTo du ∧
        Timestamptz.AssignTo t dt = NullAssignTo dt) ∧
      (Destination.zeroIfNullable dn = none → Numeric.AssignTo intSize n dn =
        (dn, some (Err.nullAssignment (Destination.typeName dn)))) ∧
      (Destination.zeroIfNullable du = none → UUID.AssignTo u du =
        (du, some (Err.nullAssignment (Destination.typeName du)))) ∧
      (Destination.zeroIfNullable dt = none → Timestamptz.AssignTo t dt =
        (dt, some (Err.nullAssignment (Destination.typeName dt)))) ∧
      nullAssignmentError.Error (Destination.typeName dn) =
        "cannot assign NULL to " ++ Destination.typeName dn ∧
      (∀ v, JSON.AssignTo UnmarshalText methodOf Decode j (.string v) =
        (.string v, some Err.nonPresent)) ∧
      (∀ typeName content,
        JSON.AssignTo UnmarshalText methodOf Decode j (.other typeName false content) =
          (.other typeName false content, none)) ∧
      (∀ v, JSON.AssignTo UnmarshalText methodOf Decode j (.uuid v) =
        (.uuid UUID.nullValue, none)) ∧
      (∀ typeName content,
        JSON.AssignTo UnmarshalText methodOf Decode j (.unmarshaler typeName content) =
          (.unmarshaler typeName (methodOf typeName (bytesOf "null") content).1,
            (methodOf typeName (bytesOf "null") content).2)) ∧
      (∀ typeName, JSON.AssignTo UnmarshalText methodOf Decode j (.invalid typeName) =
        (.invalid typeName, some Err.parse)) := by
  have hN : Numeric.AssignTo intSize n dn = NullAssignTo dn := by
    simp only [Numeric.AssignTo, hn, null_ne_present, if_false, if_true]
  have hU : UUID.AssignTo u du = pgtype.NullAssignTo du := by
    simp only [UUID.AssignTo, hu, null_ne_present, if_false, if_true]
  have hT : Timestamptz.AssignTo t dt = NullAssignTo dt := by
    simp only [Timestamptz.AssignTo, ht, null_ne_present, if_false, if_true]
  have hdata : (if j.Bytes = none ∨ j.Status ≠ Present then bytesOf "null"
      else j.Bytes.getD []) = bytesOf "null" := by
    rw [if_pos (Or.inr (by rw [hj]; exact null_ne_present))]
  refine ⟨⟨hN, hU, hT⟩, ?_, ?_, ?_, rfl, ?_, ?_, ?_, ?_, ?_⟩
  · intro hd
    rw [hN, nullAssignTo_of_not_nullable dn hd]
  · intro hd
    rw [hU, pgtype_nullAssignTo_of_not_nullable du hd]
  · intro hd
    rw [hT, nullAssignTo_of_not_nullable dt hd]
  · intro v
    simp only [JSON.AssignTo, hj, null_ne_present, if_false]
  · intro typeName content
    simp only [JSON.AssignTo, hdata, JSON.unmarshalInto, if_true]
  · intro v
    simp only [JSON.AssignTo, hdata, JSON.unmarshalInto, if_true, UUID.UnmarshalJSON,
      Option.getD_some, or_true]
  · intro typeName content
    simp only [JSON.AssignTo, hdata, JSON.unmarshalInto, if_true]
  · intro typeName
    simp only [JSON.AssignTo, hdata, JSON.unmarshalInto, if_true]

/-- C11, amended, at Null adapters with an `int8`, a `*uuid.UUID` and a `*time.Time`
destination, and at a Null JSON with a `*int` holding 7 and a Present `*UUID` of this
package. -/
theorem null_assignTo_rejected_witness :
    Numeric.AssignTo 64 Numeric.nullValue (.integer .int8 5) =
        (.integer .int8 5, some (Err.nullAssignment "*int8")) ∧
      UUID.AssignTo UUID.nullValue (.uuid Array16.zero) =
        (.uuid Array16.zero, some (Err.nullAssignment "*uuid.UUID")) ∧
      Timestamptz.AssignTo Timestamptz.nullValue (.time Time.zero) =
        (.time Time.zero, some (Err.nullAssignment "*time.Time")) ∧
      nullAssignmentError.Error "*int8" = "cannot assign NULL to *int8" ∧
      JSON.AssignTo (fun _ => .error Err.parse) (fun _ _ c => (c, some Err.parse))
        (fun _ dst => (dst, some Err.parse)) JSON.nullValue (.other "*int" false 7) =
        (.other "*int" false 7, none) ∧
      JSON.AssignTo (fun _ => .error Err.parse) (fun _ _ c => (c, some Err.parse))
        (fun _ dst => (dst, some Err.parse)) JSON.nullValue
        (JSONDst.uuid
          { UUID := ⟨[1, 2, 3, 4, 5, 6, 7, 8, 9, 10, 11, 12, 13, 14, 15, 16], rfl⟩,
            Status := Present }) = (.uuid UUID.nullValue, none) := by
  have h := null_assignTo_rejected 64 Numeric.nullValue UUID.nullValue Timestamptz.nullValue
    JSON.nullValue (.integer .int8 5) (.uuid Array16.zero) (.time Time.zero)
    (fun _ => .error Err.parse) (fun _ _ c => (c, some Err.parse))
    (fun _ dst => (dst, some Err.parse)) rfl rfl rfl rfl
  exact ⟨h.2.1 rfl, h.2.2.1 rfl, h.2.2.2.1 rfl, h.2.2.2.2.1, h.2.2.2.2.2.2.1 "*int" 7,
    h.2.2.2.2.2.2.2.1 _⟩

/-! ## `JSON.Set` with a `JSON` passed by value -/

/-- C12: what the code does. The test for a `Get` method catches a `JSON` passed by
value before the type switch reaches `case JSON`. With a status other than Present
`Set` returns no error and makes the receiver Null; with a Present decodable
payload it returns whatever `Set` returns for the decoded value; with a Present
payload that does not decode the comparison of the two `JSON` values panics and
`Set` does not return. At the three samples below the receiver held the Present
payload `{}`; passing a Null `JSON` makes it Null, passing the Present payload
`"x"` gives it the payload `x`, both without an error. -/
theorem json_set_by_value (dst v : JSON) (decoded : JSONSrc) :
    (v.Status ≠ Present →
        JSON.Set dst (.json v decoded) = some (JSON.nullValue, none) ∧
        JSON.Set dst (.jsonUndecodable v) = some (JSON.nullValue, none)) ∧
      (v.Status = Present →
        JSON.Set dst (.json v decoded) = JSON.Set dst decoded ∧
        JSON.Set dst (.jsonUndecodable v) = none) ∧
      JSON.Get v (some decoded) = (if v.Status = Present then decoded else .nil) ∧
      JSON.Get v none = (if v.Status = Present then .jsonUndecodable v else .nil) ∧
      JSON.Set { Bytes := some [123, 125], Status := Present }
          (.json { Bytes := none, Status := Null } .nil) =
        some ({ Bytes := none, Status := Null }, none) ∧
      JSON.Set { Bytes := some [123, 125], Status := Present }
          (.json { Bytes := some [34, 120, 34], Status := Present } (.string [120])) =
        some ({ Bytes := some [120], Status := Present }, none) ∧
      JSON.Set { Bytes := some [123, 125], Status := Present }
          (.jsonUndecodable { Bytes := some [123], Status := Present }) = none := by
  refine ⟨fun h => ?_, fun h => ?_, ?_, ?_, by decide, by decide, by decide⟩
  · simp only [JSON.Set, h, if_false, and_self]
  · simp only [JSON.Set, h, if_true, and_self]
  · simp only [JSON.Get]
  · simp only [JSON.Get]

/-- C12, at a Null `JSON` passed by value to a Present receiver and at a Present
undecodable `JSON` passed by value. -/
theorem json_set_by_value_witness :
    JSON.Set { Bytes := some [123, 125], Status := Present }
        (.json { Bytes := none, Status := Null } .nil) = some (JSON.nullValue, none) ∧
      JSON.Set JSON.nullValue (.jsonUndecodable { Bytes := some [123], Status := Present }) =
        none :=
  ⟨((json_set_by_value { Bytes := some [123, 125], Status := Present }
      { Bytes := none, Status := Null } .nil).1 (by decide)).1,
    ((json_set_by_value JSON.nullValue { Bytes := some [123], Status := Present } .nil).2.1
      rfl).2⟩

/-! ## Statuses other than Null and Present -/

/-- C13: what the code does. For a status that is neither Null nor Present the
encoders of Numeric return the bad-status error, while those of JSON, UUID and
Timestamptz, which only test for Null, return the encoded payload and no error. -/
theorem encode_bad_status (st : Status) (h1 : st ≠ Null) (h2 : st ≠ Present)
    (d : Decimal) (b : Slice) (u : Array16) (t : Time) (m : InfinityModifier) (buf : Slice)
    (pgEncodeBinary : List Byte → Slice → Except Err Slice)
    (Format : Time → List Byte → List Byte) :
    Numeric.EncodeText { Decimal := d, Status := st } buf = .error Err.badStatus ∧
      Numeric.EncodeBinary pgEncodeBinary { Decimal := d, Status := st } buf =
        .error Err.badStatus ∧
      JSON.EncodeText { Bytes := b, Status := st } buf = .ok (goAppend buf (b.getD [])) ∧
      JSON.EncodeBinary { Bytes := b, Status := st } buf = .ok (goAppend buf (b.getD [])) ∧
      UUID.EncodeText { UUID := u, Status := st } buf = .ok (goAppend buf u.String) ∧
      UUID.EncodeBinary { UUID := u, Status := st } buf = .ok (goAppend buf u.val) ∧
      (∃ s, Timestamptz.EncodeText Format
          { Time := t, Status := st, InfinityModifier := m } buf = .ok (goAppend buf s)) ∧
      (∃ x, Timestamptz.EncodeBinary { Time := t, Status := st, InfinityModifier := m } buf =
        .ok (AppendInt64 buf x)) := by
  refine ⟨?_, ?_, ?_, ?_, ?_, ?_, ?_, ?_⟩
  · simp only [Numeric.EncodeText, h1, h2, if_false]
  · simp only [Numeric.EncodeBinary, h1, h2, if_false]
  · simp only [JSON.EncodeText, h1, if_false]
  · simp only [JSON.EncodeBinary, JSON.EncodeText, h1, if_false]
  · simp only [UUID.EncodeText, h1, if_false]
  · simp only [UUID.EncodeBinary, h1, if_false]
  · simp only [Timestamptz.EncodeText, h1, if_false]
    exact ⟨_, rfl⟩
  · simp only [Timestamptz.EncodeBinary, h1, if_false]
    exact ⟨_, rfl⟩

/-- C13, at status 2: the UUID and JSON encoders return bytes and no error. -/
theorem encode_bad_status_witness :
    UUID.EncodeBinary { UUID := Array16.zero, Status := 2 } none =
        .ok (some (List.replicate 16 0)) ∧
      JSON.EncodeText { Bytes := some [123, 125], Status := 2 } none =
        .ok (some [123, 125]) ∧
      Numeric.EncodeText { Decimal := Decimal.zero, Status := 2 } none =
        .error Err.badStatus := by
  have h := encode_bad_status 2 (by decide) (by decide) Decimal.zero (some [123, 125])
    Array16.zero Time.zero None none (fun _ _ => .ok none) (fun _ _ => [])
  exact ⟨h.2.2.2.2.2.1, h.2.2.1, h.1⟩

/-- C14: what the code does. `Value()` of Numeric returns the bad-status error for a
status that is neither Null nor Present; `Value()` of JSON and of Timestamptz returns
the nil value and no error for every status other than Present, and `Value()` of UUID
returns the text of the identifier for every status other than Null. -/
theorem value_bad_status (st : Status) (h1 : st ≠ Null) (h2 : st ≠ Present)
    (d : Decimal) (b : Slice) (u : Array16) (t : Time) (m : InfinityModifier) :
    Numeric.Value { Decimal := d, Status := st } = .error Err.badStatus ∧
      JSON.Value { Bytes := b, Status := st } = .ok none ∧
      Timestamptz.Value { Time := t, Status := st, InfinityModifier := m } = .ok none ∧
      UUID.Value { UUID := u, Status := st } = .ok (some (DriverValue.str u.String)) := by
  refine ⟨?_, ?_, ?_, ?_⟩
  · simp only [Numeric.Value, h1, h2, if_false]
  · simp only [JSON.Value, h2, if_false]
  · simp only [Timestamptz.Value, h2, if_false]
  · simp only [UUID.Value, EncodeValueText, UUID.EncodeText, h1, if_false, goAppend_empty]

/-- C14, at status 2. -/
theorem value_bad_status_witness :
    JSON.Value { Bytes := some [123, 125], Status := 2 } = .ok none ∧
      Timestamptz.Value { Time := Time.zero, Status := 2, InfinityModifier := None } =
        .ok none ∧
      Numeric.Value { Decimal := Decimal.zero, Status := 2 } = .error Err.badStatus := by
  have h := value_bad_status 2 (by decide) (by decide) Decimal.zero (some [123, 125])
    Array16.zero Time.zero None
  exact ⟨h.2.1, h.2.2.1, h.1⟩

/-! ## `UUID.Set` on an unsupported shape -/

/-- C15: what the code does. For an input that is not nil, has no `Get` method and
is none of the enumerated shapes, `UUID.Set` calls `Set` of a fresh `UUID` of this
package with the same input, which does the same again: whatever bound is put on the
depth of the recursion, the call has not returned when the bound is reached. -/
theorem uuid_set_other_diverges (FromString : List Byte → Except Err Array16) (fuel : Nat)
    (dst : UUID) : UUID.Set FromString fuel dst .other = none := by
  induction fuel generalizing dst with
  | zero => rfl
  | succ fuel ih => simp only [UUID.Set, ih]

/-! ## The zero value of an adapter -/

/-- C16, as stated, fails. `Status` has the two constants `Null = 0` and `Present = 1`
and no third one, so the status of a zero-valued adapter of each of the four types is
Null; `EncodeText` and `EncodeBinary` of it onto the nil buffer return nil bytes, the
protocol NULL, and no error. -/
theorem zero_value_is_null :
    (0 : Status) = Null ∧
      Numeric.EncodeText { Decimal := Decimal.zero, Status := 0 } none = .ok none ∧
      JSON.EncodeText { Bytes := none, Status := 0 } none = .ok none ∧
      JSON.EncodeBinary { Bytes := none, Status := 0 } none = .ok none ∧
      UUID.EncodeText { UUID := Array16.zero, Status := 0 } none = .ok none ∧
      UUID.EncodeBinary { UUID := Array16.zero, Status := 0 } none = .ok none ∧
      Timestamptz.EncodeBinary { Time := Time.zero, Status := 0, InfinityModifier := 0 }
        none = .ok none ∧
      Timestamptz.EncodeText (fun _ _ => [])
        { Time := Time.zero, Status := 0, InfinityModifier := 0 } none = .ok none := by
  decide

/-- C16, amended. The status of a zero-valued (never assigned) adapter of each of the
four types is Null, the zero value of `Status`, which is distinct from Present; the
source defines no third state. Encoding a zero-valued adapter, in text or binary and
onto any buffer, returns nil bytes (the protocol NULL) and no error. -/
theorem zero_value_lifecycle (buf : Slice)
    (pgEncodeBinary : List Byte → Slice → Except Err Slice)
    (Format : Time → List Byte → List Byte) :
    (0 : Status) = Null ∧ Null ≠ Present ∧
      ({ Decimal := Decimal.zero, Status := 0 } : Numeric) = Numeric.nullValue ∧
      ({ Bytes := none, Status := 0 } : JSON) = JSON.nullValue ∧
      ({ UUID := Array16.zero, Status := 0 } : UUID) = UUID.nullValue ∧
      ({ Time := Time.zero, Status := 0, InfinityModifier := 0 } : Timestamptz) =
        Timestamptz.nullValue ∧
      Numeric.EncodeText { Decimal := Decimal.zero, Status := 0 } buf = .ok none ∧
      Numeric.EncodeBinary pgEncodeBinary { Decimal := Decimal.zero, Status := 0 } buf =
        .ok none ∧
      JSON.EncodeText { Bytes := none, Status := 0 } buf = .ok none ∧
      JSON.EncodeBinary { Bytes := none, Status := 0 } buf = .ok none ∧
      UUID.EncodeText { UUID := Array16.zero, Status := 0 } buf = .ok none ∧
      UUID.EncodeBinary { UUID := Array16.zero, Status := 0 } buf = .ok none ∧
      Timestamptz.EncodeText Format
        { Time := Time.zero, Status := 0, InfinityModifier := 0 } buf = .ok none ∧
      Timestamptz.EncodeBinary { Time := Time.zero, Status := 0, InfinityModifier := 0 }
        buf = .ok none := by
  have h0 : (0 : Status) = Null := rfl
  refine ⟨rfl, null_ne_present, rfl, rfl, rfl, rfl, ?_, ?_, ?_, ?_, ?_, ?_, ?_, ?_⟩
  · simp only [Numeric.EncodeText, h0, null_ne_present, if_false, if_true]
  · simp only [Numeric.EncodeBinary, h0, null_ne_present, if_false, if_true]
  · simp only [JSON.EncodeText, h0, if_true]
  · simp only [JSON.EncodeBinary, JSON.EncodeText, h0, if_true]
  · simp only [UUID.EncodeText, h0, if_true]
  · simp only [UUID.EncodeBinary, h0, if_true]
  · simp only [Timestamptz.EncodeText, h0, if_true]
  · simp only [Timestamptz.EncodeBinary, h0, if_true]

/-! ## JSON: the codec -/

/-- C18, as stated, fails. `Set` of the empty string makes the receiver Present with
an empty, non-nil payload; `EncodeText` and `EncodeBinary` of it onto the absent (nil)
buffer append nothing to nil and so return nil, which `DecodeText` and `DecodeBinary`
read as Null. -/
theorem json_round_trip_empty_fails :
    JSON.Set JSON.nullValue (.string []) = some ({ Bytes := some [], Status := Present }, none) ∧
      JSON.EncodeText { Bytes := some [], Status := Present } none = .ok none ∧
      JSON.DecodeText JSON.nullValue none = ({ Bytes := none, Status := Null }, none) ∧
      JSON.EncodeBinary { Bytes := some [], Status := Present } none = .ok none ∧
      JSON.DecodeBinary JSON.nullValue none = ({ Bytes := none, Status := Null }, none) ∧
      Null ≠ Present := by
  decide

theorem json_encode_decode (x dst : JSON) (buf : Slice)
    (hx : x.Status = Null ∨ x.Status = Present)
    (hbuf : buf = some [] ∨ (buf = none ∧ (x.Status = Null ∨ x.Bytes.getD [] ≠ []))) :
    ∃ enc, JSON.EncodeText x buf = .ok enc ∧ (JSON.DecodeText dst enc).2 = none ∧
      (JSON.DecodeText dst enc).1.Status = x.Status ∧
      (x.Status = Present → (JSON.DecodeText dst enc).1.Bytes = some (x.Bytes.getD [])) := by
  by_cases hn : x.Status = Null
  · refine ⟨none, by simp only [JSON.EncodeText, hn, if_true], rfl, hn.symm, ?_⟩
    intro hp; rw [hn] at hp; exact absurd hp null_ne_present
  · have hp : x.Status = Present := hx.resolve_left hn
    have happ : goAppend buf (x.Bytes.getD []) = some (x.Bytes.getD []) := by
      rcases hbuf with h | ⟨h, h2⟩
      · rw [h, goAppend_empty]
      · rw [h, goAppend_nil_of_ne_nil _ (h2.resolve_left hn)]
    refine ⟨some (x.Bytes.getD []), by simp only [JSON.EncodeText, hn, if_false, happ],
      rfl, hp.symm, fun _ => rfl⟩

/-- C18, amended. For every JSON adapter `x` that is Null or Present, `DecodeText`
applied to what `EncodeText` returns for `x` on an empty non-nil output buffer
succeeds and yields the status of `x` and, when `x` is Present, its payload bytes.
With the absent (nil) output buffer the same holds when `x` is Null or has a
non-empty payload; for a Present `x` with an empty payload `EncodeText` then returns
nil and `DecodeText` yields Null. The same holds for `DecodeBinary` and
`EncodeBinary`. -/
theorem json_round_trip (x dst : JSON) (hx : x.Status = Null ∨ x.Status = Present) :
    (∃ enc, JSON.EncodeText x (some []) = .ok enc ∧ (JSON.DecodeText dst enc).2 = none ∧
        (JSON.DecodeText dst enc).1.Status = x.Status ∧
        (x.Status = Present → (JSON.DecodeText dst enc).1.Bytes = some (x.Bytes.getD []))) ∧
      (x.Status = Null ∨ x.Bytes.getD [] ≠ [] →
        ∃ enc, JSON.EncodeText x none = .ok enc ∧ (JSON.DecodeText dst enc).2 = none ∧
          (JSON.DecodeText dst enc).1.Status = x.Status ∧
          (x.Status = Present →
            (JSON.DecodeText dst enc).1.Bytes = some (x.Bytes.getD []))) ∧
      (x.Status = Present → x.Bytes.getD [] = [] →
        JSON.EncodeText x none = .ok none ∧
          JSON.DecodeText dst none = (JSON.nullValue, none)) ∧
      (∃ enc, JSON.EncodeBinary x (some []) = .ok enc ∧ (JSON.DecodeBinary dst enc).2 = none ∧
        (JSON.DecodeBinary dst enc).1.Status = x.Status ∧
        (x.Status = Present →
          (JSON.DecodeBinary dst enc).1.Bytes = some (x.Bytes.getD []))) ∧
      (x.Status = Null ∨ x.Bytes.getD [] ≠ [] →
        ∃ enc, JSON.EncodeBinary x none = .ok enc ∧ (JSON.DecodeBinary dst enc).2 = none ∧
          (JSON.DecodeBinary dst enc).1.Status = x.Status ∧
          (x.Status = Present →
            (JSON.DecodeBinary dst enc).1.Bytes = some (x.Bytes.getD []))) ∧
      (x.Status = Present → x.Bytes.getD [] = [] →
        JSON.EncodeBinary x none = .ok none ∧
          JSON.DecodeBinary dst none = (JSON.nullValue, none)) := by
  have hempty : x.Status = Present → x.Bytes.getD [] = [] →
      JSON.EncodeText x none = .ok none ∧ JSON.DecodeText dst none = (JSON.nullValue, none) := by
    intro hp he
    have hn : ¬ x.Status = Null := by
      intro hc; rw [hc] at hp; exact null_ne_present hp
    simp only [JSON.EncodeText, hn, if_false, he, goAppend, JSON.DecodeText, and_self]
  exact ⟨json_encode_decode x dst _ hx (Or.inl rfl),
    fun h => json_encode_decode x dst _ hx (Or.inr ⟨rfl, h⟩), hempty,
    json_encode_decode x dst _ hx (Or.inl rfl),
    fun h => json_encode_decode x dst _ hx (Or.inr ⟨rfl, h⟩), hempty⟩

/-- C18, amended, at the Present payload `{}` with the nil buffer and at the Present
empty payload with an empty non-nil buffer. -/
theorem json_round_trip_witness :
    (∃ enc, JSON.EncodeText { Bytes := some [123, 125], Status := Present } none = .ok enc ∧
        (JSON.DecodeText JSON.nullValue enc).2 = none ∧
        (JSON.DecodeText JSON.nullValue enc).1.Status = Present ∧
        (Present = Present →
          (JSON.DecodeText JSON.nullValue enc).1.Bytes = some [123, 125])) ∧
      (∃ enc, JSON.EncodeText { Bytes := some [], Status := Present } (some []) = .ok enc ∧
        (JSON.DecodeText JSON.nullValue enc).2 = none ∧
        (JSON.DecodeText JSON.nullValue enc).1.Status = Present ∧
        (Present = Present → (JSON.DecodeText JSON.nullValue enc).1.Bytes = some [])) :=
  ⟨(json_round_trip { Bytes := some [123, 125], Status := Present } JSON.nullValue
      (Or.inr rfl)).2.1 (Or.inr (by decide)),
    (json_round_trip { Bytes := some [], Status := Present } JSON.nullValue (Or.inr rfl)).1⟩

theorem json_set_payload (dst : JSON) (src : JSONSrc) (r : JSON × Option Err)
    (h : JSON.Set dst src = some r) (herr : r.2 = none) (hp : r.1.Status = Present) :
    r.1.Bytes ≠ none := by
  have hnull : ∀ q : JSON × Option Err, some (JSON.nullValue, (none : Option Err)) = some q →
      q.1.Status = Present → q.1.Bytes ≠ none := by
    intro q hq hqp
    cases hq
    exact absurd hqp null_ne_present
  induction src with
  | nil => exact hnull r h hp
  | getter inner ih => exact ih h
  | string s => simp only [JSON.Set, Option.some.injEq] at h; subst h; simp
  | stringPtr p =>
    cases p with
    | none => exact hnull r h hp
    | some s => simp only [JSON.Set, Option.some.injEq] at h; subst h; simp
  | bytes b =>
    cases b with
    | none => exact hnull r h hp
    | some s => simp only [JSON.Set, Option.some.injEq] at h; subst h; simp
  | json v decoded ih =>
    simp only [JSON.Set] at h
    split_ifs at h
    · exact ih h
    · exact hnull r h hp
  | jsonUndecodable v =>
    simp only [JSON.Set] at h
    split_ifs at h
    exact hnull r h hp
  | other marshal =>
    cases marshal with
    | error err =>
      simp only [JSON.Set, Option.some.injEq] at h; subst h; simp at herr
    | ok buf => simp only [JSON.Set, Option.some.injEq] at h; subst h; simp

/-- C19. After a `JSON.Set` that returns without an error, and after a `DecodeText`,
`DecodeBinary`, `Scan` or `UnmarshalJSON` that returns without an error, from any
prior receiver state and for any input, a receiver whose status is Present holds a
payload that is not the nil slice. -/
theorem json_payload_invariant (dst : JSON) :
    (∀ src r, JSON.Set dst src = some r → r.2 = none → r.1.Status = Present →
        r.1.Bytes ≠ none) ∧
      (∀ b, (JSON.DecodeText dst b).2 = none → (JSON.DecodeText dst b).1.Status = Present →
        (JSON.DecodeText dst b).1.Bytes ≠ none) ∧
      (∀ b, (JSON.DecodeBinary dst b).2 = none →
        (JSON.DecodeBinary dst b).1.Status = Present →
        (JSON.DecodeBinary dst b).1.Bytes ≠ none) ∧
      (∀ src, (JSON.Scan dst src).2 = none → (JSON.Scan dst src).1.Status = Present →
        (JSON.Scan dst src).1.Bytes ≠ none) ∧
      (∀ b, (JSON.UnmarshalJSON dst b).2 = none →
        (JSON.UnmarshalJSON dst b).1.Status = Present →
        (JSON.UnmarshalJSON dst b).1.Bytes ≠ none) := by
  have hdec : ∀ b, (JSON.DecodeText dst b).1.Status = Present →
      (JSON.DecodeText dst b).1.Bytes ≠ none := by
    intro b hp
    cases b with
    | none => exact absurd hp null_ne_present
    | some s => simp [JSON.DecodeText]
  refine ⟨fun src r h herr hp => json_set_payload dst src r h herr hp,
    fun b _ => hdec b, fun b _ => hdec b, ?_, ?_⟩
  · intro src herr hp
    cases src with
    | nil => exact absurd hp null_ne_present
    | string s => exact hdec _ hp
    | bytes b => exact hdec _ hp
    | time t => simp [JSON.Scan] at herr
    | float64 dec => simp [JSON.Scan] at herr
    | other => simp [JSON.Scan] at herr
  · intro b _ hp
    simp only [JSON.UnmarshalJSON] at hp ⊢
    split_ifs at hp ⊢ with hc
    · exact absurd hp null_ne_present
    · intro hb
      exact hc (Or.inl hb)

/-- C19, at `Set` of the empty string and `Scan` of a nil byte slice: the receiver is
Present with an empty payload that is not nil. -/
theorem json_payload_invariant_witness :
    JSON.Set JSON.nullValue (.string []) = some ({ Bytes := some [], Status := Present }, none) ∧
      (some [] : Slice) ≠ none ∧
      JSON.Scan JSON.nullValue (.bytes none) = ({ Bytes := some [], Status := Present }, none) ∧
      (JSON.Scan JSON.nullValue (.bytes none)).1.Bytes ≠ none :=
  ⟨rfl,
    (json_payload_invariant JSON.nullValue).1 (.string [])
      ({ Bytes := some [], Status := Present }, none) rfl rfl rfl,
    rfl,
    (json_payload_invariant JSON.nullValue).2.2.2.1 (.bytes none) rfl rfl⟩

/-! ## No partial success -/

theorem numeric_setFromString_error (dst : Numeric) (s : List Byte) (wrap : Bool)
    (h : (Numeric.setFromString dst s wrap).2 ≠ none) :
    (Numeric.setFromString dst s wrap).1 = dst := by
  simp only [Numeric.setFromString] at h ⊢
  split
  · rfl
  · rename_i heq
    rw [heq] at h
    exact absurd rfl h

theorem numeric_set_error (dst : Numeric) (src : NumericSrc)
    (h : (Numeric.Set dst src).2 ≠ none) : (Numeric.Set dst src).1 = dst := by
  induction src with
  | getter inner ih => exact ih h
  | uint64 v => exact numeric_setFromString_error dst _ _ h
  | uint v => exact numeric_setFromString_error dst _ _ h
  | string s => exact numeric_setFromString_error dst _ _ h
  | other text =>
    cases text with
    | none => rfl
    | some buf => exact numeric_setFromString_error dst _ _ h
  | _ => exact absurd rfl h

theorem numeric_decodeText_error (dst : Numeric) (src : Slice)
    (h : (Numeric.DecodeText dst src).2 ≠ none) : (Numeric.DecodeText dst src).1 = dst := by
  cases src with
  | none => exact absurd rfl h
  | some b =>
    simp only [Numeric.DecodeText] at h ⊢
    split
    · rfl
    · rename_i heq
      rw [heq] at h
      exact absurd rfl h

theorem numeric_decodeBinary_error (pgDecodeBinary : List Byte → Except Err (Int × Int))
    (dst : Numeric) (src : Slice) (h : (Numeric.DecodeBinary pgDecodeBinary dst src).2 ≠ none) :
    (Numeric.DecodeBinary pgDecodeBinary dst src).1 = dst := by
  cases src with
  | none => exact absurd rfl h
  | some b =>
    simp only [Numeric.DecodeBinary] at h ⊢
    split
    · rfl
    · rename_i heq
      rw [heq] at h
      exact absurd rfl h

theorem json_set_error (dst : JSON) (src : JSONSrc) (r : JSON × Option Err)
    (h : JSON.Set dst src = some r) (herr : r.2 ≠ none) : r.1 = dst := by
  have hnull : ∀ (a : JSON) (q : JSON × Option Err), some (a, (none : Option Err)) = some q →
      q.2 ≠ none → q.1 = dst := by
    intro a q hq hqe
    cases hq
    exact absurd rfl hqe
  induction src with
  | nil => exact hnull _ r h herr
  | getter inner ih => exact ih h
  | string s => exact hnull _ r h herr
  | stringPtr p =>
    cases p with
    | none => exact hnull _ r h herr
    | some s => exact hnull _ r h herr
  | bytes b =>
    cases b with
    | none => exact hnull _ r h herr
    | some s => exact hnull _ r h herr
  | json v decoded ih =>
    simp only [JSON.Set] at h
    split_ifs at h
    · exact ih h
    · exact hnull _ r h herr
  | jsonUndecodable v =>
    simp only [JSON.Set] at h
    split_ifs at h
    exact hnull _ r h herr
  | other marshal =>
    cases marshal with
    | error err => simp only [JSON.Set, Option.some.injEq] at h; subst h; rfl
    | ok buf => exact hnull _ r h herr

theorem uuid_set_error (FromString : List Byte → Except Err Array16) (fuel : Nat)
    (dst : UUID) (src : UUIDSrc) (r : UUID × Option Err)
    (h : UUID.Set FromString fuel dst src = some r) (herr : r.2 ≠ none) : r.1 = dst := by
  induction fuel generalizing src with
  | zero => simp [UUID.Set] at h
  | succ fuel ih =>
    cases src with
    | nil => simp only [UUID.Set, Option.some.injEq] at h; subst h; exact absurd rfl herr
    | getter inner => exact ih inner h
    | uuid v => simp only [UUID.Set, Option.some.injEq] at h; subst h; exact absurd rfl herr
    | array16 v => simp only [UUID.Set, Option.some.injEq] at h; subst h; exact absurd rfl herr
    | bytes v =>
      simp only [UUID.Set] at h
      split_ifs at h
      · simp only [Option.some.injEq] at h; subst h; rfl
      · simp only [Option.some.injEq] at h; subst h; exact absurd rfl herr
    | string s =>
      simp only [UUID.Set] at h
      split at h
      · simp only [Option.some.injEq] at h; subst h; rfl
      · simp only [Option.some.injEq] at h; subst h; exact absurd rfl herr
    | other =>
      simp only [UUID.Set] at h
      split at h
      · exact absurd h (by simp)
      · simp only [Option.some.injEq] at h; subst h; rfl
      · simp only [Option.some.injEq] at h; subst h; exact absurd rfl herr

theorem uuid_decodeText_error (FromString : List Byte → Except Err Array16) (dst : UUID)
    (src : Slice) (h : (UUID.DecodeText FromString dst src).2 ≠ none) :
    (UUID.DecodeText FromString dst src).1 = dst := by
  cases src with
  | none => exact absurd rfl h
  | some b =>
    simp only [UUID.DecodeText] at h ⊢
    split
    · rfl
    · rename_i heq
      rw [heq] at h
      exact absurd rfl h

theorem uuid_decodeBinary_error (dst : UUID) (src : Slice)
    (h : (UUID.DecodeBinary dst src).2 ≠ none) : (UUID.DecodeBinary dst src).1 = dst := by
  cases src with
  | none => exact absurd rfl h
  | some b =>
    simp only [UUID.DecodeBinary] at h ⊢
    split_ifs at h ⊢
    · rfl
    · exact absurd rfl h

theorem timestamptz_set_error (dst : Timestamptz) (src : TimestamptzSrc)
    (h : (Timestamptz.Set dst src).2 ≠ none) : (Timestamptz.Set dst src).1 = dst := by
  induction src with
  | getter inner ih => exact ih h
  | convertible original ih => exact ih h
  | timePtr p =>
    cases p with
    | none => exact absurd rfl h
    | some t => exact absurd rfl h
  | other => rfl
  | _ => exact absurd rfl h

theorem timestamptz_decodeText_error (Parse : List Byte → List Byte → Except Err Time)
    (dst : Timestamptz) (src : Slice) (h : (Timestamptz.DecodeText Parse dst src).2 ≠ none) :
    (Timestamptz.DecodeText Parse dst src).1 = dst := by
  cases src with
  | none => exact absurd rfl h
  | some b =>
    simp only [Timestamptz.DecodeText] at h ⊢
    split_ifs at h ⊢
    · exact absurd rfl h
    · exact absurd rfl h
    · split
      · rfl
      · rename_i heq
        rw [heq] at h
        exact absurd rfl h

theorem timestamptz_decodeBinary_error (dst : Timestamptz) (src : Slice)
    (h : (Timestamptz.DecodeBinary dst src).2 ≠ none) :
    (Timestamptz.DecodeBinary dst src).1 = dst := by
  cases src with
  | none => exact absurd rfl h
  | some b =>
    simp only [Timestamptz.DecodeBinary] at h ⊢
    split_ifs at h ⊢
    · rfl
    · exact absurd rfl h
    · exact absurd rfl h
    · exact absurd rfl h

/-- C20. Whenever `Set`, `DecodeText` or `DecodeBinary` of one of the four adapters
returns an error, the receiver is exactly what it was before the call (`DecodeText`
and `DecodeBinary` of JSON never return one). In particular `Timestamptz.DecodeBinary`
on a non-nil buffer whose length is not 8, `UUID.DecodeBinary` on a non-nil buffer
whose length is not 16, and `UUID.Set` on a byte sequence whose length is not 16 each
return an error and leave the receiver unchanged. -/
theorem no_partial_success (n : Numeric) (j : JSON) (u : UUID) (t : Timestamptz)
    (FromString : List Byte → Except Err Array16)
    (Parse : List Byte → List Byte → Except Err Time)
    (pgDecodeBinary : List Byte → Except Err (Int × Int)) :
    ((∀ src, (Numeric.Set n src).2 ≠ none → (Numeric.Set n src).1 = n) ∧
        (∀ b, (Numeric.DecodeText n b).2 ≠ none → (Numeric.DecodeText n b).1 = n) ∧
        (∀ b, (Numeric.DecodeBinary pgDecodeBinary n b).2 ≠ none →
          (Numeric.DecodeBinary pgDecodeBinary n b).1 = n)) ∧
      ((∀ src r, JSON.Set j src = some r → r.2 ≠ none → r.1 = j) ∧
        (∀ b, (JSON.DecodeText j b).2 = none) ∧
        (∀ b, (JSON.DecodeBinary j b).2 = none)) ∧
      ((∀ fuel src r, UUID.Set FromString fuel u src = some r → r.2 ≠ none → r.1 = u) ∧
        (∀ b, (UUID.DecodeText FromString u b).2 ≠ none →
          (UUID.DecodeText FromString u b).1 = u) ∧
        (∀ b, (UUID.DecodeBinary u b).2 ≠ none → (UUID.DecodeBinary u b).1 = u)) ∧
      ((∀ src, (Timestamptz.Set t src).2 ≠ none → (Timestamptz.Set t src).1 = t) ∧
        (∀ b, (Timestamptz.DecodeText Parse t b).2 ≠ none →
          (Timestamptz.DecodeText Parse t b).1 = t) ∧
        (∀ b, (Timestamptz.DecodeBinary t b).2 ≠ none →
          (Timestamptz.DecodeBinary t b).1 = t)) ∧
      (∀ b : List Byte, b.length ≠ 8 →
        Timestamptz.DecodeBinary t (some b) = (t, some (Err.invalidLength b.length))) ∧
      (∀ b : List Byte, b.length ≠ 16 →
        UUID.DecodeBinary u (some b) = (u, some (Err.invalidLength b.length))) ∧
      (∀ (fuel : Nat) (b : List Byte), b.length ≠ 16 →
        UUID.Set FromString (fuel + 1) u (.bytes (some b)) =
          some (u, some (Err.mustBe16 b.length))) := by
  refine ⟨⟨numeric_set_error n, numeric_decodeText_error n,
      numeric_decodeBinary_error pgDecodeBinary n⟩,
    ⟨json_set_error j, ?_, ?_⟩,
    ⟨fun fuel => uuid_set_error FromString fuel u, uuid_decodeText_error FromString u,
      uuid_decodeBinary_error u⟩,
    ⟨timestamptz_set_error t, timestamptz_decodeText_error Parse t,
      timestamptz_decodeBinary_error t⟩, ?_, ?_, ?_⟩
  · intro b; cases b <;> rfl
  · intro b; cases b <;> rfl
  · intro b hb
    simp only [Timestamptz.DecodeBinary, hb, ne_eq, not_false_eq_true, if_true]
  · intro b hb
    simp only [UUID.DecodeBinary, hb, ne_eq, not_false_eq_true, if_true]
  · intro fuel b hb
    simp only [UUID.Set, Option.getD_some, hb, ne_eq, not_false_eq_true, if_true]

/-- C20, at a 7-byte buffer for `Timestamptz.DecodeBinary`, a 15-byte buffer for
`UUID.DecodeBinary`, a 3-byte sequence for `UUID.Set` and the text `1..5` for
`Numeric.DecodeText`, each with a Present receiver, which is unchanged. -/
theorem no_partial_success_witness :
    Timestamptz.DecodeBinary
        { Time := { sec := 5, nsec := 0 }, Status := Present, InfinityModifier := None }
        (some [1, 2, 3, 4, 5, 6, 7]) =
      ({ Time := { sec := 5, nsec := 0 }, Status := Present, InfinityModifier := None },
        some (Err.invalidLength 7)) ∧
    UUID.Set (fun _ => .error Err.parse) 1 { UUID := Array16.zero, Status := Present }
        (.bytes (some [1, 2, 3])) =
      some ({ UUID := Array16.zero, Status := Present }, some (Err.mustBe16 3)) ∧
    (Numeric.DecodeText { Decimal := { value := 7, exp := 0 }, Status := Present }
        (some [49, 46, 46, 53])).1 =
      { Decimal := { value := 7, exp := 0 }, Status := Present } := by
  have h := no_partial_success
    { Decimal := { value := 7, exp := 0 }, Status := Present } JSON.nullValue
    { UUID := Array16.zero, Status := Present }
    { Time := { sec := 5, nsec := 0 }, Status := Present, InfinityModifier := None }
    (fun _ => .error Err.parse) (fun _ _ => .error Err.parse) (fun _ => .error Err.parse)
  exact ⟨h.2.2.2.2.1 [1, 2, 3, 4, 5, 6, 7] (by decide),
    h.2.2.2.2.2.2 0 [1, 2, 3] (by decide),
    h.1.2.1 (some [49, 46, 46, 53]) (by decide)⟩

/-! ## Array dimensions -/

theorem firstOk_of_ok (call : Nat → List ArrayDimension × Int × Bool) (n i : Nat)
    (h : (call i).2.2 = true) : firstOk call (n + 1) i = some (call i) := by
  simp only [firstOk, h, if_true]

theorem findDimensions_ok (intSize : Nat) (v : Value) (dims : List ArrayDimension) (e : Int) :
    (findDimensionsFromValue intSize v dims e).2.2 = true := by
  cases v with
  | other => rfl
  | seq length index =>
    simp only [findDimensionsFromValue]
    split <;> rfl

theorem findDimensions_seq_pos (intSize : Nat) (length : Nat) (index : Nat → Value)
    (dims : List ArrayDimension) (e : Int) (hpos : 0 < length) :
    findDimensionsFromValue intSize (.seq length index) dims e =
      findDimensionsFromValue intSize (index 0)
        (dims ++ [{ Length := truncSigned 32 length, LowerBound := 1 }])
        (if 0 = e then (length : Int) else truncSigned intSize (e * length)) := by
  obtain ⟨n, rfl⟩ : ∃ n, length = n + 1 := ⟨length - 1, by omega⟩
  have hok := findDimensions_ok intSize (index 0)
    (dims ++ [{ Length := truncSigned 32 ((n + 1 : Nat) : Int), LowerBound := 1 }])
    (if 0 = e then ((n + 1 : Nat) : Int) else truncSigned intSize (e * ((n + 1 : Nat) : Int)))
  simp only [findDimensionsFromValue]
  rw [firstOk_of_ok _ _ _ hok]
  simp only [← hok]

theorem findDimensions_seq_zero (intSize : Nat) (index : Nat → Value)
    (dims : List ArrayDimension) (e : Int) :
    findDimensionsFromValue intSize (.seq 0 index) dims e =
      (dims ++ [{ Length := truncSigned 32 0, LowerBound := 1 }],
        (if 0 = e then (0 : Int) else truncSigned intSize (e * 0)), true) := by
  simp only [findDimensionsFromValue, firstOk, Nat.cast_zero]

theorem truncSigned_natCast (bits : Nat) (hb : bits = 32 ∨ bits = 64) (n : Nat)
    (h : n < 2 ^ (bits - 1)) : truncSigned bits (n : Int) = (n : Int) := by
  rcases hb with rfl | rfl <;>
  · simp only [truncSigned]
    norm_num at h ⊢
    omega

theorem findDimensions_regular_aux (intSize : Nat) (hsz : intSize = 32 ∨ intSize = 64)
    (ds : List Nat) :
    ∀ (v : Value) (acc : List ArrayDimension) (e : Nat), 1 ≤ e → Value.Regular ds v →
      (∀ d ∈ ds, d < 2 ^ 31) →
      (∀ pre d suf, ds = pre ++ d :: suf → suf ≠ [] → 1 ≤ d) →
      (∀ j, e * (ds.take j).prod < 2 ^ (intSize - 1)) →
      findDimensionsFromValue intSize v acc (e : Int) =
        (acc ++ ds.map (fun d => { Length := (d : Int), LowerBound := 1 }),
          ((e * ds.prod : Nat) : Int), true) := by
  induction ds with
  | nil =>
    intro v acc e _ hreg _ _ _
    cases v with
    | other => simp [findDimensionsFromValue]
    | seq length index => exact absurd hreg (by simp [Value.Regular])
  | cons d rest ih =>
    intro v acc e he hreg hlt hpos hprod
    cases v with
    | other => exact absurd hreg (by simp [Value.Regular])
    | seq length index =>
      obtain ⟨hlen, helems⟩ := hreg
      subst hlen
      have hd : length < 2 ^ 31 := hlt length (by simp)
      have h32 : truncSigned 32 (length : Int) = (length : Int) :=
        truncSigned_natCast 32 (Or.inl rfl) length hd
      have hne : ¬ (0 : Int) = (e : Int) := by omega
      have hmul : e * length < 2 ^ (intSize - 1) := by
        have := hprod 1
        simpa using this
      have hint : truncSigned intSize ((e : Int) * (length : Int)) = ((e * length : Nat) : Int) := by
        have := truncSigned_natCast intSize hsz (e * length) hmul
        push_cast at this ⊢
        exact this
      by_cases hz : length = 0
      · subst hz
        have hrest : rest = [] := by
          by_contra hc
          have := hpos [] 0 rest rfl hc
          omega
        subst hrest
        have h32z : truncSigned 32 0 = 0 := by simpa using h32
        have hintz : truncSigned intSize ((e : Int) * 0) = 0 := by simpa using hint
        rw [findDimensions_seq_zero, if_neg hne, h32z, hintz]
        simp
      · rw [findDimensions_seq_pos intSize length index acc e (by omega), if_neg hne, h32, hint]
        rw [ih (index 0) _ (e * length) (Nat.mul_pos he (by omega)) (helems 0 (by omega))
          (fun x hx => hlt x (by simp [hx]))
          (fun pre x suf hx hs => hpos (length :: pre) x suf (by simp [hx]) hs)
          (fun j => by
            have := hprod (j + 1)
            simpa [Nat.mul_assoc] using this)]
        simp [Nat.mul_assoc]

/-- C17, as stated, fails. (1) A sequence with no elements is regular with the lengths
0 and 3 (as the array type `[0][3]int` has them); only the descriptor of the outer level
is returned. (2) A sequence of 2147483648 elements that are not sequences gets the
descriptor length -2147483648, the length converted to `int32`. (3) With a 64-bit
`int`, three nested levels of 2097152 elements each give the element count
-9223372036854775808 instead of the product 9223372036854775808. -/
theorem findDimensions_fails :
    (Value.Regular [0, 3] (.seq 0 fun _ => .other) ∧
      findDimensionsFromValue 64 (.seq 0 fun _ => .other) [] 0 =
        ([{ Length := 0, LowerBound := 1 }], 0, true) ∧
      [({ Length := 0, LowerBound := 1 } : ArrayDimension)] ≠
        [{ Length := 0, LowerBound := 1 }, { Length := 3, LowerBound := 1 }]) ∧
    (Value.Regular [2147483648] (.seq 2147483648 fun _ => .other) ∧
      findDimensionsFromValue 64 (.seq 2147483648 fun _ => .other) [] 0 =
        ([{ Length := -2147483648, LowerBound := 1 }], 2147483648, true)) ∧
    (Value.Regular [2097152, 2097152, 2097152]
        (.seq 2097152 fun _ => .seq 2097152 fun _ => .seq 2097152 fun _ => .other) ∧
      findDimensionsFromValue 64
          (.seq 2097152 fun _ => .seq 2097152 fun _ => .seq 2097152 fun _ => .other) [] 0 =
        ([{ Length := 2097152, LowerBound := 1 }, { Length := 2097152, LowerBound := 1 },
          { Length := 2097152, LowerBound := 1 }], -9223372036854775808, true) ∧
      (2097152 * 2097152 * 2097152 : Int) = 9223372036854775808) := by
  refine ⟨⟨?_, by decide, by decide⟩, ⟨?_, by decide⟩, ⟨?_, by decide, by decide⟩⟩
  · simp [Value.Regular]
  · simp [Value.Regular]
  · simp [Value.Regular]

/-- C17, amended. Let a regular nested sequence have `k ≥ 1` nesting levels of lengths
`d1` (outermost) to `dk` (innermost), every length below `2 ^ 31`, every length except
the innermost at least 1, and the products `d1`, `d1 * d2`, ..., `d1 * ... * dk` all
below `2 ^ (w - 1)` for `w` the width of `int` (32 or 64). Then
`findDimensionsFromValue`, called with an empty descriptor list and element count 0,
returns the descriptors `{d1, 1}, ..., {dk, 1}` in outermost-first order, the element
count `d1 * ... * dk`, and true. -/
theorem findDimensions_regular (intSize : Nat) (hsz : intSize = 32 ∨ intSize = 64)
    (ds : List Nat) (v : Value) (hk : ds ≠ []) (hreg : Value.Regular ds v)
    (hlt : ∀ d ∈ ds, d < 2 ^ 31) (hpos : ∀ d ∈ ds.dropLast, 1 ≤ d)
    (hprod : ∀ j, j ≤ ds.length → (ds.take j).prod < 2 ^ (intSize - 1)) :
    findDimensionsFromValue intSize v [] 0 =
      (ds.map (fun d => { Length := (d : Int), LowerBound := 1 }), (ds.prod : Int), true) := by
  have hprod2 : ∀ j, (ds.take j).prod < 2 ^ (intSize - 1) := by
    intro j
    by_cases hj : j ≤ ds.length
    · exact hprod j hj
    · rw [List.take_of_length_le (by omega)]
      simpa using hprod ds.length (le_refl _)
  have hpos2 : ∀ pre d suf, ds = pre ++ d :: suf → suf ≠ [] → 1 ≤ d := by
    intro pre d suf hds hs
    apply hpos
    rw [hds, List.dropLast_append_cons, List.dropLast_cons_of_ne_nil hs]
    simp
  cases ds with
  | nil => exact absurd rfl hk
  | cons d rest =>
    cases v with
    | other => exact absurd hreg (by simp [Value.Regular])
    | seq length index =>
      obtain ⟨hlen, helems⟩ := hreg
      subst hlen
      have hd : length < 2 ^ 31 := hlt length (by simp)
      have h32 : truncSigned 32 (length : Int) = (length : Int) :=
        truncSigned_natCast 32 (Or.inl rfl) length hd
      by_cases hz : length = 0
      · subst hz
        have hrest : rest = [] := by
          by_contra hc
          have := hpos2 [] 0 rest rfl hc
          omega
        subst hrest
        have h32z : truncSigned 32 0 = 0 := by simpa using h32
        rw [findDimensions_seq_zero, h32z]
        simp
      · rw [findDimensions_seq_pos intSize length index [] 0 (by omega), if_pos rfl, h32,
          findDimensions_regular_aux intSize hsz rest (index 0) _ length (by omega)
            (helems 0 (by omega)) (fun x hx => hlt x (by simp [hx]))
            (fun pre x suf hx hs => hpos2 (length :: pre) x suf (by simp [hx]) hs)
            (fun j => by
              have := hprod2 (j + 1)
              simpa using this)]
        simp

/-- C17, amended, at a sequence of 2 sequences of 3 elements: the descriptors are
`{2, 1}` and `{3, 1}`, the element count is 6. -/
theorem findDimensions_regular_witness :
    Value.Regular [2, 3] (.seq 2 fun _ => .seq 3 fun _ => .other) ∧
      findDimensionsFromValue 64 (.seq 2 fun _ => .seq 3 fun _ => .other) [] 0 =
        ([{ Length := 2, LowerBound := 1 }, { Length := 3, LowerBound := 1 }], 6, true) := by
  have hreg : Value.Regular [2, 3] (.seq 2 fun _ => .seq 3 fun _ => .other) := by
    simp [Value.Regular]
  exact ⟨hreg, findDimensions_regular 64 (Or.inr rfl) [2, 3] _ (by decide) hreg (by decide)
    (by decide) (by decide)⟩

/-- C21, where it fails: for the nil byte slice `JSON.Scan` and `Timestamptz.Scan` do
not do what `DecodeText` does on the nil slice.  `JSON.Scan` leaves a Present receiver
with an empty payload where `DecodeText` leaves Null, and `Timestamptz.Scan`, with a
`time.Parse` that rejects the empty text, returns the error and keeps the receiver
where `DecodeText` makes it Null without an error. -/
theorem scan_nil_bytes_differs :
    JSON.Scan JSON.nullValue (.bytes none) = ({ Bytes := some [], Status := Present }, none) ∧
      JSON.DecodeText JSON.nullValue none = ({ Bytes := none, Status := Null }, none) ∧
      JSON.Scan JSON.nullValue (.bytes none) ≠ JSON.DecodeText JSON.nullValue none ∧
      Timestamptz.Scan (fun _ _ => .error Err.parse)
          { Time := Time.zero, Status := Present, InfinityModifier := None } (.bytes none) =
        ({ Time := Time.zero, Status := Present, InfinityModifier := None },
          some Err.parse) ∧
      Timestamptz.DecodeText (fun _ _ => .error Err.parse)
          { Time := Time.zero, Status := Present, InfinityModifier := None } none =
        ({ Time := Time.zero, Status := Null, InfinityModifier := None }, none) := by
  refine ⟨rfl, rfl, by decide, by decide, rfl⟩

/-- C21, amended.  For each of the four adapters `Scan` of the nil interface leaves
the Null value without an error, and `Scan` of a string leaves the receiver and the
error that `DecodeText` leaves on the bytes of the string.  For a byte slice,
`Numeric.Scan` and `UUID.Scan` leave what `DecodeText` leaves on that slice, the nil
slice included; `JSON.Scan` and `Timestamptz.Scan` leave what `DecodeText` leaves on a
slice that is not nil, and on the nil slice what `DecodeText` leaves on the empty slice
that is not nil. -/
theorem scan_routes_to_decodeText (FromString : List Byte → Except Err Array16)
    (Parse : List Byte → List Byte → Except Err Time) (n : Numeric) (u : UUID)
    (j : JSON) (t : Timestamptz) :
    (Numeric.Scan n .nil = (Numeric.nullValue, none) ∧
      UUID.Scan FromString u .nil = (UUID.nullValue, none) ∧
      JSON.Scan j .nil = (JSON.nullValue, none) ∧
      Timestamptz.Scan Parse t .nil = (Timestamptz.nullValue, none) ∧
      Numeric.nullValue.Status = Null ∧ UUID.nullValue.Status = Null ∧
      JSON.nullValue.Status = Null ∧ Timestamptz.nullValue.Status = Null) ∧
    (∀ s : List Byte,
      Numeric.Scan n (.string s) = Numeric.DecodeText n (some s) ∧
      UUID.Scan FromString u (.string s) = UUID.DecodeText FromString u (some s) ∧
      JSON.Scan j (.string s) = JSON.DecodeText j (some s) ∧
      Timestamptz.Scan Parse t (.string s) = Timestamptz.DecodeText Parse t (some s)) ∧
    (∀ b : Slice,
      Numeric.Scan n (.bytes b) = Numeric.DecodeText n b ∧
      UUID.Scan FromString u (.bytes b) = UUID.DecodeText FromString u b) ∧
    (∀ b : List Byte,
      JSON.Scan j (.bytes (some b)) = JSON.DecodeText j (some b) ∧
      Timestamptz.Scan Parse t (.bytes (some b)) =
        Timestamptz.DecodeText Parse t (some b)) ∧
    JSON.Scan j (.bytes none) = JSON.DecodeText j (some []) ∧
    Timestamptz.Scan Parse t (.bytes none) = Timestamptz.DecodeText Parse t (some []) :=
  ⟨⟨rfl, rfl, rfl, rfl, rfl, rfl, rfl, rfl⟩, fun _ => ⟨rfl, rfl, rfl, rfl⟩,
    fun _ => ⟨rfl, rfl⟩, fun _ => ⟨rfl, rfl⟩, rfl, rfl⟩

theorem goAppend_cons (buf : Slice) (c : Byte) (s : List Byte) :
    goAppend buf (c :: s) = some (buf.getD [] ++ c :: s) := by
  cases buf <;> rfl

/-- C22, where it fails: a Null timestamp that carries the positive infinity modifier
is encoded as the nil slice, which `DecodeText` reads as the Null value, whose modifier
is none. -/
theorem timestamptz_text_null_modifier_lost :
    Timestamptz.EncodeText (fun _ _ => [])
        { Time := Time.zero, Status := Null, InfinityModifier := Infinity } none = .ok none ∧
      Timestamptz.DecodeText (fun _ _ => .error Err.parse) Timestamptz.nullValue none =
        ({ Time := Time.zero, Status := Null, InfinityModifier := None }, none) ∧
      (Timestamptz.DecodeText (fun _ _ => .error Err.parse) Timestamptz.nullValue
          none).1.InfinityModifier ≠
        (({ Time := Time.zero, Status := Null, InfinityModifier := Infinity } :
          Timestamptz).InfinityModifier) := by
  refine ⟨rfl, rfl, by decide⟩

/-- C22, amended.  Whatever `time.Parse` does, `DecodeText` of the bytes `infinity`
(`-infinity`) leaves a Present receiver with the positive (negative) infinity modifier
and no error.  `EncodeText` of a Present timestamp with the positive (negative)
infinity modifier returns the buffer followed by exactly `infinity` (`-infinity`),
whatever the instant is.  On an empty or nil buffer, `DecodeText` of what `EncodeText`
returns has the status and the modifier of `x` when `x` is Present with one of the two
infinity modifiers; when `x` is Null it has the status Null and the modifier none,
whatever modifier `x` carries. -/
theorem timestamptz_text_infinities (Parse : List Byte → List Byte → Except Err Time)
    (Format : Time → List Byte → List Byte) (dst : Timestamptz) (tim : Time) (buf : Slice) :
    Timestamptz.DecodeText Parse dst (some (bytesOf "infinity")) =
        ({ Time := Time.zero, Status := Present, InfinityModifier := Infinity }, none) ∧
      Timestamptz.DecodeText Parse dst (some (bytesOf "-infinity")) =
        ({ Time := Time.zero, Status := Present, InfinityModifier := NegativeInfinity },
          none) ∧
      Timestamptz.EncodeText Format
          { Time := tim, Status := Present, InfinityModifier := Infinity } buf =
        .ok (some (buf.getD [] ++ bytesOf "infinity")) ∧
      Timestamptz.EncodeText Format
          { Time := tim, Status := Present, InfinityModifier := NegativeInfinity } buf =
        .ok (some (buf.getD [] ++ bytesOf "-infinity")) ∧
      (∀ x : Timestamptz, buf.getD [] = [] →
        (x.Status = Null → ∃ enc, Timestamptz.EncodeText Format x buf = .ok enc ∧
          (Timestamptz.DecodeText Parse dst enc).2 = none ∧
          (Timestamptz.DecodeText Parse dst enc).1.Status = x.Status ∧
          (Timestamptz.DecodeText Parse dst enc).1.InfinityModifier = None) ∧
        (x.Status = Present →
          x.InfinityModifier = Infinity ∨ x.InfinityModifier = NegativeInfinity →
          ∃ enc, Timestamptz.EncodeText Format x buf = .ok enc ∧
            (Timestamptz.DecodeText Parse dst enc).2 = none ∧
            (Timestamptz.DecodeText Parse dst enc).1.Status = x.Status ∧
            (Timestamptz.DecodeText Parse dst enc).1.InfinityModifier =
              x.InfinityModifier)) := by
  have hdi : Timestamptz.DecodeText Parse dst (some (bytesOf "infinity")) =
      ({ Time := Time.zero, Status := Present, InfinityModifier := Infinity }, none) := by
    simp only [Timestamptz.DecodeText, if_true]
  have hdn : Timestamptz.DecodeText Parse dst (some (bytesOf "-infinity")) =
      ({ Time := Time.zero, Status := Present, InfinityModifier := NegativeInfinity },
        none) := by
    have hne : bytesOf "-infinity" ≠ bytesOf "infinity" := by decide
    simp only [Timestamptz.DecodeText, if_neg hne, if_true]
  have hei : ∀ (t : Time) (b : Slice), Timestamptz.EncodeText Format
      { Time := t, Status := Present, InfinityModifier := Infinity } b =
      .ok (some (b.getD [] ++ bytesOf "infinity")) := by
    intro t b
    have h1 : Infinity ≠ None := by decide
    simp only [Timestamptz.EncodeText, if_neg present_ne_null, if_neg h1, if_true]
    exact congrArg Except.ok (goAppend_cons b _ _)
  have hen : ∀ (t : Time) (b : Slice), Timestamptz.EncodeText Format
      { Time := t, Status := Present, InfinityModifier := NegativeInfinity } b =
      .ok (some (b.getD [] ++ bytesOf "-infinity")) := by
    intro t b
    have h1 : NegativeInfinity ≠ None := by decide
    have h2 : NegativeInfinity ≠ Infinity := by decide
    simp only [Timestamptz.EncodeText, if_neg present_ne_null, if_neg h1, if_neg h2, if_true]
    exact congrArg Except.ok (goAppend_cons b _ _)
  refine ⟨hdi, hdn, hei tim buf, hen tim buf, ?_⟩
  intro x hbuf
  obtain ⟨xt, xs, xm⟩ := x
  refine ⟨?_, ?_⟩
  · intro hs
    dsimp only at hs
    subst hs
    exact ⟨none, by simp only [Timestamptz.EncodeText, if_true], rfl, rfl, rfl⟩
  · intro hs hm
    dsimp only at hs hm
    subst hs
    rcases hm with hm | hm
    · subst hm
      refine ⟨_, hei xt buf, ?_⟩
      rw [hbuf, List.nil_append, hdi]
      exact ⟨rfl, rfl, rfl⟩
    · subst hm
      refine ⟨_, hen xt buf, ?_⟩
      rw [hbuf, List.nil_append, hdn]
      exact ⟨rfl, rfl, rfl⟩

/-- C22, at a Present timestamp of the instant 5 s with the negative infinity modifier
and the nil buffer: the text is `-infinity` and decoding it gives the status Present
and the negative infinity modifier. -/
theorem timestamptz_text_infinities_witness :
    ((none : Slice).getD [] = []) ∧
      ∃ enc, Timestamptz.EncodeText (fun _ _ => [])
          { Time := { sec := 5, nsec := 0 }, Status := Present,
            InfinityModifier := NegativeInfinity } none = .ok enc ∧
        (Timestamptz.DecodeText (fun _ _ => .error Err.parse) Timestamptz.nullValue
          enc).2 = none ∧
        (Timestamptz.DecodeText (fun _ _ => .error Err.parse) Timestamptz.nullValue
          enc).1.Status = Present ∧
        (Timestamptz.DecodeText (fun _ _ => .error Err.parse) Timestamptz.nullValue
          enc).1.InfinityModifier = NegativeInfinity :=
  ⟨rfl, ((timestamptz_text_infinities (fun _ _ => .error Err.parse) (fun _ _ => [])
    Timestamptz.nullValue Time.zero none).2.2.2.2
    { Time := { sec := 5, nsec := 0 }, Status := Present,
      InfinityModifier := NegativeInfinity } rfl).2 rfl (Or.inr rfl)⟩

theorem isDigit_not_sign (c : Byte) (h : isDigit c = true) : isSign c = false := by
  simp only [isDigit, isSign, decide_eq_true_eq, decide_eq_false_iff_not] at *
  rintro (h1 | h1) <;> subst h1 <;> exact absurd h (by decide)

theorem matchesTemplate_length :
    ∀ (t s : List Byte), matchesTemplate t s = true → s.length = t.length
  | [], [], _ => rfl
  | [], _ :: _, h => by simp [matchesTemplate] at h
  | _ :: _, [], h => by simp [matchesTemplate] at h
  | p :: ps, c :: cs, h => by
    simp only [matchesTemplate, Bool.and_eq_true] at h
    simp only [List.length_cons, matchesTemplate_length ps cs h.2]

theorem matchesTemplate_drop :
    ∀ (k : Nat) (t s : List Byte), matchesTemplate t s = true →
      matchesTemplate (t.drop k) (s.drop k) = true
  | 0, _, _, h => h
  | _ + 1, [], [], _ => rfl
  | _ + 1, [], _ :: _, h => by simp [matchesTemplate] at h
  | _ + 1, _ :: _, [], h => by simp [matchesTemplate] at h
  | k + 1, p :: ps, c :: cs, h => by
    simp only [matchesTemplate, Bool.and_eq_true] at h
    exact matchesTemplate_drop k ps cs h.2

theorem matchesTemplate_noSign :
    ∀ (t s : List Byte), matchesTemplate t s = true → (∀ p ∈ t, isSign p = false) →
      ∀ c ∈ s, isSign c = false
  | [], [], _, _ => by simp
  | [], _ :: _, h, _ => by simp [matchesTemplate] at h
  | _ :: _, [], _, _ => by simp
  | p :: ps, c :: cs, h, ht => by
    simp only [matchesTemplate, Bool.and_eq_true] at h
    intro x hx
    rcases List.mem_cons.mp hx with hx | hx
    · subst hx
      by_cases hp : 65 ≤ p.val ∧ p.val ≤ 90
      · rw [if_pos hp] at h
        exact isDigit_not_sign x h.1
      · rw [if_neg hp] at h
        have := of_decide_eq_true h.1
        rw [this]
        exact ht p (List.mem_cons_self _ _)
    · exact matchesTemplate_noSign ps cs h.2 (fun q hq => ht q (List.mem_cons_of_mem _ hq)) x hx

theorem isFraction_noSign (fr : List Byte) (h : isFraction fr = true) :
    ∀ c ∈ fr, isSign c = false := by
  cases fr with
  | nil => simp
  | cons d ds =>
    simp only [isFraction, Bool.and_eq_true, decide_eq_true_eq, List.all_eq_true] at h
    intro c hc
    rcases List.mem_cons.mp hc with hc | hc
    · rw [hc, h.1.1]
      decide
    · exact isDigit_not_sign c (h.2 c hc)

theorem get?_middle (A M B : List Byte) (i : Nat) (h1 : A.length ≤ i)
    (h2 : i < A.length + M.length) : ∃ c, (A ++ M ++ B).get? i = some c ∧ c ∈ M := by
  have h3 : i - A.length < M.length := by omega
  refine ⟨M[i - A.length], ?_, List.getElem_mem _⟩
  rw [List.get?_eq_getElem?, List.append_assoc, List.getElem?_append_right h1,
    List.getElem?_append_left h3]
  exact List.getElem?_eq_getElem h3

theorem get?_after (A : List Byte) (c : Byte) (rest : List Byte) (i : Nat)
    (h : i = A.length) : (A ++ c :: rest).get? i = some c := by
  subst h
  rw [List.get?_eq_getElem?, List.getElem?_append_right (Nat.le_refl _), Nat.sub_self]
  exact List.getElem?_cons_zero

theorem not_sign_at (s : List Byte) (i : Nat) (c : Byte) (h : s.get? i = some c)
    (hc : isSign c = false) : ¬ (s.get? i = some 45 ∨ s.get? i = some 43) := by
  rw [h]
  simp only [isSign, decide_eq_false_iff_not] at hc
  rintro (h1 | h1)
  · exact hc (Or.inl (Option.some.inj h1))
  · exact hc (Or.inr (Option.some.inj h1))

theorem sign_at (s : List Byte) (i : Nat) (c : Byte) (h : s.get? i = some c)
    (hc : isSign c = true) : s.get? i = some 45 ∨ s.get? i = some 43 := by
  rw [h]
  simp only [isSign, decide_eq_true_eq] at hc
  rcases hc with hc | hc
  · exact Or.inl (congrArg some hc)
  · exact Or.inr (congrArg some hc)

theorem isOffset_cons (template : String) (off : List Byte)
    (h : isOffset template off = true) :
    ∃ c rest, off = c :: rest ∧ isSign c = true ∧
      rest.length = (bytesOf template).length := by
  cases off with
  | nil => simp [isOffset] at h
  | cons c rest =>
    simp only [isOffset, Bool.and_eq_true] at h
    exact ⟨c, rest, rfl, h.1, matchesTemplate_length _ _ h.2⟩

set_option maxRecDepth 4000 in
theorem dateTime_tail_noSign :
    ∀ p ∈ (bytesOf "YYYY-MM-DD HH:MM:SS").drop 8, isSign p = false := by
  decide

/-- A text of the form `YYYY-MM-DD HH:MM:SS` with an optional fraction is eight
characters followed by eleven or more characters none of which is a sign. -/
theorem dateTime_split (dt fr : List Byte) (hdt : isDateTime dt = true)
    (hfr : isFraction fr = true) :
    ∃ A M : List Byte, dt ++ fr = A ++ M ∧ A.length = 8 ∧ 11 ≤ M.length ∧
      ∀ c ∈ M, isSign c = false := by
  have hlen : dt.length = 19 := matchesTemplate_length _ _ hdt
  have hdrop := matchesTemplate_drop 8 _ _ hdt
  have hns : ∀ c ∈ dt.drop 8, isSign c = false :=
    matchesTemplate_noSign _ _ hdrop dateTime_tail_noSign
  refine ⟨dt.take 8, dt.drop 8 ++ fr, ?_, ?_, ?_, ?_⟩
  · rw [← List.append_assoc, List.take_append_drop]
  · rw [List.length_take]
    omega
  · rw [List.length_append, List.length_drop]
    omega
  · intro c hc
    rcases List.mem_append.mp hc with hc | hc
    · exact hns c hc
    · exact isFraction_noSign fr hfr c hc

theorem formats_distinct :
    pgTimestamptzSecondFormat ≠ pgTimestamptzMinuteFormat ∧
      pgTimestamptzSecondFormat ≠ pgTimestamptzHourFormat ∧
      pgTimestamptzMinuteFormat ≠ pgTimestamptzHourFormat := by
  decide

/-- With eight characters, then a stretch without a sign, then a sign and two more
characters, neither position holds a sign and the hour layout is selected. -/
theorem selectFormat_hour (A M : List Byte) (c : Byte) (rest : List Byte)
    (hA : A.length = 8) (hM : 11 ≤ M.length) (hns : ∀ x ∈ M, isSign x = false)
    (hrest : rest.length = 2) :
    ¬ ((A ++ M ++ c :: rest).get? ((A ++ M ++ c :: rest).length - 9) = some 45 ∨
        (A ++ M ++ c :: rest).get? ((A ++ M ++ c :: rest).length - 9) = some 43) ∧
      ¬ ((A ++ M ++ c :: rest).get? ((A ++ M ++ c :: rest).length - 6) = some 45 ∨
        (A ++ M ++ c :: rest).get? ((A ++ M ++ c :: rest).length - 6) = some 43) := by
  have hlen : (A ++ M ++ c :: rest).length = 8 + M.length + 3 := by
    simp only [List.length_append, List.length_cons, hA, hrest]
  rw [hlen]
  obtain ⟨x, hx, hxm⟩ := get?_middle A M (c :: rest) (8 + M.length + 3 - 9)
    (by omega) (by omega)
  obtain ⟨y, hy, hym⟩ := get?_middle A M (c :: rest) (8 + M.length + 3 - 6)
    (by omega) (by omega)
  exact ⟨not_sign_at _ _ x hx (hns x hxm), not_sign_at _ _ y hy (hns y hym)⟩

/-- With a sign and five more characters at the end, the position 9 from the end holds
no sign and the position 6 from the end holds the sign. -/
theorem selectFormat_minute (A M : List Byte) (c : Byte) (rest : List Byte)
    (hA : A.length = 8) (hM : 11 ≤ M.length) (hns : ∀ x ∈ M, isSign x = false)
    (hc : isSign c = true) (hrest : rest.length = 5) :
    ¬ ((A ++ M ++ c :: rest).get? ((A ++ M ++ c :: rest).length - 9) = some 45 ∨
        (A ++ M ++ c :: rest).get? ((A ++ M ++ c :: rest).length - 9) = some 43) ∧
      ((A ++ M ++ c :: rest).get? ((A ++ M ++ c :: rest).length - 6) = some 45 ∨
        (A ++ M ++ c :: rest).get? ((A ++ M ++ c :: rest).length - 6) = some 43) := by
  have hlen : (A ++ M ++ c :: rest).length = 8 + M.length + 6 := by
    simp only [List.length_append, List.length_cons, hA, hrest]
  rw [hlen]
  obtain ⟨x, hx, hxm⟩ := get?_middle A M (c :: rest) (8 + M.length + 6 - 9)
    (by omega) (by omega)
  have hy := get?_after (A ++ M) c rest (8 + M.length + 6 - 6)
    (by simp only [List.length_append, hA]; omega)
  exact ⟨not_sign_at _ _ x hx (hns x hxm), sign_at _ _ c hy hc⟩

/-- With a sign and eight more characters at the end, the position 9 from the end holds
the sign. -/
theorem selectFormat_second (X : List Byte) (c : Byte) (rest : List Byte)
    (hc : isSign c = true) (hrest : rest.length = 8) :
    (X ++ c :: rest).get? ((X ++ c :: rest).length - 9) = some 45 ∨
      (X ++ c :: rest).get? ((X ++ c :: rest).length - 9) = some 43 := by
  have hy := get?_after X c rest ((X ++ c :: rest).length - 9)
    (by simp only [List.length_append, List.length_cons, hrest]; omega)
  exact sign_at _ _ c hy hc

/-- For a text of nine bytes or more, each layout is selected exactly on its condition
on the characters 9 and 6 from the end. -/
theorem selectFormat_iff (s : List Byte) (h : 9 ≤ s.length) :
    (Timestamptz.selectFormat s = pgTimestamptzSecondFormat ↔
        (s.get? (s.length - 9) = some 45 ∨ s.get? (s.length - 9) = some 43)) ∧
      (Timestamptz.selectFormat s = pgTimestamptzMinuteFormat ↔
        ¬ (s.get? (s.length - 9) = some 45 ∨ s.get? (s.length - 9) = some 43) ∧
          (s.get? (s.length - 6) = some 45 ∨ s.get? (s.length - 6) = some 43)) ∧
      (Timestamptz.selectFormat s = pgTimestamptzHourFormat ↔
        ¬ (s.get? (s.length - 9) = some 45 ∨ s.get? (s.length - 9) = some 43) ∧
          ¬ (s.get? (s.length - 6) = some 45 ∨ s.get? (s.length - 6) = some 43)) := by
  obtain ⟨d1, d2, d3⟩ := formats_distinct
  have h6 : s.length ≥ 6 := by omega
  by_cases c9 : s.get? (s.length - 9) = some 45 ∨ s.get? (s.length - 9) = some 43
  · have e : Timestamptz.selectFormat s = pgTimestamptzSecondFormat := by
      unfold Timestamptz.selectFormat
      rw [if_pos ⟨h, c9⟩]
    rw [e]
    exact ⟨⟨fun _ => c9, fun _ => rfl⟩, ⟨fun x => absurd x d1, fun x => absurd c9 x.1⟩,
      ⟨fun x => absurd x d2, fun x => absurd c9 x.1⟩⟩
  · by_cases c6 : s.get? (s.length - 6) = some 45 ∨ s.get? (s.length - 6) = some 43
    · have e : Timestamptz.selectFormat s = pgTimestamptzMinuteFormat := by
        unfold Timestamptz.selectFormat
        rw [if_neg (fun x => c9 x.2), if_pos ⟨h6, c6⟩]
      rw [e]
      exact ⟨⟨fun x => absurd x.symm d1, fun x => absurd x c9⟩,
        ⟨fun _ => ⟨c9, c6⟩, fun _ => rfl⟩, ⟨fun x => absurd x d3, fun x => absurd c6 x.2⟩⟩
    · have e : Timestamptz.selectFormat s = pgTimestamptzHourFormat := by
        unfold Timestamptz.selectFormat
        rw [if_neg (fun x => c9 x.2), if_neg (fun x => c6 x.2)]
      rw [e]
      exact ⟨⟨fun x => absurd x.symm d2, fun x => absurd x c9⟩,
        ⟨fun x => absurd x.symm d3, fun x => absurd x.2 c6⟩, ⟨fun _ => ⟨c9, c6⟩, fun _ => rfl⟩⟩

/-- `DecodeText` of a text longer than nine bytes hands it to `time.Parse` with the
selected layout. -/
theorem timestamptz_decodeText_long (Parse : List Byte → List Byte → Except Err Time)
    (dst : Timestamptz) (s : List Byte) (h : 9 < s.length) :
    Timestamptz.DecodeText Parse dst (some s) =
      (match Parse (Timestamptz.selectFormat s) s with
        | .error err => (dst, some err)
        | .ok tim => ({ Time := tim, Status := Present, InfinityModifier := None }, none)) := by
  have h1 : s ≠ bytesOf "infinity" := by
    intro e
    rw [e] at h
    exact absurd h (by decide)
  have h2 : s ≠ bytesOf "-infinity" := by
    intro e
    rw [e] at h
    exact absurd h (by decide)
  simp only [Timestamptz.DecodeText, if_neg h1, if_neg h2]

/-- C23.  For a text `YYYY-MM-DD HH:MM:SS`, an optional fraction and a timezone offset,
the layout selected is the hour layout when the offset is a sign and `HH`, the minute
layout when it is a sign and `HH:MM`, and the second layout when it is a sign and
`HH:MM:SS`.  For each such text `DecodeText` hands the text to `time.Parse` with the
selected layout, and the second layout is selected exactly when the character 9 from
the end is `-` or `+`, otherwise the minute layout exactly when the character 6 from
the end is, otherwise the hour layout. -/
theorem timestamptz_layout_selection (Parse : List Byte → List Byte → Except Err Time)
    (dst : Timestamptz) (dt fr off : List Byte) (hdt : isDateTime dt = true)
    (hfr : isFraction fr = true) :
    (isOffset "HH" off = true →
        Timestamptz.selectFormat (dt ++ fr ++ off) = pgTimestamptzHourFormat) ∧
      (isOffset "HH:MM" off = true →
        Timestamptz.selectFormat (dt ++ fr ++ off) = pgTimestamptzMinuteFormat) ∧
      (isOffset "HH:MM:SS" off = true →
        Timestamptz.selectFormat (dt ++ fr ++ off) = pgTimestamptzSecondFormat) ∧
      (isOffset "HH" off = true ∨ isOffset "HH:MM" off = true ∨
          isOffset "HH:MM:SS" off = true →
        Timestamptz.DecodeText Parse dst (some (dt ++ fr ++ off)) =
          (match Parse (Timestamptz.selectFormat (dt ++ fr ++ off)) (dt ++ fr ++ off) with
            | .error err => (dst, some err)
            | .ok tim =>
              ({ Time := tim, Status := Present, InfinityModifier := None }, none)) ∧
        (Timestamptz.selectFormat (dt ++ fr ++ off) = pgTimestamptzSecondFormat ↔
          ((dt ++ fr ++ off).get? ((dt ++ fr ++ off).length - 9) = some 45 ∨
            (dt ++ fr ++ off).get? ((dt ++ fr ++ off).length - 9) = some 43)) ∧
        (Timestamptz.selectFormat (dt ++ fr ++ off) = pgTimestamptzMinuteFormat ↔
          ¬ ((dt ++ fr ++ off).get? ((dt ++ fr ++ off).length - 9) = some 45 ∨
            (dt ++ fr ++ off).get? ((dt ++ fr ++ off).length - 9) = some 43) ∧
          ((dt ++ fr ++ off).get? ((dt ++ fr ++ off).length - 6) = some 45 ∨
            (dt ++ fr ++ off).get? ((dt ++ fr ++ off).length - 6) = some 43)) ∧
        (Timestamptz.selectFormat (dt ++ fr ++ off) = pgTimestamptzHourFormat ↔
          ¬ ((dt ++ fr ++ off).get? ((dt ++ fr ++ off).length - 9) = some 45 ∨
            (dt ++ fr ++ off).get? ((dt ++ fr ++ off).length - 9) = some 43) ∧
          ¬ ((dt ++ fr ++ off).get? ((dt ++ fr ++ off).length - 6) = some 45 ∨
            (dt ++ fr ++ off).get? ((dt ++ fr ++ off).length - 6) = some 43))) := by
  obtain ⟨A, M, hAM, hA, hM, hns⟩ := dateTime_split dt fr hdt hfr
  rw [hAM]
  have hlen : ∀ template, isOffset template off = true → 9 < (A ++ M ++ off).length := by
    intro template h
    obtain ⟨c, rest, hoff, _, _⟩ := isOffset_cons template off h
    rw [hoff]
    simp only [List.length_append, List.length_cons, hA]
    omega
  have hHour : isOffset "HH" off = true →
      Timestamptz.selectFormat (A ++ M ++ off) = pgTimestamptzHourFormat := by
    intro h
    have h9 := hlen _ h
    obtain ⟨c, rest, hoff, _, hrest⟩ := isOffset_cons _ off h
    subst hoff
    exact (selectFormat_iff _ (by omega)).2.2.2 (selectFormat_hour A M c rest hA hM hns hrest)
  have hMinute : isOffset "HH:MM" off = true →
      Timestamptz.selectFormat (A ++ M ++ off) = pgTimestamptzMinuteFormat := by
    intro h
    have h9 := hlen _ h
    obtain ⟨c, rest, hoff, hc, hrest⟩ := isOffset_cons _ off h
    subst hoff
    exact (selectFormat_iff _ (by omega)).2.1.2
      (selectFormat_minute A M c rest hA hM hns hc hrest)
  have hSecond : isOffset "HH:MM:SS" off = true →
      Timestamptz.selectFormat (A ++ M ++ off) = pgTimestamptzSecondFormat := by
    intro h
    have h9 := hlen _ h
    obtain ⟨c, rest, hoff, hc, hrest⟩ := isOffset_cons _ off h
    subst hoff
    exact (selectFormat_iff _ (by omega)).1.2 (selectFormat_second (A ++ M) c rest hc hrest)
  refine ⟨hHour, hMinute, hSecond, ?_⟩
  intro h
  have h9 : 9 < (A ++ M ++ off).length := by
    rcases h with h | h | h <;> exact hlen _ h
  exact ⟨timestamptz_decodeText_long Parse dst _ h9, selectFormat_iff _ (by omega)⟩

/-- C23, at the texts `2000-01-01 00:00:00+00`, `2000-01-01 00:00:00.5-07:30` and
`1999-12-31 23:59:59.123456+05:30:15`: the hour, the minute and the second layout. -/
theorem timestamptz_layout_selection_witness :
    (isDateTime (bytesOf "2000-01-01 00:00:00") = true ∧ isFraction [] = true ∧
        isOffset "HH" (bytesOf "+00") = true ∧
        Timestamptz.selectFormat (bytesOf "2000-01-01 00:00:00" ++ [] ++ bytesOf "+00") =
          pgTimestamptzHourFormat) ∧
      (isDateTime (bytesOf "2000-01-01 00:00:00") = true ∧
        isFraction (bytesOf ".5") = true ∧ isOffset "HH:MM" (bytesOf "-07:30") = true ∧
        Timestamptz.selectFormat
            (bytesOf "2000-01-01 00:00:00" ++ bytesOf ".5" ++ bytesOf "-07:30") =
          pgTimestamptzMinuteFormat) ∧
      (isDateTime (bytesOf "1999-12-31 23:59:59") = true ∧
        isFraction (bytesOf ".123456") = true ∧
        isOffset "HH:MM:SS" (bytesOf "+05:30:15") = true ∧
        Timestamptz.selectFormat
            (bytesOf "1999-12-31 23:59:59" ++ bytesOf ".123456" ++ bytesOf "+05:30:15") =
          pgTimestamptzSecondFormat) :=
  ⟨⟨by decide, by decide, by decide,
      (timestamptz_layout_selection (fun _ _ => .error Err.parse) Timestamptz.nullValue
        (bytesOf "2000-01-01 00:00:00") [] (bytesOf "+00") (by decide) (by decide)).1
        (by decide)⟩,
    ⟨by decide, by decide, by decide,
      (timestamptz_layout_selection (fun _ _ => .error Err.parse) Timestamptz.nullValue
        (bytesOf "2000-01-01 00:00:00") (bytesOf ".5") (bytesOf "-07:30") (by decide)
        (by decide)).2.1 (by decide)⟩,
    ⟨by decide, by decide, by decide,
      (timestamptz_layout_selection (fun _ _ => .error Err.parse) Timestamptz.nullValue
        (bytesOf "1999-12-31 23:59:59") (bytesOf ".123456") (bytesOf "+05:30:15")
        (by decide) (by decide)).2.2.1 (by decide)⟩⟩

theorem array16_copyFrom_val (b : List Byte) (h : b.length = 16) :
    (Array16.zero.copyFrom b).val = b :=
  goCopy_same_length _ b (by rw [h, Array16.zero.property])

theorem dropWhile_quote_split (s : List Byte) :
    ∃ n, s = List.replicate n 34 ++ s.dropWhile (fun c => (bytesOf "\"").contains c) ∧
      (s.dropWhile fun c => (bytesOf "\"").contains c).head? ≠ some 34 := by
  induction s with
  | nil => exact ⟨0, rfl, by simp⟩
  | cons c cs ih =>
    by_cases hc : c = 34
    · subst hc
      obtain ⟨n, h1, h2⟩ := ih
      refine ⟨n + 1, ?_, ?_⟩
      · have e : List.dropWhile (fun c => (bytesOf "\"").contains c) ((34 : Byte) :: cs) =
            List.dropWhile (fun c => (bytesOf "\"").contains c) cs := by
          rw [List.dropWhile_cons]
          rfl
        rw [e, List.replicate_succ, List.cons_append, ← h1]
      · have e : List.dropWhile (fun c => (bytesOf "\"").contains c) ((34 : Byte) :: cs) =
            List.dropWhile (fun c => (bytesOf "\"").contains c) cs := by
          rw [List.dropWhile_cons]
          rfl
        rw [e]
        exact h2
    · have hq : (bytesOf "\"").contains c = false := by
        have : bytesOf "\"" = [34] := by decide
        rw [this]
        simp [hc]
      have e : List.dropWhile (fun c => (bytesOf "\"").contains c) (c :: cs) = c :: cs := by
        rw [List.dropWhile_cons]
        simp only [hq]
        rfl
      rw [e]
      refine ⟨0, rfl, ?_⟩
      simp only [List.head?_cons, ne_eq, Option.some.injEq]
      exact hc

/-- What `Trim` removes for the cutset of the double quote: the text is some quotes, the
trimmed text and some quotes, and the trimmed text neither starts nor ends with a
quote. -/
theorem trim_quotes_split (s : List Byte) :
    ∃ n m, s = List.replicate n 34 ++ Trim s (bytesOf "\"") ++ List.replicate m 34 ∧
      (Trim s (bytesOf "\"")).head? ≠ some 34 ∧
      (Trim s (bytesOf "\"")).getLast? ≠ some 34 := by
  obtain ⟨n, h1, h2⟩ := dropWhile_quote_split s
  obtain ⟨m, h3, h4⟩ :=
    dropWhile_quote_split (s.dropWhile fun c => (bytesOf "\"").contains c).reverse
  have hT : Trim s (bytesOf "\"") =
      ((s.dropWhile fun c => (bytesOf "\"").contains c).reverse.dropWhile fun c =>
        (bytesOf "\"").contains c).reverse := rfl
  generalize (s.dropWhile fun c => (bytesOf "\"").contains c) = D at h1 h2 h3 h4 hT
  generalize (D.reverse.dropWhile fun c => (bytesOf "\"").contains c) = E at h3 h4 hT
  have hD : D = E.reverse ++ List.replicate m 34 := by
    have := congrArg List.reverse h3
    rw [List.reverse_reverse, List.reverse_append, List.reverse_replicate] at this
    exact this
  rw [hT]
  refine ⟨n, m, ?_, ?_, ?_⟩
  · rw [List.append_assoc, ← hD]
    exact h1
  · cases hE : E.reverse with
    | nil => simp
    | cons x xs =>
      rw [hD, hE] at h2
      simpa using h2
  · rw [List.getLast?_reverse]
    exact h4

/-- C24.  `UUID.UnmarshalJSON` of an input of exactly 16 bytes succeeds with status
Present and a payload equal to those bytes, whatever they are and whatever the text
parser would make of them.  An input of another length that is not the literal `null`
is parsed as text after `bytes.Trim` took its leading and trailing double quotes off:
an error of the parser is returned with the receiver unchanged, and an identifier it
returns is stored with status Present.  The nil input and the literal `null` leave the
Null value without an error. -/
theorem uuid_unmarshalJSON (UnmarshalText : List Byte → Except Err Array16) (dst : UUID)
    (b : List Byte) :
    (b.length = 16 → ∃ u : Array16, u.val = b ∧
        UUID.UnmarshalJSON UnmarshalText dst (some b) =
          ({ UUID := u, Status := Present }, none)) ∧
      (b.length ≠ 16 → b ≠ bytesOf "null" →
        UUID.UnmarshalJSON UnmarshalText dst (some b) =
          (match UnmarshalText (Trim b (bytesOf "\"")) with
            | .error err => (dst, some err)
            | .ok u => ({ UUID := u, Status := Present }, none)) ∧
        ∃ n m, b = List.replicate n 34 ++ Trim b (bytesOf "\"") ++ List.replicate m 34 ∧
          (Trim b (bytesOf "\"")).head? ≠ some 34 ∧
          (Trim b (bytesOf "\"")).getLast? ≠ some 34) ∧
      UUID.UnmarshalJSON UnmarshalText dst none = (UUID.nullValue, none) ∧
      UUID.UnmarshalJSON UnmarshalText dst (some (bytesOf "null")) = (UUID.nullValue, none) ∧
      UUID.nullValue.Status = Null := by
  refine ⟨?_, ?_, ?_, ?_, rfl⟩
  · intro h
    have hn : ¬ ((some b : Slice) = none ∨ b = bytesOf "null") := by
      rintro (h1 | h1)
      · exact absurd h1 (by simp)
      · rw [h1] at h
        exact absurd h (by decide)
    refine ⟨Array16.zero.copyFrom b, array16_copyFrom_val b h, ?_⟩
    simp only [UUID.UnmarshalJSON, Option.getD_some, if_neg hn, h, if_true,
      Array16.UnmarshalBinary, ne_eq, not_true_eq_false, if_false]
  · intro h hnull
    have hn : ¬ ((some b : Slice) = none ∨ b = bytesOf "null") := by
      rintro (h1 | h1)
      · exact absurd h1 (by simp)
      · exact hnull h1
    refine ⟨?_, trim_quotes_split b⟩
    simp only [UUID.UnmarshalJSON, Option.getD_some, if_neg hn, if_neg h]
    cases UnmarshalText (Trim b (bytesOf "\"")) <;> rfl
  · simp only [UUID.UnmarshalJSON, true_or, if_true]
  · simp only [UUID.UnmarshalJSON, Option.getD_some, or_true, if_true]

/-- C24, at the 16 bytes of the JSON string `"abcdefghijklmn"`, with a text parser
that rejects everything: the receiver is Present and its payload is the 16 bytes, the
two quotes included. -/
theorem uuid_unmarshalJSON_witness :
    (bytesOf "\"abcdefghijklmn\"").length = 16 ∧
      ∃ u : Array16, u.val = bytesOf "\"abcdefghijklmn\"" ∧
        UUID.UnmarshalJSON (fun _ => .error Err.parse) UUID.nullValue
            (some (bytesOf "\"abcdefghijklmn\"")) =
          ({ UUID := u, Status := Present }, none) :=
  ⟨by decide, (uuid_unmarshalJSON (fun _ => .error Err.parse) UUID.nullValue
    (bytesOf "\"abcdefghijklmn\"")).1 (by decide)⟩

end Tstype
